import Mathlib

/-!
# A verification development for `vector.h`

`vector.h` defines two class templates:

* `RawMemory<T>`: the exclusive owner of one block of raw, uninitialised storage;
* `Vector<T>`: a growable array that owns one `RawMemory<T>` and a length `size_`.

The embedding below is shallow.  The free store is an explicit value of type `Heap T`
that every operation receives and returns.  A block is a list of slots; a slot is
either raw storage (`none`) or holds a live object (`some v`).  Operations that the
C++ standard leaves undefined (reading raw storage, assigning to or destroying an
object that is not alive, touching released or foreign storage) and failed `assert`s
are reported as a `Fault`, so that a theorem of the form `op … = .ok …` says that the
call runs to completion without tripping either.

Modelling conventions, fixed once and used throughout:

* `size_t` is `Nat` with an explicit `% 2 ^ 64` at every place where the source
  multiplies, increments or decrements a `size_t`;
* `operator new` always succeeds (no `std::bad_alloc`); the block it returns has room
  for as many `T` as fit in the byte count it was handed;
* in the first part the operations of the element type `T` do not throw, so the
  `catch (...)` handlers of the source are unreachable and do not appear; the last
  part (`Throwing`, `Outcome` and the definitions whose names end in `_ex`) follows
  the same functions when a constructor or an assignment of `T` throws;
* the state a moved-from object is left in is an arbitrary function of the values
  involved (`ValueType.movedFrom`, `ValueType.assignedFrom`).
-/

namespace Cpp

/-- The two ways a call can go wrong without throwing. -/
inductive Fault where
  /-- an `assert(...)` of the source evaluated to false -/
  | assertion
  /-- undefined behaviour: an access to storage that is not there or not alive -/
  | undefined
deriving DecidableEq, Repr

/-- What the container needs to know about its element type `T`. -/
class ValueType (T : Type) where
  /-- `sizeof(T)` -/
  sizeofT : Nat
  sizeofT_pos : 0 < sizeofT
  sizeofT_lt : sizeofT < 2 ^ 64
  /-- the value of `T()` -/
  valueInit : T
  /-- state of an object after it was the source of a move construction -/
  movedFrom : T → T
  /-- state of an object holding `src` after it was move-assigned to an object
  that held `dst` -/
  assignedFrom : (dst src : T) → T
  /-- `std::is_nothrow_move_constructible_v<T>` -/
  nothrow_move_constructible : Bool
  /-- `std::is_copy_constructible_v<T>` -/
  copy_constructible : Bool

/-- One block of storage: its slots, raw (`none`) or live (`some v`). -/
abbrev Block (T : Type) := List (Option T)

/-- The free store.  Block number `a` is `blocks[a]`; it is `none` once released.
Addresses are never reused. -/
structure Heap (T : Type) where
  blocks : List (Option (Block T))
deriving DecidableEq, Repr

/-- A `T*`: the block it points into (`none` for a null pointer) and the element
offset inside that block. -/
structure Ptr where
  base : Option Nat
  off : Nat
deriving DecidableEq, Repr

variable {T : Type}

/-- Pointer plus element count. -/
def Ptr.add (p : Ptr) (k : Nat) : Ptr := ⟨p.base, p.off + k⟩

/-- Pointer minus element count; stepping in front of the block is undefined. -/
def Ptr.sub (p : Ptr) (k : Nat) : Except Fault Ptr :=
  if k ≤ p.off then .ok ⟨p.base, p.off - k⟩ else .error .undefined

/-- `p - q` for two pointers into the same block with `q` not after `p`. -/
def Ptr.diff (p q : Ptr) : Except Fault Nat :=
  if p.base = q.base ∧ q.off ≤ p.off then .ok (p.off - q.off) else .error .undefined

/-- The slots of block `a`, if `a` is allocated and not released. -/
def Heap.block (h : Heap T) (a : Nat) : Option (Block T) :=
  match h.blocks[a]? with
  | some (some b) => some b
  | _ => none

/-- Replace the contents of entry `a`. -/
def Heap.setBlock (h : Heap T) (a : Nat) (b : Option (Block T)) : Heap T :=
  ⟨h.blocks.set a b⟩

/-- The slot `p` points to. -/
def Heap.slot (h : Heap T) (p : Ptr) : Except Fault (Option T) :=
  match p.base with
  | none => .error .undefined
  | some a =>
    match h.block a with
    | none => .error .undefined
    | some b =>
      match b[p.off]? with
      | none => .error .undefined
      | some s => .ok s

/-- Overwrite the slot `p` points to. -/
def Heap.setSlot (h : Heap T) (p : Ptr) (s : Option T) : Except Fault (Heap T) :=
  match p.base with
  | none => .error .undefined
  | some a =>
    match h.block a with
    | none => .error .undefined
    | some b =>
      if p.off < b.length then .ok (h.setBlock a (some (b.set p.off s)))
      else .error .undefined

/-- Read the live object at `p`. -/
def Heap.load (h : Heap T) (p : Ptr) : Except Fault T :=
  match h.slot p with
  | .ok (some v) => .ok v
  | _ => .error .undefined

/-- Placement new, `new (p) T(v)`: begins the lifetime of an object in the slot. -/
def construct_at (h : Heap T) (p : Ptr) (v : T) : Except Fault (Heap T) :=
  h.setSlot p (some v)

/-- `std::destroy_at(p)`: ends the lifetime of the object in the slot. -/
def destroy_at (h : Heap T) (p : Ptr) : Except Fault (Heap T) :=
  match h.load p with
  | .ok _ => h.setSlot p none
  | .error e => .error e

/-- Copy assignment `*p = v`: the target must be a live object. -/
def assign (h : Heap T) (p : Ptr) (v : T) : Except Fault (Heap T) :=
  match h.load p with
  | .ok _ => h.setSlot p (some v)
  | .error e => .error e

/-- Move assignment `*dst = std::move(*src)`. -/
def move_assign [ValueType T] (h : Heap T) (dst src : Ptr) : Except Fault (Heap T) :=
  match h.load src with
  | .error e => .error e
  | .ok v =>
    match h.load dst with
    | .error e => .error e
    | .ok old =>
      match h.setSlot dst (some v) with
      | .error e => .error e
      | .ok h1 => h1.setSlot src (some (ValueType.assignedFrom old v))

/-- Move construction `new (dst) T(std::move(*src))`. -/
def move_construct [ValueType T] (h : Heap T) (dst src : Ptr) : Except Fault (Heap T) :=
  match h.load src with
  | .error e => .error e
  | .ok v =>
    match h.setSlot dst (some v) with
    | .error e => .error e
    | .ok h1 => h1.setSlot src (some (ValueType.movedFrom v))

/-- Copy construction `new (dst) T(*src)`. -/
def copy_construct (h : Heap T) (dst src : Ptr) : Except Fault (Heap T) :=
  match h.load src with
  | .error e => .error e
  | .ok v => h.setSlot dst (some v)

/-- `std::uninitialized_copy_n(src, n, dst)`. -/
def uninitialized_copy_n (h : Heap T) (src : Ptr) : Nat → Ptr → Except Fault (Heap T)
  | 0, _ => .ok h
  | n + 1, dst =>
    match copy_construct h dst src with
    | .error e => .error e
    | .ok h1 => uninitialized_copy_n h1 (src.add 1) n (dst.add 1)

/-- `std::uninitialized_move_n(src, n, dst)` through a `T*` source. -/
def uninitialized_move_n [ValueType T] (h : Heap T) (src : Ptr) :
    Nat → Ptr → Except Fault (Heap T)
  | 0, _ => .ok h
  | n + 1, dst =>
    match move_construct h dst src with
    | .error e => .error e
    | .ok h1 => uninitialized_move_n h1 (src.add 1) n (dst.add 1)

/-- `std::uninitialized_move_n(src, n, dst)` through a `const T*` source:
`std::move(*src)` is then a `const T&&`, which only the copy constructor of `T`
accepts, so every element is copy-constructed and the source is left as it was. -/
def uninitialized_move_n_const (h : Heap T) (src : Ptr) (n : Nat) (dst : Ptr) :
    Except Fault (Heap T) :=
  uninitialized_copy_n h src n dst

/-- `std::copy_n(src, n, dst)`: element-wise copy assignment. -/
def copy_n (h : Heap T) (src : Ptr) : Nat → Ptr → Except Fault (Heap T)
  | 0, _ => .ok h
  | n + 1, dst =>
    match h.load src with
    | .error e => .error e
    | .ok v =>
      match assign h dst v with
      | .error e => .error e
      | .ok h1 => copy_n h1 (src.add 1) n (dst.add 1)

/-- The loop of `std::move(first, last, d_first)`, `n` being `last - first`:
element-wise move assignment, lowest index first. -/
def move_n [ValueType T] (h : Heap T) (first : Ptr) : Nat → Ptr → Except Fault (Heap T)
  | 0, _ => .ok h
  | n + 1, d_first =>
    match move_assign h d_first first with
    | .error e => .error e
    | .ok h1 => move_n h1 (first.add 1) n (d_first.add 1)

/-- `std::move(first, last, d_first)`. -/
def std_move [ValueType T] (h : Heap T) (first last d_first : Ptr) :
    Except Fault (Heap T) :=
  match last.diff first with
  | .error e => .error e
  | .ok n => move_n h first n d_first

/-- The loop of `std::move_backward(first, last, d_last)`, `n` being `last - first`:
`*(--d_last) = std::move(*(--last))`, highest index first. -/
def move_backward_n [ValueType T] (h : Heap T) (last : Ptr) :
    Nat → Ptr → Except Fault (Heap T)
  | 0, _ => .ok h
  | n + 1, d_last =>
    match last.sub 1 with
    | .error e => .error e
    | .ok last1 =>
      match d_last.sub 1 with
      | .error e => .error e
      | .ok d_last1 =>
        match move_assign h d_last1 last1 with
        | .error e => .error e
        | .ok h1 => move_backward_n h1 last1 n d_last1

/-- `std::move_backward(first, last, d_last)`. -/
def std_move_backward [ValueType T] (h : Heap T) (first last d_last : Ptr) :
    Except Fault (Heap T) :=
  match last.diff first with
  | .error e => .error e
  | .ok n => move_backward_n h last n d_last

/-- `std::destroy_n(p, n)`. -/
def destroy_n (h : Heap T) : Ptr → Nat → Except Fault (Heap T)
  | _, 0 => .ok h
  | p, n + 1 =>
    match destroy_at h p with
    | .error e => .error e
    | .ok h1 => destroy_n h1 (p.add 1) n

/-- `std::uninitialized_value_construct_n(p, n)`. -/
def uninitialized_value_construct_n [ValueType T] (h : Heap T) :
    Ptr → Nat → Except Fault (Heap T)
  | _, 0 => .ok h
  | p, n + 1 =>
    match construct_at h p (ValueType.valueInit : T) with
    | .error e => .error e
    | .ok h1 => uninitialized_value_construct_n h1 (p.add 1) n

/-! ## `RawMemory<T>` -/

/-- The data members of `RawMemory<T>`, with their default member initialisers. -/
structure RawMemory where
  buffer_ : Option Nat := none
  capacity_ : Nat := 0
deriving DecidableEq, Repr

/-- The byte count `n * sizeof(T)` that `Allocate(n)` hands to `operator new`: a
`size_t` product. -/
def allocationBytes (T : Type) [ValueType T] (n : Nat) : Nat :=
  n * ValueType.sizeofT T % 2 ^ 64

/-- `RawMemory::Allocate(n)`: `n != 0 ? operator new(n * sizeof(T)) : nullptr`.
The block has room for as many objects as the bytes requested can hold. -/
def Allocate [ValueType T] (h : Heap T) (n : Nat) : Heap T × Option Nat :=
  if n ≠ 0 then
    (⟨h.blocks ++ [some (List.replicate
        (allocationBytes T n / ValueType.sizeofT T) none)]⟩,
      some h.blocks.length)
  else (h, none)

/-- `RawMemory::Deallocate(buf)`: `operator delete(buf)`.  Deleting a null pointer
does nothing; deleting anything but a block that is currently allocated is
undefined. -/
def Deallocate (h : Heap T) (buf : Option Nat) : Except Fault (Heap T) :=
  match buf with
  | none => .ok h
  | some a =>
    match h.block a with
    | none => .error .undefined
    | some _ => .ok (h.setBlock a none)

namespace RawMemory

/-- `RawMemory(size_t capacity)`. -/
def create [ValueType T] (h : Heap T) (capacity : Nat) : Heap T × RawMemory :=
  let r := Allocate h capacity
  (r.1, { buffer_ := r.2, capacity_ := capacity })

/-- `~RawMemory()`. -/
def destroy (h : Heap T) (r : RawMemory) : Except Fault (Heap T) :=
  Deallocate h r.buffer_

/-- `RawMemory::Swap`: returns the new `*this` and the new `other`. -/
def Swap (r other : RawMemory) : RawMemory × RawMemory :=
  ({ buffer_ := other.buffer_, capacity_ := other.capacity_ },
   { buffer_ := r.buffer_, capacity_ := r.capacity_ })

/-- `RawMemory(RawMemory&& other)`: the new object starts from its default member
initialisers, is swapped with `other`, and `other.buffer_` is then deallocated.
Returns the heap, the new object and what is left in `other`. -/
def moveConstruct (h : Heap T) (other : RawMemory) :
    Except Fault (Heap T × RawMemory × RawMemory) :=
  let r : RawMemory := {}
  let r1 : RawMemory := { buffer_ := other.buffer_, capacity_ := other.capacity_ }
  let other1 : RawMemory := { buffer_ := r.buffer_, capacity_ := r.capacity_ }
  match Deallocate h other1.buffer_ with
  | .error e => .error e
  | .ok h1 => .ok (h1, r1, other1)

/-- `RawMemory::operator=(RawMemory&& other)` for `this != &other`. -/
def moveAssign (h : Heap T) (r other : RawMemory) :
    Except Fault (Heap T × RawMemory × RawMemory) :=
  let r1 : RawMemory := { buffer_ := other.buffer_, capacity_ := other.capacity_ }
  let other1 : RawMemory := { buffer_ := r.buffer_, capacity_ := r.capacity_ }
  match Deallocate h other1.buffer_ with
  | .error e => .error e
  | .ok h1 => .ok (h1, r1, other1)

/-- `RawMemory::operator+(offset)`. -/
def plus (r : RawMemory) (offset : Nat) : Except Fault Ptr :=
  if offset ≤ r.capacity_ then .ok ⟨r.buffer_, offset⟩ else .error .assertion

/-- `RawMemory::GetAddress()`. -/
def GetAddress (r : RawMemory) : Ptr := ⟨r.buffer_, 0⟩

/-- `RawMemory::Capacity()`. -/
def Capacity (r : RawMemory) : Nat := r.capacity_

/-- `RawMemory::operator[](index)`: the address of the element referred to. -/
def index (r : RawMemory) (i : Nat) : Except Fault Ptr :=
  if i < r.capacity_ then .ok ⟨r.buffer_, i⟩ else .error .assertion

end RawMemory

/-! ## `Vector<T>` -/

/-- Reduction of a natural number to the range of `size_t`. -/
def wrap (n : Nat) : Nat := n % 2 ^ 64

/-- The difference `a - b` of two `size_t` values, computed in `size_t`: the
difference when `b <= a`, and otherwise it wraps around, `a + 2 ^ 64 - b`. -/
def size_t_sub (a b : Nat) : Nat := if b ≤ a then a - b else a + 2 ^ 64 - b

/-- The data members of `Vector<T>`, with their default member initialisers. -/
structure Vector where
  data_ : RawMemory := {}
  size_ : Nat := 0
deriving DecidableEq, Repr

namespace Vector

/-- `Vector::Size()`. -/
def Size (v : Vector) : Nat := v.size_

/-- `Vector::Capacity()`. -/
def Capacity (v : Vector) : Nat := v.data_.Capacity

/-- `Vector::begin()`: `data_ + 0u`. -/
def begin (v : Vector) : Except Fault Ptr := v.data_.plus 0

/-- `Vector::end()`: `data_ + size_`. -/
def end_ (v : Vector) : Except Fault Ptr := v.data_.plus v.size_

/-- `Vector::operator[](index)`: the address of the element referred to. -/
def index (v : Vector) (i : Nat) : Except Fault Ptr :=
  if i < v.size_ then v.data_.index i else .error .assertion

/-- Reading `v[i]`. -/
def get (h : Heap T) (v : Vector) (i : Nat) : Except Fault T := do
  let p ← v.index i
  h.load p

/-- Writing `v[i] = x`. -/
def set (h : Heap T) (v : Vector) (i : Nat) (x : T) : Except Fault (Heap T) := do
  let p ← v.index i
  assign h p x

/-- `Vector()`. -/
def empty : Vector := {}

/-- `Vector(size_t size)`. -/
def sized [ValueType T] (h : Heap T) (size : Nat) : Except Fault (Heap T × Vector) := do
  let (h1, data) := RawMemory.create h size
  let v : Vector := { data_ := data, size_ := size }
  let h2 ← uninitialized_value_construct_n h1 v.data_.GetAddress size
  return (h2, v)

/-- `Vector(const Vector& other)`. -/
def copyConstruct [ValueType T] (h : Heap T) (other : Vector) :
    Except Fault (Heap T × Vector) := do
  let (h1, data) := RawMemory.create h other.size_
  let v : Vector := { data_ := data, size_ := other.size_ }
  let h2 ← uninitialized_copy_n h1 other.data_.GetAddress v.size_ v.data_.GetAddress
  return (h2, v)

/-- `Vector(Vector&& other)`: returns the heap, the new array and what is left in
`other`. -/
def moveConstruct (h : Heap T) (other : Vector) :
    Except Fault (Heap T × Vector × Vector) := do
  let (h1, data, odata) ← RawMemory.moveConstruct h other.data_
  let v : Vector := { data_ := data, size_ := other.size_ }
  return (h1, v, { data_ := odata, size_ := 0 })

/-- `~Vector()`: destroys the live elements, then the member `data_`. -/
def destroy (h : Heap T) (v : Vector) : Except Fault (Heap T) := do
  let h1 ← destroy_n h v.data_.GetAddress v.size_
  v.data_.destroy h1

/-- `Vector::Swap(other)`: returns the new `*this` and the new `other`. -/
def Swap (v other : Vector) : Vector × Vector :=
  let (d, od) := v.data_.Swap other.data_
  ({ data_ := d, size_ := other.size_ }, { data_ := od, size_ := v.size_ })

/-- `Vector::RealocateElements(from, count, to)`; `from` is a `const T*`. -/
def RealocateElements [ValueType T] (h : Heap T) (src : Ptr) (count : Nat) (dst : Ptr) :
    Except Fault (Heap T) :=
  if ValueType.nothrow_move_constructible T || !ValueType.copy_constructible T then
    uninitialized_move_n_const h src count dst
  else
    uninitialized_copy_n h src count dst

/-- `Vector::operator=(const Vector& other)` for `this != &other`. -/
def copyAssign [ValueType T] (h : Heap T) (v other : Vector) :
    Except Fault (Heap T × Vector) := do
  if other.size_ > v.Capacity then
    let (h1, temp_vector) ← copyConstruct h other
    let (v1, temp_vector1) := v.Swap temp_vector
    let h2 ← temp_vector1.destroy h1
    return (h2, v1)
  else
    let h1 ← copy_n h (← other.begin) other.size_ (← v.begin)
    let h2 ←
      if other.size_ < v.size_ then
        destroy_n h1 (← v.data_.plus other.size_) (v.size_ - other.size_)
      else
        uninitialized_copy_n h1 (← other.data_.plus v.size_) (other.size_ - v.size_)
          (← v.data_.plus v.size_)
    return (h2, { v with size_ := other.size_ })

/-- `Vector::operator=(Vector&& other)` for `this != &other`: returns the new
`*this` and the new `other`. -/
def moveAssign (v other : Vector) : Vector × Vector :=
  let (v1, other1) := v.Swap other
  ({ v1 with size_ := other1.size_ }, other1)

/-- `Vector::Reserve(new_capacity)`. -/
def Reserve [ValueType T] (h : Heap T) (v : Vector) (new_capacity : Nat) :
    Except Fault (Heap T × Vector) := do
  if new_capacity ≤ v.Capacity then
    return (h, v)
  let (h1, new_data_ptr) := RawMemory.create h new_capacity
  let h2 ← RealocateElements h1 v.data_.GetAddress v.size_ new_data_ptr.GetAddress
  let (new_data_ptr1, data1) := new_data_ptr.Swap v.data_
  let v1 : Vector := { v with data_ := data1 }
  let h3 ← destroy_n h2 v1.data_.GetAddress v1.size_
  let h4 ← new_data_ptr1.destroy h3
  return (h4, v1)

/-- `Vector::Resize(new_size)`. -/
def Resize [ValueType T] (h : Heap T) (v : Vector) (new_size : Nat) :
    Except Fault (Heap T × Vector) := do
  if new_size > v.size_ then
    let (h1, v1) ← Reserve h v new_size
    let h2 ← uninitialized_value_construct_n h1 (← v1.data_.plus v1.size_)
      (new_size - v1.size_)
    return (h2, { v1 with size_ := new_size })
  else
    let h1 ← destroy_n h (← v.data_.plus new_size) (v.size_ - new_size)
    return (h1, { v with size_ := new_size })

/-- `Vector::PushBack(const T& value)`. -/
def PushBack [ValueType T] (h : Heap T) (v : Vector) (value : T) :
    Except Fault (Heap T × Vector) := do
  if v.size_ < v.Capacity then
    let h1 ← construct_at h (← v.data_.plus v.size_) value
    return (h1, { v with size_ := wrap (v.size_ + 1) })
  else
    let (h1, new_data) := RawMemory.create h (if v.size_ = 0 then 1 else wrap (2 * v.size_))
    let h2 ← construct_at h1 (← new_data.plus v.size_) value
    let h3 ← RealocateElements h2 v.data_.GetAddress v.size_ new_data.GetAddress
    let (data1, new_data1) := v.data_.Swap new_data
    let h4 ← destroy_n h3 new_data1.GetAddress v.size_
    let h5 ← new_data1.destroy h4
    return (h5, { data_ := data1, size_ := wrap (v.size_ + 1) })

/-- `Vector::PushBack(T&& value)`.  The object the caller passed is not part of the
array; the state it is left in is not tracked. -/
def PushBackMove [ValueType T] (h : Heap T) (v : Vector) (value : T) :
    Except Fault (Heap T × Vector) := do
  if v.size_ < v.Capacity then
    let h1 ← construct_at h (← v.data_.plus v.size_) value
    return (h1, { v with size_ := wrap (v.size_ + 1) })
  else
    let (h1, new_data) := RawMemory.create h (if v.size_ = 0 then 1 else wrap (2 * v.size_))
    let h2 ← construct_at h1 (← new_data.plus v.size_) value
    let h3 ← RealocateElements h2 v.data_.GetAddress v.size_ new_data.GetAddress
    let (data1, new_data1) := v.data_.Swap new_data
    let h4 ← destroy_n h3 new_data1.GetAddress v.size_
    let h5 ← new_data1.destroy h4
    return (h5, { data_ := data1, size_ := wrap (v.size_ + 1) })

/-- `Vector::PopBack()`: `std::destroy_at(data_ + --size_)`. -/
def PopBack (h : Heap T) (v : Vector) : Except Fault (Heap T × Vector) := do
  let v1 : Vector := { v with size_ := size_t_sub v.size_ 1 }
  let h1 ← destroy_at h (← v1.data_.plus v1.size_)
  return (h1, v1)

/-- `Vector::EmplaceBack(args...)`, `value` being the object `T(args...)`.  Returns
the heap, the array and the address of the element the returned reference denotes. -/
def EmplaceBack [ValueType T] (h : Heap T) (v : Vector) (value : T) :
    Except Fault (Heap T × Vector × Ptr) := do
  let (h5, v1) ←
    if v.size_ < v.Capacity then
      let h1 ← construct_at h (← v.data_.plus v.size_) value
      pure (h1, v)
    else
      let (h1, new_data) :=
        RawMemory.create h (if v.size_ = 0 then 1 else wrap (2 * v.size_))
      let h2 ← construct_at h1 (← new_data.plus v.size_) value
      let h3 ←
        if ValueType.nothrow_move_constructible T || !ValueType.copy_constructible T then
          uninitialized_move_n h2 v.data_.GetAddress v.size_ new_data.GetAddress
        else
          uninitialized_copy_n h2 v.data_.GetAddress v.size_ new_data.GetAddress
      let (data1, new_data1) := v.data_.Swap new_data
      let h4 ← destroy_n h3 new_data1.GetAddress v.size_
      let h5 ← new_data1.destroy h4
      pure (h5, ({ data_ := data1, size_ := v.size_ } : Vector))
  -- `return (*this)[size_++];`
  let i := v1.size_
  let v2 : Vector := { v1 with size_ := wrap (v1.size_ + 1) }
  let p ← v2.index i
  return (h5, v2, p)

/-- `Vector::Emplace(pos, args...)`, `value` being the object `T(args...)`.  Returns
the heap, the array and the iterator returned. -/
def Emplace [ValueType T] (h : Heap T) (v : Vector) (pos : Ptr) (value : T) :
    Except Fault (Heap T × Vector × Ptr) := do
  if pos = (← v.end_) then
    let (h1, v1, _) ← EmplaceBack h v value
    return (h1, v1, ← (← v1.end_).sub 1)
  let offset ← pos.diff (← v.begin)
  let (h5, v1) ←
    if v.size_ < v.Capacity then
      let temp_value := value
      let h1 ← uninitialized_move_n h (← (← v.end_).sub 1) 1 (← v.end_)
      let h2 ← std_move_backward h1 ((← v.begin).add offset) (← (← v.end_).sub 1) (← v.end_)
      let h3 ← assign h2 (← v.index offset) temp_value
      pure (h3, v)
    else
      let (h1, new_data) :=
        RawMemory.create h (if v.size_ = 0 then 1 else wrap (2 * v.size_))
      let h2 ← construct_at h1 (← new_data.plus offset) value
      let h3 ← RealocateElements h2 (← v.begin) offset new_data.GetAddress
      let h4 ← RealocateElements h3 ((← v.begin).add offset)
        (size_t_sub v.size_ offset) ((← new_data.plus offset).add 1)
      let (data1, new_data1) := v.data_.Swap new_data
      let h5 ← destroy_n h4 new_data1.GetAddress v.size_
      let h6 ← new_data1.destroy h5
      pure (h6, ({ data_ := data1, size_ := v.size_ } : Vector))
  let v2 : Vector := { v1 with size_ := wrap (v1.size_ + 1) }
  return (h5, v2, (← v2.begin).add offset)

/-- `Vector::Insert(pos, const T& value)`. -/
def Insert [ValueType T] (h : Heap T) (v : Vector) (pos : Ptr) (value : T) :
    Except Fault (Heap T × Vector × Ptr) :=
  Emplace h v pos value

/-- `Vector::Insert(pos, T&& value)`. -/
def InsertMove [ValueType T] (h : Heap T) (v : Vector) (pos : Ptr) (value : T) :
    Except Fault (Heap T × Vector × Ptr) :=
  Emplace h v pos value

/-- `Vector::Erase(pos)`.  Returns the heap, the array and the iterator returned. -/
def Erase [ValueType T] (h : Heap T) (v : Vector) (pos : Ptr) :
    Except Fault (Heap T × Vector × Ptr) := do
  let offset ← pos.diff (← v.begin)
  let h1 ← std_move h (((← v.begin).add offset).add 1) (← v.end_) ((← v.begin).add offset)
  let h2 ← destroy_at h1 (← (← v.end_).sub 1)
  let v1 : Vector := { v with size_ := size_t_sub v.size_ 1 }
  return (h2, v1, (← v1.begin).add offset)

end Vector

/-- The slots an array regards as its storage: the block `data_.buffer_` points to;
a null buffer of capacity zero is an empty storage. -/
def Vector.storage (h : Heap T) (v : Vector) : Option (Block T) :=
  match v.data_.buffer_ with
  | none => if v.data_.capacity_ = 0 then some [] else none
  | some a => h.block a

/-- A request for `n` elements whose byte count `n * sizeof(T)` is a `size_t`. -/
def Fits (T : Type) [ValueType T] (n : Nat) : Prop := n * ValueType.sizeofT T < 2 ^ 64

instance (T : Type) [ValueType T] (n : Nat) : Decidable (Fits T n) := by
  unfold Fits; infer_instance

/-- The data model of the array: `v` holds the elements `xs` in heap `h` when its
length is their number, `size_ <= capacity_`, the byte size of `capacity_` elements
is a `size_t`, and its storage consists of `capacity_` slots of which the first
`size_` hold `xs`, alive and in order, while the others are raw. -/
def Holds [ValueType T] (h : Heap T) (v : Vector) (xs : List T) : Prop :=
  v.size_ = xs.length ∧ v.size_ ≤ v.data_.capacity_ ∧ Fits T v.data_.capacity_ ∧
  v.storage h = some (xs.map some ++ List.replicate (v.data_.capacity_ - xs.length) none)

instance [ValueType T] [DecidableEq T] (h : Heap T) (v : Vector) (xs : List T) :
    Decidable (Holds h v xs) := by
  unfold Holds; infer_instance

/-- Consecutive `PushBack` calls, one for each element of the list, in order. -/
def Vector.PushBackAll [ValueType T] (h : Heap T) (v : Vector) :
    List T → Except Fault (Heap T × Vector)
  | [] => .ok (h, v)
  | y :: ys =>
    match v.PushBack h y with
    | .error e => .error e
    | .ok (h1, v1) => Vector.PushBackAll h1 v1 ys

/-- An element type used for concrete runs: an 8-byte integer, trivially movable. -/
instance : ValueType Nat where
  sizeofT := 8
  sizeofT_pos := by decide
  sizeofT_lt := by decide
  valueInit := 0
  movedFrom := fun x => x
  assignedFrom := fun _ src => src
  nothrow_move_constructible := true
  copy_constructible := true

/-- A heap with a single block of four slots holding 1, 2, 4. -/
def sampleHeap : Heap Nat := ⟨[some [some 1, some 2, some 4, none]]⟩

/-- The array of size 3 and capacity 4 stored in block 0 of `sampleHeap`. -/
def sampleVector : Vector := { data_ := { buffer_ := some 0, capacity_ := 4 }, size_ := 3 }

/-- A heap with a single block of three slots holding 1, 2, 3. -/
def fullHeap : Heap Nat := ⟨[some [some 1, some 2, some 3]]⟩

/-- The array of size 3 and capacity 3 stored in block 0 of `fullHeap`. -/
def fullVector : Vector := { data_ := { buffer_ := some 0, capacity_ := 3 }, size_ := 3 }

/-- A call that modifies one array and involves no other array. -/
inductive Mutation (T : Type) where
  | reserve (new_capacity : Nat)
  | resize (new_size : Nat)
  | pushBack (value : T)
  | pushBackMove (value : T)
  | emplaceBack (value : T)
  | popBack
  | insert (pos : Ptr) (value : T)
  | insertMove (pos : Ptr) (value : T)
  | emplace (pos : Ptr) (value : T)
  | erase (pos : Ptr)
  | assignAt (index : Nat) (value : T)

/-- Performing one call on the array `v`. -/
def Mutation.apply [ValueType T] (h : Heap T) (v : Vector) :
    Mutation T → Except Fault (Heap T × Vector)
  | .reserve n => v.Reserve h n
  | .resize n => v.Resize h n
  | .pushBack x => v.PushBack h x
  | .pushBackMove x => v.PushBackMove h x
  | .emplaceBack x => do let r ← v.EmplaceBack h x; pure (r.1, r.2.1)
  | .popBack => v.PopBack h
  | .insert p x => do let r ← v.Insert h p x; pure (r.1, r.2.1)
  | .insertMove p x => do let r ← v.InsertMove h p x; pure (r.1, r.2.1)
  | .emplace p x => do let r ← v.Emplace h p x; pure (r.1, r.2.1)
  | .erase p => do let r ← v.Erase h p; pure (r.1, r.2.1)
  | .assignAt i x => do let h1 ← v.set h i x; pure (h1, v)

/-- Performing a sequence of calls on the array `v`, in order. -/
def Mutation.applyAll [ValueType T] (h : Heap T) (v : Vector) :
    List (Mutation T) → Except Fault (Heap T × Vector)
  | [] => .ok (h, v)
  | m :: ms =>
    match m.apply h v with
    | .error e => .error e
    | .ok (h1, v1) => Mutation.applyAll h1 v1 ms

/-- `Frame b n h0 h`: the heap `h` still has the addresses below `n`, and among them
only block `b` may differ from what it is in `h0`. -/
def Frame (b : Option Nat) (n : Nat) (h0 h : Heap T) : Prop :=
  n ≤ h.blocks.length ∧ ∀ a, a < n → b ≠ some a → h.block a = h0.block a

/-- `Allowed b n p`: the block `p` points into is `b` or lies at address `n` or above. -/
def Allowed (b : Option Nat) (n : Nat) (p : Option Nat) : Prop :=
  ∀ a, p = some a → a < n → b = some a

/-- `Sat m P`: if the computation `m` returns, its result satisfies `P`. -/
def Sat {α : Type} (m : Except Fault α) (P : α → Prop) : Prop :=
  ∀ a, m = .ok a → P a

/-- A heap with an empty array of capacity 2 in block 0 and the array `[7]` in
block 1: what `Reserve(2)` on one default-constructed array and `PushBack(7)` on
another leave behind. -/
def reservedHeap : Heap Nat := ⟨[some [none, none], some [some 7]]⟩

/-- The empty array of capacity 2 in block 0 of `reservedHeap`. -/
def reservedVector : Vector := { data_ := { buffer_ := some 0, capacity_ := 2 }, size_ := 0 }

/-- The array `[7]` of capacity 1 in block 1 of `reservedHeap`. -/
def singletonVector : Vector := { data_ := { buffer_ := some 1, capacity_ := 1 }, size_ := 1 }

/-- A heap with two raw blocks, of three and of two slots. -/
def twoBlockHeap : Heap Nat := ⟨[some [none, none, none], some [none, none]]⟩

/-- A heap with the array `[1, 2, 4]` of capacity 4 in block 0 and the array
`[5, 6, 7, 8]` of capacity 4 in block 1. -/
def pairHeap : Heap Nat :=
  ⟨[some [some 1, some 2, some 4, none], some [some 5, some 6, some 7, some 8]]⟩

/-- The array `[5, 6, 7, 8]` of capacity 4 in block 1 of `pairHeap`. -/
def fourVector : Vector := { data_ := { buffer_ := some 1, capacity_ := 4 }, size_ := 4 }

/-- `NoAssert m`: the computation `m` does not end in a failed `assert(...)`. -/
def NoAssert {α : Type} (m : Except Fault α) : Prop := m ≠ .error .assertion

/-! ## Element operations that throw

The definitions above take the operations of the element type to return.  The ones
below follow the same source functions when a constructor or an assignment of the
element type throws: the `try` blocks, their `catch (...)` handlers and the destructors
run while the exception leaves the function.
-/

/-- Which operations of the element type throw, by the value of the object they read. -/
structure Throwing (T : Type) [ValueType T] where
  /-- `T(const T&)` throws when the source holds this value -/
  copy : T → Bool
  /-- `T(T&&)` throws when the source holds this value -/
  move : T → Bool
  /-- `T& operator=(T&&)` throws when the source holds this value -/
  move_assign : T → Bool
  /-- with `std::is_nothrow_move_constructible_v<T>` the move constructor never throws -/
  move_nothrow : ValueType.nothrow_move_constructible T = true → ∀ x, move x = false

/-- How a call ends when element operations may throw: it returns a result, or an
exception leaves it with the state `s` behind, or it goes wrong. -/
inductive Outcome (σ α : Type) where
  | returned (a : α)
  | thrown (s : σ)
  | fault (f : Fault)
deriving DecidableEq

/-- The outcome of a call during which nothing throws. -/
def Outcome.ofExcept {σ α : Type} : Except Fault α → Outcome σ α
  | .ok a => .returned a
  | .error e => .fault e

/-- `std::uninitialized_copy_n(src, n, cur)`, the output range having begun at
`d_first`: when a copy constructor throws, the objects constructed so far, those in
`[d_first, cur)`, are destroyed and the exception is rethrown. -/
def uninitialized_copy_n_ex [ValueType T] (th : Throwing T) (h : Heap T) (d_first src : Ptr) :
    Nat → Ptr → Outcome (Heap T) (Heap T)
  | 0, _ => .returned h
  | n + 1, cur =>
    match h.load src with
    | .error e => .fault e
    | .ok v =>
      if th.copy v then
        match destroy_n h d_first (cur.off - d_first.off) with
        | .error e => .fault e
        | .ok h1 => .thrown h1
      else
        match h.setSlot cur (some v) with
        | .error e => .fault e
        | .ok h1 => uninitialized_copy_n_ex th h1 d_first (src.add 1) n (cur.add 1)

/-- `std::uninitialized_move_n(src, n, cur)` through a `T*` source, the output range
having begun at `d_first`: when a move constructor throws, the objects constructed so
far are destroyed and the exception is rethrown; the sources already moved from stay
moved from. -/
def uninitialized_move_n_ex [ValueType T] (th : Throwing T) (h : Heap T) (d_first src : Ptr) :
    Nat → Ptr → Outcome (Heap T) (Heap T)
  | 0, _ => .returned h
  | n + 1, cur =>
    match h.load src with
    | .error e => .fault e
    | .ok v =>
      if th.move v then
        match destroy_n h d_first (cur.off - d_first.off) with
        | .error e => .fault e
        | .ok h1 => .thrown h1
      else
        match move_construct h cur src with
        | .error e => .fault e
        | .ok h1 => uninitialized_move_n_ex th h1 d_first (src.add 1) n (cur.add 1)

/-- The loop of `std::move_backward(first, last, d_last)`: a move assignment that
throws leaves the loop at once, the elements assigned so far staying assigned. -/
def move_backward_n_ex [ValueType T] (th : Throwing T) (h : Heap T) (last : Ptr) :
    Nat → Ptr → Outcome (Heap T) (Heap T)
  | 0, _ => .returned h
  | n + 1, d_last =>
    match last.sub 1 with
    | .error e => .fault e
    | .ok last1 =>
      match d_last.sub 1 with
      | .error e => .fault e
      | .ok d_last1 =>
        match h.load last1 with
        | .error e => .fault e
        | .ok v =>
          if th.move_assign v then .thrown h
          else
            match move_assign h d_last1 last1 with
            | .error e => .fault e
            | .ok h1 => move_backward_n_ex th h1 last1 n d_last1

/-- `std::move_backward(first, last, d_last)`. -/
def std_move_backward_ex [ValueType T] (th : Throwing T) (h : Heap T)
    (first last d_last : Ptr) : Outcome (Heap T) (Heap T) :=
  match last.diff first with
  | .error e => .fault e
  | .ok n => move_backward_n_ex th h last n d_last

namespace Vector

/-- `Vector::RealocateElements(from, count, to)`; `from` is a `const T*`, so that both
branches copy-construct. -/
def RealocateElements_ex [ValueType T] (th : Throwing T) (h : Heap T) (src : Ptr)
    (count : Nat) (dst : Ptr) : Outcome (Heap T) (Heap T) :=
  if ValueType.nothrow_move_constructible T || !ValueType.copy_constructible T then
    uninitialized_copy_n_ex th h dst src count dst
  else
    uninitialized_copy_n_ex th h dst src count dst

/-- `Vector::PushBack(const T& value)` when element operations may throw. -/
def PushBack_ex [ValueType T] (th : Throwing T) (h : Heap T) (v : Vector) (value : T) :
    Outcome (Heap T × Vector) (Heap T × Vector) :=
  let appended : Outcome (Heap T × Vector) (Heap T × Vector) :=
    if v.size_ < v.Capacity then
      match v.data_.plus v.size_ with
      | .error e => .fault e
      | .ok p =>
        -- try { new(data_ + size_) T{value}; }
        if th.copy value then
          -- catch(...) { std::destroy_at(data_ + size_); throw; }
          match destroy_at h p with
          | .error e => .fault e
          | .ok h1 => .thrown (h1, v)
        else
          match construct_at h p value with
          | .error e => .fault e
          | .ok h1 => .returned (h1, v)
    else
      let (h1, new_data) := RawMemory.create h (if v.size_ = 0 then 1 else wrap (2 * v.size_))
      let tried : Outcome (Heap T) (Heap T) :=
        match new_data.plus v.size_ with
        | .error e => .fault e
        | .ok p =>
          -- new(new_data + size_) T{value};
          if th.copy value then .thrown h1
          else
            match construct_at h1 p value with
            | .error e => .fault e
            | .ok h2 =>
              RealocateElements_ex th h2 v.data_.GetAddress v.size_ new_data.GetAddress
      match tried with
      | .fault e => .fault e
      | .thrown h2 =>
        -- catch(...) { std::destroy_n(new_data.GetAddress(), size_ + 1); throw; }
        match destroy_n h2 new_data.GetAddress (wrap (v.size_ + 1)) with
        | .error e => .fault e
        | .ok h3 =>
          -- the destructor of new_data runs while the exception leaves the function
          match new_data.destroy h3 with
          | .error e => .fault e
          | .ok h4 => .thrown (h4, v)
      | .returned h3 =>
        let (data1, new_data1) := v.data_.Swap new_data
        match destroy_n h3 new_data1.GetAddress v.size_ with
        | .error e => .fault e
        | .ok h4 =>
          match new_data1.destroy h4 with
          | .error e => .fault e
          | .ok h5 => .returned (h5, ({ data_ := data1, size_ := v.size_ } : Vector))
  match appended with
  | .fault e => .fault e
  | .thrown s => .thrown s
  | .returned (h5, v1) =>
    -- ++size_;
    .returned (h5, { v1 with size_ := wrap (v1.size_ + 1) })

/-- `Vector::PushBack(T&& value)` when element operations may throw. -/
def PushBackMove_ex [ValueType T] (th : Throwing T) (h : Heap T) (v : Vector) (value : T) :
    Outcome (Heap T × Vector) (Heap T × Vector) :=
  let appended : Outcome (Heap T × Vector) (Heap T × Vector) :=
    if v.size_ < v.Capacity then
      match v.data_.plus v.size_ with
      | .error e => .fault e
      | .ok p =>
        -- try { new(data_ + size_) T{std::move(value)}; }
        if th.move value then
          -- catch(...) { std::destroy_at(data_ + size_); throw; }
          match destroy_at h p with
          | .error e => .fault e
          | .ok h1 => .thrown (h1, v)
        else
          match construct_at h p value with
          | .error e => .fault e
          | .ok h1 => .returned (h1, v)
    else
      let (h1, new_data) := RawMemory.create h (if v.size_ = 0 then 1 else wrap (2 * v.size_))
      let tried : Outcome (Heap T) (Heap T) :=
        match new_data.plus v.size_ with
        | .error e => .fault e
        | .ok p =>
          -- new(new_data + size_) T{std::move(value)};
          if th.move value then .thrown h1
          else
            match construct_at h1 p value with
            | .error e => .fault e
            | .ok h2 =>
              RealocateElements_ex th h2 v.data_.GetAddress v.size_ new_data.GetAddress
      match tried with
      | .fault e => .fault e
      | .thrown h2 =>
        -- catch(...) { std::destroy_n(new_data.GetAddress(), size_ + 1); throw; }
        match destroy_n h2 new_data.GetAddress (wrap (v.size_ + 1)) with
        | .error e => .fault e
        | .ok h3 =>
          -- the destructor of new_data runs while the exception leaves the function
          match new_data.destroy h3 with
          | .error e => .fault e
          | .ok h4 => .thrown (h4, v)
      | .returned h3 =>
        let (data1, new_data1) := v.data_.Swap new_data
        match destroy_n h3 new_data1.GetAddress v.size_ with
        | .error e => .fault e
        | .ok h4 =>
          match new_data1.destroy h4 with
          | .error e => .fault e
          | .ok h5 => .returned (h5, ({ data_ := data1, size_ := v.size_ } : Vector))
  match appended with
  | .fault e => .fault e
  | .thrown s => .thrown s
  | .returned (h5, v1) =>
    -- ++size_;
    .returned (h5, { v1 with size_ := wrap (v1.size_ + 1) })

/-- `Vector::EmplaceBack(args...)` when element operations may throw; `value` is the
object `T(args...)` and `ctor_throws` tells whether that constructor call throws. -/
def EmplaceBack_ex [ValueType T] (th : Throwing T) (h : Heap T) (v : Vector) (value : T)
    (ctor_throws : Bool) : Outcome (Heap T × Vector) (Heap T × Vector × Ptr) :=
  let appended : Outcome (Heap T × Vector) (Heap T × Vector) :=
    if v.size_ < v.Capacity then
      match v.data_.plus v.size_ with
      | .error e => .fault e
      | .ok p =>
        -- try { new(data_ + size_) T(std::forward<Types>(args)...); }
        if ctor_throws then
          -- catch(...) { std::destroy_at(data_ + size_); throw; }
          match destroy_at h p with
          | .error e => .fault e
          | .ok h1 => .thrown (h1, v)
        else
          match construct_at h p value with
          | .error e => .fault e
          | .ok h1 => .returned (h1, v)
    else
      let (h1, new_data) := RawMemory.create h (if v.size_ = 0 then 1 else wrap (2 * v.size_))
      let tried : Outcome (Heap T) (Heap T) :=
        match new_data.plus v.size_ with
        | .error e => .fault e
        | .ok p =>
          -- new(new_data + size_) T(std::forward<Types>(args)...);
          if ctor_throws then .thrown h1
          else
            match construct_at h1 p value with
            | .error e => .fault e
            | .ok h2 =>
              if ValueType.nothrow_move_constructible T || !ValueType.copy_constructible T then
                uninitialized_move_n_ex th h2 new_data.GetAddress v.data_.GetAddress v.size_
                  new_data.GetAddress
              else
                uninitialized_copy_n_ex th h2 new_data.GetAddress v.data_.GetAddress v.size_
                  new_data.GetAddress
      match tried with
      | .fault e => .fault e
      | .thrown h2 =>
        -- catch(...) { std::destroy_n(new_data.GetAddress(), size_ + 1); throw; }
        match destroy_n h2 new_data.GetAddress (wrap (v.size_ + 1)) with
        | .error e => .fault e
        | .ok h3 =>
          -- the destructor of new_data runs while the exception leaves the function
          match new_data.destroy h3 with
          | .error e => .fault e
          | .ok h4 => .thrown (h4, v)
      | .returned h3 =>
        let (data1, new_data1) := v.data_.Swap new_data
        match destroy_n h3 new_data1.GetAddress v.size_ with
        | .error e => .fault e
        | .ok h4 =>
          match new_data1.destroy h4 with
          | .error e => .fault e
          | .ok h5 => .returned (h5, ({ data_ := data1, size_ := v.size_ } : Vector))
  match appended with
  | .fault e => .fault e
  | .thrown s => .thrown s
  | .returned (h5, v1) =>
    -- return (*this)[size_++];
    let i := v1.size_
    let v2 : Vector := { v1 with size_ := wrap (v1.size_ + 1) }
    match v2.index i with
    | .error e => .fault e
    | .ok p => .returned (h5, v2, p)

/-- `Vector::Emplace(pos, args...)` when element operations may throw; `value` is the
object `T(args...)` and `ctor_throws` tells whether that constructor call throws. -/
def Emplace_ex [ValueType T] (th : Throwing T) (h : Heap T) (v : Vector) (pos : Ptr)
    (value : T) (ctor_throws : Bool) : Outcome (Heap T × Vector) (Heap T × Vector × Ptr) :=
  match v.end_, v.begin with
  | .error e, _ => .fault e
  | _, .error e => .fault e
  | .ok end0, .ok begin0 =>
    if pos = end0 then
      match EmplaceBack_ex th h v value ctor_throws with
      | .fault e => .fault e
      | .thrown s => .thrown s
      | .returned (h1, v1, _) =>
        match v1.end_ with
        | .error e => .fault e
        | .ok end1 =>
          match end1.sub 1 with
          | .error e => .fault e
          | .ok p => .returned (h1, v1, p)
    else
      match pos.diff begin0 with
      | .error e => .fault e
      | .ok offset =>
        let shifted : Outcome (Heap T × Vector) (Heap T × Vector) :=
          if v.size_ < v.Capacity then
            -- T temp_value(std::forward<Types>(value)...);
            if ctor_throws then .thrown (h, v)
            else
              let tried : Outcome (Heap T) (Heap T) :=
                match end0.sub 1 with
                | .error e => .fault e
                | .ok last =>
                  match uninitialized_move_n_ex th h end0 last 1 end0 with
                  | .fault e => .fault e
                  | .thrown h1 => .thrown h1
                  | .returned h1 => std_move_backward_ex th h1 (begin0.add offset) last end0
              match tried with
              | .fault e => .fault e
              | .thrown h2 =>
                -- catch(...) { std::destroy_n(data_.GetAddress(), size_ - offset); throw; }
                match destroy_n h2 v.data_.GetAddress (size_t_sub v.size_ offset) with
                | .error e => .fault e
                | .ok h3 => .thrown (h3, v)
              | .returned h2 =>
                -- (*this)[offset] = std::forward<T>(temp_value);
                match v.index offset with
                | .error e => .fault e
                | .ok p =>
                  if th.move_assign value then .thrown (h2, v)
                  else
                    match assign h2 p value with
                    | .error e => .fault e
                    | .ok h3 => .returned (h3, v)
          else
            let (h1, new_data) :=
              RawMemory.create h (if v.size_ = 0 then 1 else wrap (2 * v.size_))
            match new_data.plus offset with
            | .error e => .fault e
            | .ok slot =>
              if ctor_throws then
                -- only the destructor of `new_data` runs
                match new_data.destroy h1 with
                | .error e => .fault e
                | .ok h2 => .thrown (h2, v)
              else
                match construct_at h1 slot value with
                | .error e => .fault e
                | .ok h2 =>
                  match RealocateElements_ex th h2 begin0 offset new_data.GetAddress with
                  | .fault e => .fault e
                  | .thrown h3 =>
                    -- catch(...) { std::destroy_at(new_data + offset); throw; }
                    match destroy_at h3 slot with
                    | .error e => .fault e
                    | .ok h4 =>
                      match new_data.destroy h4 with
                      | .error e => .fault e
                      | .ok h5 => .thrown (h5, v)
                  | .returned h3 =>
                    match RealocateElements_ex th h3 (begin0.add offset)
                        (size_t_sub v.size_ offset) (slot.add 1) with
                    | .fault e => .fault e
                    | .thrown h4 =>
                      -- catch(...) { std::destroy_n(new_data.GetAddress(), offset + 1u); throw; }
                      match destroy_n h4 new_data.GetAddress (wrap (offset + 1)) with
                      | .error e => .fault e
                      | .ok h5 =>
                        match new_data.destroy h5 with
                        | .error e => .fault e
                        | .ok h6 => .thrown (h6, v)
                    | .returned h4 =>
                      let (data1, new_data1) := v.data_.Swap new_data
                      match destroy_n h4 new_data1.GetAddress v.size_ with
                      | .error e => .fault e
                      | .ok h5 =>
                        match new_data1.destroy h5 with
                        | .error e => .fault e
                        | .ok h6 =>
                          .returned (h6, ({ data_ := data1, size_ := v.size_ } : Vector))
        match shifted with
        | .fault e => .fault e
        | .thrown s => .thrown s
        | .returned (h5, v1) =>
          -- ++size_; return begin() + offset;
          let v2 : Vector := { v1 with size_ := wrap (v1.size_ + 1) }
          match v2.begin with
          | .error e => .fault e
          | .ok b => .returned (h5, v2, b.add offset)

end Vector

/-- An element type for concrete runs whose copy constructor and move assignment throw
when the source holds `bad`, and whose move constructor never throws. -/
def throwsOn (bad : Nat) : Throwing Nat where
  copy := fun x => x == bad
  move := fun _ => false
  move_assign := fun x => x == bad
  move_nothrow := fun _ _ => rfl

/-- An element type for concrete runs none of whose operations throws. -/
def neverThrows (T : Type) [ValueType T] : Throwing T where
  copy := fun _ => false
  move := fun _ => false
  move_assign := fun _ => false
  move_nothrow := fun _ _ => rfl

end Cpp

namespace Cpp
variable {T : Type}

theorem getElem?_mid (P : List α) (x : α) (R : List α) :
    (P ++ x :: R)[P.length]? = some x := by
  rw [List.getElem?_append_right (le_refl _)]
  simp

theorem set_mid (P : List α) (x y : α) (R : List α) :
    (P ++ x :: R).set P.length y = P ++ y :: R := by
  induction P with
  | nil => rfl
  | cons p P ih => simp [ih]

theorem Heap.block_lt {h : Heap T} {a : Nat} {b : Block T} (hb : h.block a = some b) :
    a < h.blocks.length := by
  unfold Heap.block at hb
  by_contra hlt
  rw [List.getElem?_eq_none (by omega)] at hb
  simp at hb

theorem Heap.block_setBlock_same (h : Heap T) {a : Nat} (b : Block T)
    (ha : a < h.blocks.length) : (h.setBlock a (some b)).block a = some b := by
  simp [Heap.block, Heap.setBlock, ha]

theorem Heap.block_setBlock_none (h : Heap T) (a : Nat) :
    (h.setBlock a none).block a = none := by
  simp only [Heap.block, Heap.setBlock, List.getElem?_set]
  split <;> simp_all

theorem Heap.block_setBlock_ne (h : Heap T) {a a' : Nat} (x : Option (Block T))
    (hne : a ≠ a') : (h.setBlock a x).block a' = h.block a' := by
  simp [Heap.block, Heap.setBlock, List.getElem?_set, hne]

theorem Heap.setBlock_setBlock (h : Heap T) (a : Nat) (x y : Option (Block T)) :
    (h.setBlock a x).setBlock a y = h.setBlock a y := by
  simp [Heap.setBlock]

theorem Heap.length_setBlock (h : Heap T) (a : Nat) (x : Option (Block T)) :
    (h.setBlock a x).blocks.length = h.blocks.length := by
  simp [Heap.setBlock]

theorem Heap.load_eq {h : Heap T} {a i : Nat} {b : Block T} {v : T}
    (hb : h.block a = some b) (hv : b[i]? = some (some v)) :
    h.load ⟨some a, i⟩ = .ok v := by
  simp [Heap.load, Heap.slot, hb, hv]

theorem Heap.setSlot_eq {h : Heap T} {a i : Nat} {b : Block T} (s : Option T)
    (hb : h.block a = some b) (hi : i < b.length) :
    h.setSlot ⟨some a, i⟩ s = .ok (h.setBlock a (some (b.set i s))) := by
  simp [Heap.setSlot, hb, hi]

theorem Heap.setBlock_self {h : Heap T} {a : Nat} {b : Block T} (hb : h.block a = some b) :
    h.setBlock a (some b) = h := by
  have hlt := Heap.block_lt hb
  unfold Heap.block at hb
  cases h with
  | mk bl =>
    simp only [Heap.setBlock, Heap.mk.injEq]
    apply List.ext_getElem?
    intro n
    simp only [List.getElem?_set]
    split
    · subst_vars
      revert hb
      split <;> simp_all
    · rfl

theorem uninitialized_copy_n_spec (xs : List T) :
    ∀ (h : Heap T) (a b : Nat) (S1 S2 D1 D2 D3 : Block T),
      a ≠ b → h.block a = some (S1 ++ xs.map some ++ S2) →
      h.block b = some (D1 ++ D2 ++ D3) → D2.length = xs.length →
      uninitialized_copy_n h ⟨some a, S1.length⟩ xs.length ⟨some b, D1.length⟩
        = .ok (h.setBlock b (some (D1 ++ xs.map some ++ D3))) := by
  induction xs with
  | nil =>
    intro h a b S1 S2 D1 D2 D3 _ _ hd hl
    have : D2 = [] := List.length_eq_zero.mp hl
    subst this
    simp only [List.length_nil, uninitialized_copy_n, List.map_nil, List.append_nil] at *
    rw [Heap.setBlock_self hd]
  | cons x xs ih =>
    intro h a b S1 S2 D1 D2 D3 hab hs hd hl
    obtain ⟨d, D2, rfl⟩ : ∃ d D2', D2 = d :: D2' := by
      cases D2 with
      | nil => simp at hl
      | cons d D2 => exact ⟨d, D2, rfl⟩
    simp only [List.length_cons, Nat.add_right_cancel_iff] at hl
    have hs' : h.block a = some (S1 ++ some x :: (xs.map some ++ S2)) := by simpa using hs
    have hd' : h.block b = some (D1 ++ d :: (D2 ++ D3)) := by simpa using hd
    simp only [List.length_cons, uninitialized_copy_n, copy_construct]
    rw [Heap.load_eq hs' (getElem?_mid _ _ _)]
    simp only
    rw [Heap.setSlot_eq _ hd' (by simp), set_mid]
    simp only [Ptr.add]
    have key := ih (h.setBlock b (some (D1 ++ some x :: (D2 ++ D3)))) a b (S1 ++ [some x]) S2
      (D1 ++ [some x]) D2 D3 hab
      (by rw [Heap.block_setBlock_ne _ _ (Ne.symm hab)]; simpa using hs')
      (by rw [Heap.block_setBlock_same _ _ (Heap.block_lt hd)]; simp) hl
    simp only [List.length_append, List.length_singleton] at key
    rw [key, Heap.setBlock_setBlock]
    simp

theorem Heap.setBlock_comm (h : Heap T) {a b : Nat} (x y : Option (Block T)) (hab : a ≠ b) :
    (h.setBlock a x).setBlock b y = (h.setBlock b y).setBlock a x := by
  simp only [Heap.setBlock, Heap.mk.injEq]
  exact List.set_comm x y _ hab

theorem cons_of_length_succ {α : Type} {n : Nat} (l : List α) (hl : l.length = n + 1) :
    ∃ d l', l = d :: l' := by
  cases l with
  | nil => simp at hl
  | cons d l => exact ⟨d, l, rfl⟩

theorem copy_n_spec (xs : List T) :
    ∀ (h : Heap T) (a b : Nat) (S1 S2 D1 D3 : Block T) (ys : List T),
      a ≠ b → h.block a = some (S1 ++ xs.map some ++ S2) →
      h.block b = some (D1 ++ ys.map some ++ D3) → ys.length = xs.length →
      copy_n h ⟨some a, S1.length⟩ xs.length ⟨some b, D1.length⟩
        = .ok (h.setBlock b (some (D1 ++ xs.map some ++ D3))) := by
  induction xs with
  | nil =>
    intro h a b S1 S2 D1 D3 ys _ _ hd hl
    have : ys = [] := List.length_eq_zero.mp hl
    subst this
    simp only [List.length_nil, copy_n, List.map_nil, List.append_nil] at *
    rw [Heap.setBlock_self hd]
  | cons x xs ih =>
    intro h a b S1 S2 D1 D3 ys hab hs hd hl
    obtain ⟨y, ys, rfl⟩ := cons_of_length_succ ys hl
    simp only [List.length_cons, Nat.add_right_cancel_iff] at hl
    have hs' : h.block a = some (S1 ++ some x :: (xs.map some ++ S2)) := by simpa using hs
    have hd' : h.block b = some (D1 ++ some y :: (ys.map some ++ D3)) := by simpa using hd
    simp only [List.length_cons, copy_n, assign]
    rw [Heap.load_eq hs' (getElem?_mid _ _ _)]
    simp only
    rw [Heap.load_eq hd' (getElem?_mid _ _ _)]
    simp only
    rw [Heap.setSlot_eq _ hd' (by simp), set_mid]
    simp only [Ptr.add]
    have key := ih (h.setBlock b (some (D1 ++ some x :: (ys.map some ++ D3)))) a b
      (S1 ++ [some x]) S2 (D1 ++ [some x]) D3 ys hab
      (by rw [Heap.block_setBlock_ne _ _ (Ne.symm hab)]; simpa using hs')
      (by rw [Heap.block_setBlock_same _ _ (Heap.block_lt hd)]; simp) hl
    simp only [List.length_append, List.length_singleton] at key
    rw [key, Heap.setBlock_setBlock]
    simp

theorem destroy_n_spec (ys : List T) :
    ∀ (h : Heap T) (b : Nat) (D1 D3 : Block T),
      h.block b = some (D1 ++ ys.map some ++ D3) →
      destroy_n h ⟨some b, D1.length⟩ ys.length
        = .ok (h.setBlock b (some (D1 ++ List.replicate ys.length none ++ D3))) := by
  induction ys with
  | nil =>
    intro h b D1 D3 hd
    simp only [List.length_nil, destroy_n, List.map_nil, List.append_nil,
      List.replicate_zero] at *
    rw [Heap.setBlock_self hd]
  | cons y ys ih =>
    intro h b D1 D3 hd
    have hd' : h.block b = some (D1 ++ some y :: (ys.map some ++ D3)) := by simpa using hd
    simp only [List.length_cons, destroy_n, destroy_at]
    rw [Heap.load_eq hd' (getElem?_mid _ _ _)]
    simp only
    rw [Heap.setSlot_eq _ hd' (by simp), set_mid]
    simp only [Ptr.add]
    have key := ih (h.setBlock b (some (D1 ++ none :: (ys.map some ++ D3)))) b
      (D1 ++ [none]) D3
      (by rw [Heap.block_setBlock_same _ _ (Heap.block_lt hd)]; simp)
    simp only [List.length_append, List.length_singleton] at key
    rw [key, Heap.setBlock_setBlock]
    simp [List.replicate_succ]

theorem uninitialized_value_construct_n_spec [ValueType T] (D2 : Block T) :
    ∀ (h : Heap T) (b : Nat) (D1 D3 : Block T),
      h.block b = some (D1 ++ D2 ++ D3) →
      uninitialized_value_construct_n h ⟨some b, D1.length⟩ D2.length
        = .ok (h.setBlock b (some (D1 ++
            List.replicate D2.length (some (ValueType.valueInit : T)) ++ D3))) := by
  induction D2 with
  | nil =>
    intro h b D1 D3 hd
    simp only [List.length_nil, uninitialized_value_construct_n, List.append_nil,
      List.replicate_zero] at *
    rw [Heap.setBlock_self hd]
  | cons y ys ih =>
    intro h b D1 D3 hd
    have hd' : h.block b = some (D1 ++ y :: (ys ++ D3)) := by simpa using hd
    simp only [List.length_cons, uninitialized_value_construct_n, construct_at]
    rw [Heap.setSlot_eq _ hd' (by simp), set_mid]
    simp only [Ptr.add]
    have key := ih (h.setBlock b (some (D1 ++ some ValueType.valueInit :: (ys ++ D3)))) b
      (D1 ++ [some ValueType.valueInit]) D3
      (by rw [Heap.block_setBlock_same _ _ (Heap.block_lt hd)]; simp)
    simp only [List.length_append, List.length_singleton] at key
    rw [key, Heap.setBlock_setBlock]
    simp [List.replicate_succ]

theorem uninitialized_move_n_spec [ValueType T] (xs : List T) :
    ∀ (h : Heap T) (a b : Nat) (S1 S2 D1 D2 D3 : Block T),
      a ≠ b → h.block a = some (S1 ++ xs.map some ++ S2) →
      h.block b = some (D1 ++ D2 ++ D3) → D2.length = xs.length →
      uninitialized_move_n h ⟨some a, S1.length⟩ xs.length ⟨some b, D1.length⟩
        = .ok ((h.setBlock b (some (D1 ++ xs.map some ++ D3))).setBlock a
            (some (S1 ++ xs.map (fun x => some (ValueType.movedFrom x)) ++ S2))) := by
  induction xs with
  | nil =>
    intro h a b S1 S2 D1 D2 D3 hab hs hd hl
    have : D2 = [] := List.length_eq_zero.mp hl
    subst this
    simp only [List.length_nil, uninitialized_move_n, List.map_nil, List.append_nil] at *
    rw [Heap.setBlock_self hd, Heap.setBlock_self hs]
  | cons x xs ih =>
    intro h a b S1 S2 D1 D2 D3 hab hs hd hl
    obtain ⟨d, D2, rfl⟩ := cons_of_length_succ D2 hl
    simp only [List.length_cons, Nat.add_right_cancel_iff] at hl
    have hs' : h.block a = some (S1 ++ some x :: (xs.map some ++ S2)) := by simpa using hs
    have hd' : h.block b = some (D1 ++ d :: (D2 ++ D3)) := by simpa using hd
    simp only [List.length_cons, uninitialized_move_n, move_construct]
    rw [Heap.load_eq hs' (getElem?_mid _ _ _)]
    simp only
    rw [Heap.setSlot_eq _ hd' (by simp), set_mid]
    simp only
    have hs1 : (h.setBlock b (some (D1 ++ some x :: (D2 ++ D3)))).block a
        = some (S1 ++ some x :: (xs.map some ++ S2)) := by
      rw [Heap.block_setBlock_ne _ _ (Ne.symm hab)]; exact hs'
    rw [Heap.setSlot_eq _ hs1 (by simp), set_mid]
    simp only [Ptr.add]
    have key := ih ((h.setBlock b (some (D1 ++ some x :: (D2 ++ D3)))).setBlock a
        (some (S1 ++ some (ValueType.movedFrom x) :: (xs.map some ++ S2)))) a b
      (S1 ++ [some (ValueType.movedFrom x)]) S2 (D1 ++ [some x]) D2 D3 hab
      (by rw [Heap.block_setBlock_same _ _ (by
            rw [Heap.length_setBlock]; exact Heap.block_lt hs)]; simp)
      (by rw [Heap.block_setBlock_ne _ _ hab,
            Heap.block_setBlock_same _ _ (Heap.block_lt hd)]; simp) hl
    simp only [List.length_append, List.length_singleton] at key
    rw [key, Heap.setBlock_comm _ _ _ hab]
    simp only [Heap.setBlock_setBlock]
    simp

theorem move_n_spec [ValueType T] (l : List T) :
    ∀ (h : Heap T) (a : Nat) (P R : Block T) (d : T),
      h.block a = some (P ++ some d :: (l.map some ++ R)) →
      ∃ r : T, move_n h ⟨some a, P.length + 1⟩ l.length ⟨some a, P.length⟩
        = .ok (h.setBlock a (some (P ++ l.map some ++ some r :: R))) := by
  induction l with
  | nil =>
    intro h a P R d hb
    refine ⟨d, ?_⟩
    simp only [List.length_nil, move_n, List.map_nil, List.append_nil, List.nil_append] at *
    rw [Heap.setBlock_self hb]
  | cons y l ih =>
    intro h a P R d hb
    have hb1 : h.block a = some ((P ++ [some d]) ++ some y :: (l.map some ++ R)) := by
      simpa using hb
    have hb2 : h.block a = some (P ++ some d :: (some y :: (l.map some ++ R))) := by
      simpa using hb
    have hlt := Heap.block_lt hb
    simp only [List.length_cons, move_n, move_assign]
    have e1 : h.load ⟨some a, P.length + 1⟩ = .ok y := by
      have := Heap.load_eq hb1 (getElem?_mid _ _ _)
      simpa using this
    rw [e1]
    simp only
    rw [Heap.load_eq hb2 (getElem?_mid _ _ _)]
    simp only
    rw [Heap.setSlot_eq _ hb2 (by simp), set_mid]
    simp only
    have hb3 : (h.setBlock a (some (P ++ some y :: (some y :: (l.map some ++ R))))).block a
        = some ((P ++ [some y]) ++ some y :: (l.map some ++ R)) := by
      rw [Heap.block_setBlock_same _ _ hlt]; simp
    have e2 := Heap.setSlot_eq (i := P.length + 1) (some (ValueType.assignedFrom d y)) hb3
      (by simp)
    have e3 := set_mid (P ++ [some y]) (some y) (some (ValueType.assignedFrom d y))
      (l.map some ++ R)
    simp only [List.length_append, List.length_singleton] at e3
    rw [e3] at e2
    rw [e2, Heap.setBlock_setBlock]
    simp only [Ptr.add]
    obtain ⟨r, hr⟩ := ih (h.setBlock a (some ((P ++ [some y]) ++
      some (ValueType.assignedFrom d y) :: (l.map some ++ R)))) a (P ++ [some y]) R
      (ValueType.assignedFrom d y) (by rw [Heap.block_setBlock_same _ _ hlt])
    refine ⟨r, ?_⟩
    simp only [List.length_append, List.length_singleton] at hr
    rw [hr, Heap.setBlock_setBlock]
    simp

theorem move_backward_n_spec [ValueType T] (l : List T) :
    ∀ (h : Heap T) (a : Nat) (P R : Block T) (d : T),
      h.block a = some (P ++ l.map some ++ some d :: R) →
      ∃ r : T, move_backward_n h ⟨some a, P.length + l.length⟩ l.length
          ⟨some a, P.length + l.length + 1⟩
        = .ok (h.setBlock a (some (P ++ some r :: (l.map some ++ R)))) := by
  induction l using List.reverseRecOn with
  | nil =>
    intro h a P R d hb
    refine ⟨d, ?_⟩
    simp only [List.length_nil, move_backward_n, List.map_nil, List.append_nil,
      List.nil_append] at *
    rw [Heap.setBlock_self hb]
  | append_singleton l y ih =>
    intro h a P R d hb
    have hlt := Heap.block_lt hb
    have hb1 : h.block a = some ((P ++ l.map some) ++ some y :: (some d :: R)) := by
      simpa using hb
    have hb2 : h.block a = some ((P ++ l.map some ++ [some y]) ++ some d :: R) := by
      simpa using hb
    have e1 : h.load ⟨some a, P.length + l.length⟩ = .ok y := by
      have := Heap.load_eq hb1 (getElem?_mid _ _ _)
      simpa using this
    have e2 : h.load ⟨some a, P.length + l.length + 1⟩ = .ok d := by
      have := Heap.load_eq hb2 (getElem?_mid _ _ _)
      simpa using this
    have e3 : h.setSlot ⟨some a, P.length + l.length + 1⟩ (some y)
        = .ok (h.setBlock a (some ((P ++ l.map some ++ [some y]) ++ some y :: R))) := by
      have := Heap.setSlot_eq (i := P.length + l.length + 1) (some y) hb2 (by simp; omega)
      rw [this]
      have := set_mid (P ++ l.map some ++ [some y]) (some d) (some y) R
      simp only [List.length_append, List.length_singleton, List.length_map] at this
      rw [this]
    have hb3 : (h.setBlock a (some ((P ++ l.map some ++ [some y]) ++ some y :: R))).block a
        = some ((P ++ l.map some) ++ some y :: (some y :: R)) := by
      rw [Heap.block_setBlock_same _ _ hlt]; simp
    have e4 : (h.setBlock a (some ((P ++ l.map some ++ [some y]) ++ some y :: R))).setSlot
          ⟨some a, P.length + l.length⟩ (some (ValueType.assignedFrom d y))
        = .ok (h.setBlock a (some ((P ++ l.map some) ++
            some (ValueType.assignedFrom d y) :: (some y :: R)))) := by
      have := Heap.setSlot_eq (i := P.length + l.length)
        (some (ValueType.assignedFrom d y)) hb3 (by simp)
      rw [this, Heap.setBlock_setBlock]
      have := set_mid (P ++ l.map some) (some y) (some (ValueType.assignedFrom d y))
        (some y :: R)
      simp only [List.length_append, List.length_map] at this
      rw [this]
    obtain ⟨r, hr⟩ := ih (h.setBlock a (some ((P ++ l.map some) ++
      some (ValueType.assignedFrom d y) :: (some y :: R)))) a P (some y :: R)
      (ValueType.assignedFrom d y) (by rw [Heap.block_setBlock_same _ _ hlt])
    refine ⟨r, ?_⟩
    simp only [List.length_append, List.length_singleton, move_backward_n, Ptr.sub,
      move_assign]
    have a1 : P.length + (l.length + 1) - 1 = P.length + l.length := by omega
    have a2 : P.length + (l.length + 1) + 1 - 1 = P.length + l.length + 1 := by omega
    have c1 : 1 ≤ P.length + (l.length + 1) := by omega
    have c2 : 1 ≤ P.length + (l.length + 1) + 1 := by omega
    simp only [c1, c2, if_true, a1, a2, e1, e2, e3, e4, hr, Heap.setBlock_setBlock]
    simp

theorem ok_bind {ε α β : Type} (a : α) (f : α → Except ε β) :
    (Except.ok a >>= f) = f a := rfl

theorem error_bind {ε α β : Type} (e : ε) (f : α → Except ε β) :
    ((Except.error e : Except ε α) >>= f) = Except.error e := rfl

theorem Allocate_fits [ValueType T] (h : Heap T) {n : Nat} (hn : n ≠ 0) (hf : Fits T n) :
    Allocate h n = (⟨h.blocks ++ [some (List.replicate n none)]⟩, some h.blocks.length) := by
  unfold Allocate allocationBytes Fits at *
  rw [if_pos hn, Nat.mod_eq_of_lt hf, Nat.mul_div_cancel _ ValueType.sizeofT_pos]

theorem Fits.lt [ValueType T] {n : Nat} (hf : Fits T n) : n < 2 ^ 64 :=
  lt_of_le_of_lt (Nat.le_mul_of_pos_right _ ValueType.sizeofT_pos) hf

theorem Fits.of_le [ValueType T] {m n : Nat} (hf : Fits T n) (hmn : m ≤ n) : Fits T m :=
  lt_of_le_of_lt (Nat.mul_le_mul_right _ hmn) hf

theorem Holds.buffer_of_pos [ValueType T] {h : Heap T} {v : Vector} {xs : List T} (hv : Holds h v xs)
    (hc : 0 < v.data_.capacity_) :
    ∃ a, v.data_.buffer_ = some a ∧
      h.block a = some (xs.map some ++ List.replicate (v.data_.capacity_ - xs.length) none) := by
  obtain ⟨_, _, _, hs⟩ := hv
  unfold Vector.storage at hs
  cases hb : v.data_.buffer_ with
  | none => rw [hb] at hs; simp only at hs; rw [if_neg (by omega)] at hs; simp at hs
  | some a => rw [hb] at hs; exact ⟨a, rfl, hs⟩

theorem pure_eq_ok {ε α : Type} (a : α) : (pure a : Except ε α) = Except.ok a := rfl

theorem Heap.setSlot_mid {h : Heap T} {a i : Nat} {P R : Block T} {x : Option T}
    (s : Option T) (hb : h.block a = some (P ++ x :: R)) (hi : i = P.length) :
    h.setSlot ⟨some a, i⟩ s = .ok (h.setBlock a (some (P ++ s :: R))) := by
  subst hi
  rw [Heap.setSlot_eq _ hb (by simp), set_mid]

theorem Heap.load_mid {h : Heap T} {a i : Nat} {P R : Block T} {v : T}
    (hb : h.block a = some (P ++ some v :: R)) (hi : i = P.length) :
    h.load ⟨some a, i⟩ = .ok v := by
  subst hi
  exact Heap.load_eq hb (getElem?_mid _ _ _)

theorem PushBack_inplace [ValueType T] (h : Heap T) (v : Vector) (xs : List T) (x : T)
    (hv : Holds h v xs) (hlt : v.size_ < v.data_.capacity_) :
    ∃ h', v.PushBack h x = .ok (h', { v with size_ := v.size_ + 1 }) ∧
      Holds h' { v with size_ := v.size_ + 1 } (xs ++ [x]) := by
  obtain ⟨a, ha, hb⟩ := hv.buffer_of_pos (by omega)
  obtain ⟨hsz, hle, hfcap, hs⟩ := hv
  have hcap := hfcap.lt
  obtain ⟨k, hk⟩ : ∃ k, v.data_.capacity_ - xs.length = k + 1 := ⟨v.data_.capacity_ - xs.length - 1, by omega⟩
  rw [hk, List.replicate_succ] at hb
  have hw : wrap (v.size_ + 1) = v.size_ + 1 := Nat.mod_eq_of_lt (by omega)
  refine ⟨h.setBlock a (some (xs.map some ++ some x :: List.replicate k none)), ?_, ?_⟩
  · unfold Vector.PushBack
    simp only [Vector.Capacity, RawMemory.Capacity, hlt, if_true, RawMemory.plus,
      le_of_lt hlt, construct_at, ha, hw]
    simp only [ok_bind, pure_eq_ok]
    rw [Heap.setSlot_mid _ hb (by simp [hsz])]
    rfl
  · refine ⟨by simp [hsz], by simp; omega, hfcap, ?_⟩
    simp only [Vector.storage, ha, Heap.block_setBlock_same _ _ (Heap.block_lt hb)]
    have : v.data_.capacity_ - (xs ++ [x]).length = k := by simp; omega
    rw [this]
    simp


theorem Heap.block_append_new (h : Heap T) (b : Block T) :
    (⟨h.blocks ++ [some b]⟩ : Heap T).block h.blocks.length = some b := by
  simp [Heap.block]

theorem Heap.block_append_old (h : Heap T) (x : Option (Block T)) {a : Nat}
    (ha : a < h.blocks.length) : (⟨h.blocks ++ [x]⟩ : Heap T).block a = h.block a := by
  simp [Heap.block, List.getElem?_append_left ha]

theorem replicate_split {α : Type} (x : α) {n c : Nat} (h : n < c) :
    List.replicate c x = List.replicate n x ++ x :: List.replicate (c - n - 1) x := by
  have : c = n + ((c - n - 1) + 1) := by omega
  conv_lhs => rw [this, List.replicate_add, List.replicate_succ]

theorem Deallocate_some {h : Heap T} {a : Nat} {b : Block T} (hb : h.block a = some b) :
    Deallocate h (some a) = .ok (h.setBlock a none) := by
  simp [Deallocate, hb]

theorem growth_capacity [ValueType T] {n : Nat} (hf : Fits T (2 * n)) :
    (if n = 0 then 1 else wrap (2 * n)) = max 1 (2 * n) ∧
      Fits T (max 1 (2 * n)) ∧ max 1 (2 * n) ≠ 0 ∧ n < max 1 (2 * n) ∧
      max 1 (2 * n) < 2 ^ 64 := by
  have hs := ValueType.sizeofT_pos (T := T)
  have hl := ValueType.sizeofT_lt (T := T)
  unfold Fits at *
  have h2 : 2 * n < 2 ^ 64 := lt_of_le_of_lt (Nat.le_mul_of_pos_right _ hs) hf
  by_cases hn : n = 0
  · subst hn
    refine ⟨by simp, by simpa using hl, by simp, by simp, by simp⟩
  · have : max 1 (2 * n) = 2 * n := by omega
    rw [this, if_neg hn]
    refine ⟨Nat.mod_eq_of_lt h2, hf, by omega, by omega, h2⟩

theorem RealocateElements_spec [ValueType T] (xs : List T) (h : Heap T) (a b : Nat)
    (S1 S2 D1 D2 D3 : Block T) (hab : a ≠ b)
    (hs : h.block a = some (S1 ++ xs.map some ++ S2))
    (hd : h.block b = some (D1 ++ D2 ++ D3)) (hl : D2.length = xs.length) :
    Vector.RealocateElements h ⟨some a, S1.length⟩ xs.length ⟨some b, D1.length⟩
      = .ok (h.setBlock b (some (D1 ++ xs.map some ++ D3))) := by
  unfold Vector.RealocateElements uninitialized_move_n_const
  rw [uninitialized_copy_n_spec xs h a b S1 S2 D1 D2 D3 hab hs hd hl]
  simp

theorem PushBack_grow [ValueType T] (h : Heap T) (v : Vector) (xs : List T) (x : T)
    (hv : Holds h v xs) (hge : ¬ v.size_ < v.data_.capacity_) (hf : Fits T (2 * v.size_)) :
    ∃ h', v.PushBack h x = .ok (h', { data_ := { buffer_ := some h.blocks.length,
                                                  capacity_ := max 1 (2 * v.size_) },
                                       size_ := v.size_ + 1 }) ∧
      Holds h' { data_ := { buffer_ := some h.blocks.length,
                            capacity_ := max 1 (2 * v.size_) },
                 size_ := v.size_ + 1 } (xs ++ [x]) := by
  obtain ⟨hc, hfc, hc0, hnc, hc64⟩ := growth_capacity hf
  obtain ⟨hsz, hle, hfcap, hs⟩ := hv
  have hcap := hfcap.lt
  have hcapn : v.data_.capacity_ = xs.length := by omega
  have hw : wrap (v.size_ + 1) = v.size_ + 1 := Nat.mod_eq_of_lt (by omega)
  unfold Vector.PushBack
  simp only [Vector.Capacity, RawMemory.Capacity, hge, if_false, RawMemory.create, hc,
    Allocate_fits h hc0 hfc, RawMemory.plus, le_of_lt hnc, if_true, ok_bind, construct_at,
    RawMemory.GetAddress, RawMemory.Swap, RawMemory.destroy, hw, pure_eq_ok]
  have hnew := Heap.block_append_new h (List.replicate (max 1 (2 * v.size_)) (none : Option T))
  rw [replicate_split none hnc] at hnew ⊢
  rw [Heap.setSlot_mid (some x) hnew (by simp)]
  simp only [ok_bind]
  cases hbuf : v.data_.buffer_ with
  | none =>
    have hx : xs = [] := by
      simp only [Vector.storage, hbuf] at hs
      split at hs
      · simp only [Option.some.injEq] at hs
        have := congrArg List.length hs
        simp only [List.length_nil, List.length_append, List.length_map] at this
        exact List.length_eq_zero.mp (by omega)
      · simp at hs
    subst hx
    simp only [List.length_nil] at hsz
    simp only [hsz, Vector.RealocateElements, uninitialized_move_n_const,
      uninitialized_copy_n, ite_self, ok_bind, destroy_n, Deallocate]
    refine ⟨_, rfl, ?_⟩
    refine ⟨by simp, by simp, by simpa [hsz] using hfc, ?_⟩
    simp only [Vector.storage]
    rw [Heap.block_setBlock_same _ _ (by simp)]
    simp
  | some a =>
    have hb : h.block a = some (xs.map some) := by
      simpa [Vector.storage, hbuf, hcapn] using hs
    have halt := Heap.block_lt hb
    have hne : a ≠ h.blocks.length := by omega
    rw [hsz] at hnew ⊢
    generalize hR : List.replicate (max 1 (2 * xs.length) - xs.length - 1) (none : Option T) = R
      at hnew ⊢
    generalize hH1 : (⟨h.blocks ++ [some (List.replicate xs.length none ++ none :: R)]⟩ : Heap T)
      = H1 at hnew ⊢
    have hlen1 : H1.blocks.length = h.blocks.length + 1 := by subst hH1; simp
    have hold1 : H1.block a = some (xs.map some) := by
      subst hH1; rw [Heap.block_append_old _ _ halt]; exact hb
    have e1 := RealocateElements_spec xs
      (H1.setBlock h.blocks.length (some (List.replicate xs.length none ++ some x :: R)))
      a h.blocks.length [] [] [] (List.replicate xs.length none) (some x :: R) hne
      (by rw [Heap.block_setBlock_ne _ _ (Ne.symm hne)]; simpa using hold1)
      (by rw [Heap.block_setBlock_same _ _ (by omega)]; simp) (by simp)
    simp only [List.length_nil, List.nil_append] at e1
    rw [e1]
    simp only [ok_bind, Heap.setBlock_setBlock]
    have e2 := destroy_n_spec xs
      (H1.setBlock h.blocks.length (some (xs.map some ++ some x :: R))) a [] []
      (by rw [Heap.block_setBlock_ne _ _ (Ne.symm hne)]; simpa using hold1)
    simp only [List.length_nil, List.nil_append, List.append_nil] at e2
    rw [e2]
    simp only [ok_bind]
    rw [Deallocate_some (b := List.replicate xs.length none)
      (by rw [Heap.block_setBlock_same _ _ (by
        simp only [Heap.length_setBlock]; omega)])]
    simp only [ok_bind, Heap.setBlock_setBlock]
    refine ⟨_, rfl, ?_⟩
    rw [hsz] at hnc hfc
    refine ⟨by simp, hnc, hfc, ?_⟩
    simp only [Vector.storage]
    rw [Heap.block_setBlock_ne _ _ hne, Heap.block_setBlock_same _ _ (by omega)]
    subst hR
    simp
    omega

theorem Holds.nil_of_null [ValueType T] {h : Heap T} {v : Vector} {xs : List T}
    (hv : Holds h v xs) (hbuf : v.data_.buffer_ = none) :
    xs = [] ∧ v.size_ = 0 ∧ v.data_.capacity_ = 0 := by
  obtain ⟨hsz, hle, _, hs⟩ := hv
  simp only [Vector.storage, hbuf] at hs
  split at hs
  · simp only [Option.some.injEq] at hs
    have := congrArg List.length hs
    simp only [List.length_nil, List.length_append, List.length_map] at this
    have hx : xs = [] := List.length_eq_zero.mp (by omega)
    subst hx
    simp only [List.length_nil] at hsz
    exact ⟨rfl, hsz, by assumption⟩
  · simp at hs

theorem PushBack_spec [ValueType T] (h : Heap T) (v : Vector) (xs : List T) (x : T)
    (hv : Holds h v xs) (hf : v.size_ = v.data_.capacity_ → Fits T (2 * v.size_)) :
    ∃ h' v', v.PushBack h x = .ok (h', v') ∧ Holds h' v' (xs ++ [x]) ∧
      v'.size_ = v.size_ + 1 ∧
      v'.data_.capacity_ = (if v.size_ < v.data_.capacity_ then v.data_.capacity_
                            else max 1 (2 * v.data_.capacity_)) := by
  by_cases hlt : v.size_ < v.data_.capacity_
  · obtain ⟨h', he, hh⟩ := PushBack_inplace h v xs x hv hlt
    exact ⟨h', _, he, hh, rfl, by simp [hlt]⟩
  · have heq : v.size_ = v.data_.capacity_ := le_antisymm hv.2.1 (not_lt.mp hlt)
    obtain ⟨h', he, hh⟩ := PushBack_grow h v xs x hv hlt (hf heq)
    exact ⟨h', _, he, hh, rfl, by simp [hlt, heq]⟩

theorem release_old {β : Type} (H : Heap T) (a n : Nat) (ys : List T)
    (hb : H.block a = some (ys.map some)) (hn : n = ys.length)
    (f : Heap T → Except Fault β) :
    (destroy_n H ⟨some a, 0⟩ n >>= fun h4 => Deallocate h4 (some a) >>= f)
      = f (H.setBlock a none) := by
  subst hn
  have e2 := destroy_n_spec ys H a [] [] (by simpa using hb)
  simp only [List.length_nil, List.nil_append, List.append_nil] at e2
  rw [e2]
  simp only [ok_bind]
  rw [Deallocate_some (b := List.replicate ys.length none)
    (by rw [Heap.block_setBlock_same _ _ (Heap.block_lt hb)])]
  simp only [ok_bind, Heap.setBlock_setBlock]

theorem EmplaceBack_spec [ValueType T] (h : Heap T) (v : Vector) (xs : List T) (x : T)
    (hv : Holds h v xs) (hf : v.size_ = v.data_.capacity_ → Fits T (2 * v.size_)) :
    ∃ h' v', v.EmplaceBack h x = .ok (h', v', ⟨v'.data_.buffer_, v.size_⟩) ∧
      Holds h' v' (xs ++ [x]) ∧ v'.size_ = v.size_ + 1 ∧
      v'.data_.capacity_ = (if v.size_ < v.data_.capacity_ then v.data_.capacity_
                            else max 1 (2 * v.data_.capacity_)) := by
  by_cases hlt : v.size_ < v.data_.capacity_
  · obtain ⟨a, ha, hb⟩ := hv.buffer_of_pos (by omega)
    obtain ⟨hsz, hle, hfcap, hs⟩ := hv
    have hcap := hfcap.lt
    obtain ⟨k, hk⟩ : ∃ k, v.data_.capacity_ - xs.length = k + 1 :=
      ⟨v.data_.capacity_ - xs.length - 1, by omega⟩
    rw [hk, List.replicate_succ] at hb
    have hw : wrap (v.size_ + 1) = v.size_ + 1 := Nat.mod_eq_of_lt (by omega)
    unfold Vector.EmplaceBack
    simp only [Vector.Capacity, RawMemory.Capacity, hlt, if_true, RawMemory.plus,
      le_of_lt hlt, construct_at, ha, hw, ok_bind, pure_eq_ok, Vector.index,
      RawMemory.index, Nat.lt_add_one]
    rw [Heap.setSlot_mid _ hb (by simp [hsz])]
    simp only [ok_bind, ha]
    refine ⟨h.setBlock a (some (xs.map some ++ some x :: List.replicate k none)),
      { v with size_ := v.size_ + 1 }, ?_, ?_, rfl, rfl⟩
    · simp only [ha]
    refine ⟨by simp [hsz], by simp; omega, hfcap, ?_⟩
    simp only [Vector.storage, ha, Heap.block_setBlock_same _ _ (Heap.block_lt hb)]
    have : v.data_.capacity_ - (xs ++ [x]).length = k := by simp; omega
    rw [this]
    simp
  · have heq : v.size_ = v.data_.capacity_ := le_antisymm hv.2.1 (not_lt.mp hlt)
    obtain ⟨hc, hfc, hc0, hnc, hc64⟩ := growth_capacity (hf heq)
    obtain ⟨hsz, hle, hfcap, hs⟩ := hv
    have hcapn : v.data_.capacity_ = xs.length := by omega
    have hw : wrap (v.size_ + 1) = v.size_ + 1 := Nat.mod_eq_of_lt (by omega)
    unfold Vector.EmplaceBack
    simp only [Vector.Capacity, RawMemory.Capacity, hlt, if_false, RawMemory.create, hc,
      Allocate_fits h hc0 hfc, RawMemory.plus, le_of_lt hnc, if_true, ok_bind, construct_at,
      RawMemory.GetAddress, RawMemory.Swap, RawMemory.destroy, hw, pure_eq_ok,
      Vector.index, RawMemory.index, Nat.lt_add_one, hnc]
    have hnew := Heap.block_append_new h
      (List.replicate (max 1 (2 * v.size_)) (none : Option T))
    rw [replicate_split none hnc] at hnew ⊢
    rw [Heap.setSlot_mid (some x) hnew (by simp)]
    simp only [ok_bind]
    cases hbuf : v.data_.buffer_ with
    | none =>
      have hx : xs = [] := by
        simp only [Vector.storage, hbuf] at hs
        split at hs
        · simp only [Option.some.injEq] at hs
          have := congrArg List.length hs
          simp only [List.length_nil, List.length_append, List.length_map] at this
          exact List.length_eq_zero.mp (by omega)
        · simp at hs
      subst hx
      simp only [List.length_nil] at hsz
      simp only [hsz, uninitialized_move_n, uninitialized_copy_n, ite_self, ok_bind,
        destroy_n, Deallocate]
      refine ⟨_, ⟨⟨some h.blocks.length, max 1 (2 * 0)⟩, 0 + 1⟩, rfl, ?_, rfl, ?_⟩
      · refine ⟨by simp, by simp, by simpa [hsz] using hfc, ?_⟩
        simp only [Vector.storage]
        rw [Heap.block_setBlock_same _ _ (by simp)]
        simp
      · simp [← heq, hsz]
    | some a =>
      have hb : h.block a = some (xs.map some) := by
        simpa [Vector.storage, hbuf, hcapn] using hs
      have halt := Heap.block_lt hb
      have hne : a ≠ h.blocks.length := by omega
      rw [hsz] at hnew ⊢
      generalize hR : List.replicate (max 1 (2 * xs.length) - xs.length - 1)
        (none : Option T) = R at hnew ⊢
      generalize hH1 : (⟨h.blocks ++
        [some (List.replicate xs.length none ++ none :: R)]⟩ : Heap T) = H1 at hnew ⊢
      have hlen1 : H1.blocks.length = h.blocks.length + 1 := by subst hH1; simp
      have hold1 : H1.block a = some (xs.map some) := by
        subst hH1; rw [Heap.block_append_old _ _ halt]; exact hb
      have hsrc : (H1.setBlock h.blocks.length
          (some (List.replicate xs.length none ++ some x :: R))).block a
          = some ([] ++ xs.map some ++ []) := by
        rw [Heap.block_setBlock_ne _ _ (Ne.symm hne)]; simpa using hold1
      have hdst : (H1.setBlock h.blocks.length
          (some (List.replicate xs.length none ++ some x :: R))).block h.blocks.length
          = some ([] ++ List.replicate xs.length none ++ (some x :: R)) := by
        rw [Heap.block_setBlock_same _ _ (by omega)]; simp
      have e1 := uninitialized_copy_n_spec xs _ a h.blocks.length [] [] []
        (List.replicate xs.length none) (some x :: R) hne hsrc hdst (by simp)
      have e1m := uninitialized_move_n_spec xs _ a h.blocks.length [] [] []
        (List.replicate xs.length none) (some x :: R) hne hsrc hdst (by simp)
      simp only [List.length_nil, List.nil_append, List.append_nil] at e1 e1m
      rw [e1, e1m]
      simp only [ok_bind, Heap.setBlock_setBlock]
      have r1 := fun (f : Heap T → Except Fault (Heap T × Vector × Ptr)) =>
        release_old (H1.setBlock h.blocks.length (some (xs.map some ++ some x :: R)))
          a xs.length xs
          (by rw [Heap.block_setBlock_ne _ _ (Ne.symm hne)]; exact hold1) rfl f
      have r2 := fun (f : Heap T → Except Fault (Heap T × Vector × Ptr)) =>
        release_old ((H1.setBlock h.blocks.length
            (some (xs.map some ++ some x :: R))).setBlock a
            (some (xs.map (fun x => some (ValueType.movedFrom x)))))
          a xs.length (xs.map ValueType.movedFrom)
          (by rw [Heap.block_setBlock_same _ _ (by
                simp only [Heap.length_setBlock]; omega)]; simp) (by simp) f
      simp only [r1, r2, Heap.setBlock_setBlock, ite_self]
      refine ⟨_, ⟨⟨some h.blocks.length, max 1 (2 * xs.length)⟩, xs.length + 1⟩,
        rfl, ?_, rfl, ?_⟩
      · rw [hsz] at hnc hfc
        refine ⟨by simp, hnc, hfc, ?_⟩
        simp only [Vector.storage]
        rw [Heap.block_setBlock_ne _ _ hne, Heap.block_setBlock_same _ _ (by omega)]
        subst hR
        simp
        omega
      · simp [← heq, hsz]

theorem size_t_sub_eq {n i : Nat} (hi : i ≤ n) (_hn : n < 2 ^ 64) : size_t_sub n i = n - i := by
  unfold size_t_sub
  rw [if_pos hi]

/-- On `size_t` values `size_t_sub` is subtraction modulo `2 ^ 64`. -/
theorem size_t_sub_eq_mod {a b : Nat} (ha : a < 2 ^ 64) (hb : b < 2 ^ 64) :
    size_t_sub a b = (a + 2 ^ 64 - b) % 2 ^ 64 := by
  unfold size_t_sub
  split <;> omega

theorem wrap_succ {n : Nat} (hn : n + 1 < 2 ^ 64) : wrap (n + 1) = n + 1 :=
  Nat.mod_eq_of_lt hn

/-- Every list of length greater than `i` splits at `i` with a last element apart. -/
theorem split_mid_last (xs : List T) (i : Nat) (hi : i < xs.length) :
    ∃ l1 l2 z, xs = l1 ++ l2 ++ [z] ∧ l1.length = i := by
  have hne : xs.drop i ≠ [] := by
    intro h0
    have := congrArg List.length h0
    simp at this
    omega
  refine ⟨xs.take i, (xs.drop i).dropLast, (xs.drop i).getLast hne, ?_, ?_⟩
  · rw [List.append_assoc, List.dropLast_append_getLast, List.take_append_drop]
  · simp; omega

theorem Emplace_inplace [ValueType T] (h : Heap T) (v : Vector) (xs : List T) (i : Nat)
    (x : T) (hv : Holds h v xs) (hi : i < xs.length) (hlt : v.size_ < v.data_.capacity_) :
    ∃ h', v.Emplace h ⟨v.data_.buffer_, i⟩ x
        = .ok (h', { v with size_ := v.size_ + 1 }, ⟨v.data_.buffer_, i⟩) ∧
      Holds h' { v with size_ := v.size_ + 1 } (xs.take i ++ x :: xs.drop i) := by
  obtain ⟨a, ha, hb⟩ := hv.buffer_of_pos (by omega)
  obtain ⟨hsz, hle, hfcap, hs⟩ := hv
  have hcap := hfcap.lt
  obtain ⟨k, hk⟩ : ∃ k, v.data_.capacity_ - xs.length = k + 1 :=
    ⟨v.data_.capacity_ - xs.length - 1, by omega⟩
  rw [hk, List.replicate_succ] at hb
  obtain ⟨l1, l2, z, rfl, hl1⟩ := split_mid_last xs i hi
  have hn : v.size_ = l1.length + l2.length + 1 := by simpa using hsz
  have hw : wrap (v.size_ + 1) = v.size_ + 1 := wrap_succ (by omega)
  have hne : ¬ i = v.size_ := by omega
  unfold Vector.Emplace
  simp only [Vector.end_, Vector.begin, RawMemory.plus, hle, if_true, ok_bind, Ptr.mk.injEq,
    true_and, hne, if_false, Nat.zero_le, Ptr.diff, and_self, Nat.sub_zero,
    Vector.Capacity, RawMemory.Capacity, hlt, Ptr.sub, Ptr.add, Nat.zero_add, ha,
    Vector.index, RawMemory.index, hw, pure_eq_ok]
  have h1s : 1 ≤ v.size_ := by omega
  have his : i < v.size_ := by omega
  have hic : i < v.data_.capacity_ := by omega
  simp only [h1s, his, hic, if_true, ok_bind, uninitialized_move_n, move_construct,
    std_move_backward, Ptr.diff, true_and]
  have hb0 : h.block a = some ((l1.map some ++ l2.map some) ++
      some z :: (none :: List.replicate k none)) := by simpa using hb
  have hlt0 := Heap.block_lt hb
  rw [Heap.load_mid hb0 (by simp; omega)]
  simp only
  have hb1 : h.block a = some ((l1.map some ++ l2.map some ++ [some z]) ++
      none :: List.replicate k none) := by simpa using hb
  rw [Heap.setSlot_mid (some z) hb1 (by simp; omega)]
  simp only
  have hb2 : (h.setBlock a (some ((l1.map some ++ l2.map some ++ [some z]) ++
      some z :: List.replicate k none))).block a = some ((l1.map some ++ l2.map some) ++
      some z :: (some z :: List.replicate k none)) := by
    rw [Heap.block_setBlock_same _ _ hlt0]; simp
  rw [Heap.setSlot_mid (some (ValueType.movedFrom z)) hb2 (by simp; omega),
    Heap.setBlock_setBlock]
  simp only [ok_bind]
  have hil : i ≤ v.size_ - 1 := by omega
  simp only [hil, if_true]
  obtain ⟨r, hr⟩ := move_backward_n_spec l2
    (h.setBlock a (some ((l1.map some ++ l2.map some) ++
      some (ValueType.movedFrom z) :: (some z :: List.replicate k none)))) a
    (l1.map some) (some z :: List.replicate k none) (ValueType.movedFrom z)
    (by rw [Heap.block_setBlock_same _ _ hlt0])
  have o1 : v.size_ - 1 = (l1.map some).length + l2.length := by simp; omega
  have o2 : v.size_ - 1 - i = l2.length := by omega
  have o3 : v.size_ = (l1.map some).length + l2.length + 1 := by simp; omega
  rw [o2]
  conv in Ptr.mk (some a) (v.size_ - 1) => rw [o1]
  conv in Ptr.mk (some a) v.size_ => rw [o3]
  rw [hr]
  simp only [ok_bind, Heap.setBlock_setBlock, assign]
  have hb3 : (h.setBlock a (some (l1.map some ++ some r :: (l2.map some ++
      some z :: List.replicate k none)))).block a = some (l1.map some ++ some r ::
      (l2.map some ++ some z :: List.replicate k none)) := by
    rw [Heap.block_setBlock_same _ _ hlt0]
  rw [Heap.load_mid hb3 (by simp [hl1]), ]
  simp only
  rw [Heap.setSlot_mid (some x) hb3 (by simp [hl1]), Heap.setBlock_setBlock]
  refine ⟨_, rfl, ?_⟩
  refine ⟨by simp; omega, by simp; omega, hfcap, ?_⟩
  simp only [Vector.storage, ha, Heap.block_setBlock_same _ _ hlt0]
  have ek : v.data_.capacity_ - (List.take i (l1 ++ l2 ++ [z]) ++
      x :: List.drop i (l1 ++ l2 ++ [z])).length = k := by
    simp at hk ⊢; omega
  rw [ek]
  subst hl1
  simp

theorem Emplace_grow [ValueType T] (h : Heap T) (v : Vector) (xs : List T) (i : Nat)
    (x : T) (hv : Holds h v xs) (hi : i < xs.length) (hge : ¬ v.size_ < v.data_.capacity_)
    (hf : Fits T (2 * v.size_)) :
    ∃ h', v.Emplace h ⟨v.data_.buffer_, i⟩ x
        = .ok (h', { data_ := { buffer_ := some h.blocks.length,
                                capacity_ := max 1 (2 * v.size_) },
                     size_ := v.size_ + 1 }, ⟨some h.blocks.length, i⟩) ∧
      Holds h' { data_ := { buffer_ := some h.blocks.length,
                            capacity_ := max 1 (2 * v.size_) },
                 size_ := v.size_ + 1 } (xs.take i ++ x :: xs.drop i) := by
  obtain ⟨hc, hfc, hc0, hnc, hc64⟩ := growth_capacity hf
  obtain ⟨a, ha, hb⟩ := hv.buffer_of_pos (by have := hv.1; have := hv.2.1; omega)
  obtain ⟨hsz, hle, hfcap, hs⟩ := hv
  have hcap := hfcap.lt
  have hcapn : v.data_.capacity_ = xs.length := by omega
  rw [hcapn, Nat.sub_self, List.replicate_zero, List.append_nil] at hb
  have hw : wrap (v.size_ + 1) = v.size_ + 1 := wrap_succ (by omega)
  have hne : ¬ i = v.size_ := by omega
  have hic : i ≤ max 1 (2 * v.size_) := by omega
  have hws : size_t_sub v.size_ i = v.size_ - i := size_t_sub_eq (by omega) (by omega)
  have halt := Heap.block_lt hb
  have hnea : a ≠ h.blocks.length := by omega
  unfold Vector.Emplace
  simp only [Vector.end_, Vector.begin, RawMemory.plus, hle, if_true, ok_bind, Ptr.mk.injEq,
    true_and, hne, if_false, Nat.zero_le, Ptr.diff, and_self, Nat.sub_zero,
    Vector.Capacity, RawMemory.Capacity, hge, Ptr.add, Nat.zero_add, ha,
    hw, pure_eq_ok, RawMemory.create, hc, Allocate_fits h hc0 hfc, construct_at,
    RawMemory.GetAddress, RawMemory.Swap, RawMemory.destroy, hic, hws]
  have hnew := Heap.block_append_new h
    (List.replicate (max 1 (2 * v.size_)) (none : Option T))
  have hci : i < max 1 (2 * v.size_) := by omega
  rw [replicate_split none hci] at hnew ⊢
  rw [Heap.setSlot_mid (some x) hnew (by simp)]
  simp only [ok_bind]
  have hxs : xs = xs.take i ++ xs.drop i := (List.take_append_drop i xs).symm
  have hl1 : (xs.take i).length = i := by simp; omega
  have hl2 : (xs.drop i).length = v.size_ - i := by simp; omega
  generalize xs.take i = l1 at hxs hl1 ⊢
  generalize xs.drop i = l2 at hxs hl2 ⊢
  subst hxs
  have hR : List.replicate (max 1 (2 * v.size_) - i - 1) (none : Option T)
      = List.replicate l2.length none ++ List.replicate (v.size_ - 1) none := by
    rw [← List.replicate_add]
    congr 1
    omega
  rw [hR] at hnew ⊢
  generalize hH1 : (⟨h.blocks ++ [some (List.replicate i none ++ none ::
      (List.replicate l2.length none ++ List.replicate (v.size_ - 1) none))]⟩ : Heap T)
    = H1 at hnew ⊢
  have hlen1 : H1.blocks.length = h.blocks.length + 1 := by subst hH1; simp
  have hold1 : H1.block a = some (l1.map some ++ l2.map some) := by
    subst hH1; rw [Heap.block_append_old _ _ halt]; simpa using hb
  generalize hR2 : List.replicate (v.size_ - 1) (none : Option T) = R2 at hnew ⊢
  have e1 := RealocateElements_spec l1
    (H1.setBlock h.blocks.length (some (List.replicate i none ++ some x ::
      (List.replicate l2.length none ++ R2))))
    a h.blocks.length [] (l2.map some) [] (List.replicate i none)
    (some x :: (List.replicate l2.length none ++ R2)) hnea
    (by rw [Heap.block_setBlock_ne _ _ (Ne.symm hnea)]; simpa using hold1)
    (by rw [Heap.block_setBlock_same _ _ (by omega)]; simp) (by simp [hl1])
  simp only [List.length_nil, List.nil_append, hl1, Heap.setBlock_setBlock] at e1
  rw [e1]
  simp only [ok_bind]
  have e2 := RealocateElements_spec l2
    (H1.setBlock h.blocks.length (some (l1.map some ++ some x ::
      (List.replicate l2.length none ++ R2))))
    a h.blocks.length (l1.map some) [] (l1.map some ++ [some x])
    (List.replicate l2.length none) R2 hnea
    (by rw [Heap.block_setBlock_ne _ _ (Ne.symm hnea)]; simpa using hold1)
    (by rw [Heap.block_setBlock_same _ _ (by omega)]; simp) (by simp)
  simp only [List.length_append, List.length_map, List.length_singleton, hl1,
    Heap.setBlock_setBlock] at e2
  rw [← hl2, e2]
  simp only [ok_bind]
  have r1 := release_old (H1.setBlock h.blocks.length
      (some (l1.map some ++ [some x] ++ l2.map some ++ R2))) a v.size_ (l1 ++ l2)
    (by rw [Heap.block_setBlock_ne _ _ (Ne.symm hnea)]; simpa using hold1) hsz
    (fun h6 => Except.ok (h6, (⟨⟨some h.blocks.length, max 1 (2 * v.size_)⟩,
      v.size_ + 1⟩ : Vector), (⟨some h.blocks.length, i⟩ : Ptr)))
  simp only [bind_assoc] at r1
  rw [r1]
  refine ⟨_, rfl, ?_⟩
  refine ⟨by simp at hsz ⊢; omega, by simp only; omega, hfc, ?_⟩
  simp only [Vector.storage]
  rw [Heap.block_setBlock_ne _ _ hnea, Heap.block_setBlock_same _ _ (by omega)]
  subst hR2
  have hn : v.size_ = l1.length + l2.length := by simpa using hsz
  have hmax : max 1 (2 * v.size_) - (l1 ++ x :: l2).length = v.size_ - 1 := by
    simp only [List.length_append, List.length_cons]; omega
  rw [hmax]
  simp

theorem Emplace_spec [ValueType T] (h : Heap T) (v : Vector) (xs : List T) (i : Nat)
    (x : T) (hv : Holds h v xs) (hi : i ≤ xs.length)
    (hf : v.size_ = v.data_.capacity_ → Fits T (2 * v.size_)) :
    ∃ h' v', v.Emplace h ⟨v.data_.buffer_, i⟩ x = .ok (h', v', ⟨v'.data_.buffer_, i⟩) ∧
      Holds h' v' (xs.take i ++ x :: xs.drop i) ∧ v'.size_ = v.size_ + 1 ∧
      v'.data_.capacity_ = (if v.size_ < v.data_.capacity_ then v.data_.capacity_
                            else max 1 (2 * v.data_.capacity_)) := by
  have hsz := hv.1
  have hle := hv.2.1
  by_cases hin : i = xs.length
  · obtain ⟨h', v', he, hh, hs', hc'⟩ := EmplaceBack_spec h v xs x hv hf
    refine ⟨h', v', ?_, ?_, hs', hc'⟩
    · have hle' : v.size_ + 1 ≤ v'.data_.capacity_ := hs' ▸ hh.2.1
      unfold Vector.Emplace
      simp only [Vector.end_, RawMemory.plus, hle, if_true, ok_bind, hin, ← hsz, he,
        hle', Ptr.sub, hs', pure_eq_ok, Nat.le_add_left, Nat.add_sub_cancel]
    · subst hin
      simpa using hh
  · have hi' : i < xs.length := lt_of_le_of_ne hi hin
    by_cases hlt : v.size_ < v.data_.capacity_
    · obtain ⟨h', he, hh⟩ := Emplace_inplace h v xs i x hv hi' hlt
      exact ⟨h', _, he, hh, rfl, by simp [hlt]⟩
    · have heq : v.size_ = v.data_.capacity_ := le_antisymm hle (not_lt.mp hlt)
      obtain ⟨h', he, hh⟩ := Emplace_grow h v xs i x hv hi' hlt (hf heq)
      exact ⟨h', _, he, hh, rfl, by simp [hlt, heq]⟩

theorem eraseIdx_mid {α : Type} (l1 : List α) (e : α) (l2 : List α) :
    (l1 ++ e :: l2).eraseIdx l1.length = l1 ++ l2 := by
  induction l1 with
  | nil => rfl
  | cons a l1 ih => simp [ih]

theorem split_at_index (xs : List T) (i : Nat) (hi : i < xs.length) :
    ∃ l1 e l2, xs = l1 ++ e :: l2 ∧ l1.length = i := by
  refine ⟨xs.take i, xs[i], xs.drop (i + 1), ?_, ?_⟩
  · rw [← List.drop_eq_getElem_cons hi, List.take_append_drop]
  · simp; omega

theorem Erase_spec [ValueType T] (h : Heap T) (v : Vector) (xs : List T) (i : Nat)
    (hv : Holds h v xs) (hi : i < xs.length) :
    ∃ h', v.Erase h ⟨v.data_.buffer_, i⟩
        = .ok (h', { v with size_ := v.size_ - 1 }, ⟨v.data_.buffer_, i⟩) ∧
      Holds h' { v with size_ := v.size_ - 1 } (xs.eraseIdx i) := by
  obtain ⟨a, ha, hb⟩ := hv.buffer_of_pos (by have := hv.1; have := hv.2.1; omega)
  obtain ⟨hsz, hle, hfcap, hs⟩ := hv
  have hcap := hfcap.lt
  obtain ⟨l1, e, l2, rfl, hl1⟩ := split_at_index xs i hi
  have hn : v.size_ = l1.length + l2.length + 1 := by simp at hsz; omega
  have hw : size_t_sub v.size_ 1 = v.size_ - 1 := size_t_sub_eq (by omega) (by omega)
  generalize hR : List.replicate (v.data_.capacity_ - (l1 ++ e :: l2).length)
    (none : Option T) = R at hb
  have hb0 : h.block a = some (l1.map some ++ some e :: (l2.map some ++ R)) := by
    simpa using hb
  have hlt0 := Heap.block_lt hb
  have h1 : i + 1 ≤ v.size_ := by omega
  have h2 : 1 ≤ v.size_ := by omega
  unfold Vector.Erase
  simp only [Vector.end_, Vector.begin, RawMemory.plus, hle, if_true, ok_bind,
    Nat.zero_le, Ptr.diff, and_self, Nat.sub_zero, Ptr.sub, Ptr.add, Nat.zero_add, ha,
    hw, pure_eq_ok, std_move, true_and, h1, h2]
  obtain ⟨r, hr⟩ := move_n_spec l2 h a (l1.map some) R e hb0
  have o1 : v.size_ - (i + 1) = l2.length := by omega
  have o2 : i = (l1.map some).length := by simp [hl1]
  rw [o1]
  conv in Ptr.mk (some a) (i + 1) => rw [o2]
  conv in Ptr.mk (some a) i => rw [o2]
  rw [hr]
  simp only [ok_bind, destroy_at]
  have hb3 : (h.setBlock a (some (l1.map some ++ l2.map some ++ some r :: R))).block a
      = some ((l1.map some ++ l2.map some) ++ some r :: R) := by
    rw [Heap.block_setBlock_same _ _ hlt0]
  rw [Heap.load_mid hb3 (by simp; omega)]
  simp only
  rw [Heap.setSlot_mid none hb3 (by simp; omega), Heap.setBlock_setBlock]
  simp only [ok_bind]
  refine ⟨h.setBlock a (some (l1.map some ++ l2.map some ++ none :: R)), ?_, ?_⟩
  · simp [hl1]
  · rw [← hl1, eraseIdx_mid]
    refine ⟨by simp; omega, by simp only; omega, hfcap, ?_⟩
    simp only [Vector.storage, ha, Heap.block_setBlock_same _ _ hlt0]
    subst hR
    have : v.data_.capacity_ - (l1 ++ l2).length
        = (v.data_.capacity_ - (l1 ++ e :: l2).length) + 1 := by
      simp at hsz ⊢; omega
    rw [this, List.replicate_succ]
    simp

theorem Holds.get [ValueType T] {h : Heap T} {v : Vector} {xs : List T}
    (hv : Holds h v xs) {i : Nat} (hi : i < xs.length) : v.get h i = .ok xs[i] := by
  obtain ⟨a, ha, hb⟩ := hv.buffer_of_pos (by have := hv.1; have := hv.2.1; omega)
  obtain ⟨hsz, hle, hfcap, hs⟩ := hv
  have h1 : i < v.size_ := by omega
  have h2 : i < v.data_.capacity_ := by omega
  simp only [Vector.get, Vector.index, RawMemory.index, h1, h2, if_true, ok_bind, ha]
  apply Heap.load_eq hb
  rw [List.getElem?_append_left (by simpa using hi)]
  simp [List.getElem?_eq_getElem hi]

theorem Holds.begin [ValueType T] {h : Heap T} {v : Vector} {xs : List T}
    (_hv : Holds h v xs) : v.begin = .ok ⟨v.data_.buffer_, 0⟩ := by
  simp [Vector.begin, RawMemory.plus]

theorem Holds.load [ValueType T] {h : Heap T} {v : Vector} {xs : List T}
    (hv : Holds h v xs) {i : Nat} (hi : i < xs.length) :
    h.load ⟨v.data_.buffer_, i⟩ = .ok xs[i] := by
  have := hv.get hi
  have h1 : i < v.size_ := by have := hv.1; omega
  have h2 : i < v.data_.capacity_ := by have := hv.2.1; omega
  simpa only [Vector.get, Vector.index, RawMemory.index, h1, h2, if_true, ok_bind] using this

theorem Holds.empty [ValueType T] (h : Heap T) : Holds h Vector.empty ([] : List T) := by
  refine ⟨rfl, le_refl _, ?_, ?_⟩
  · simp [Fits, Vector.empty]
  · simp [Vector.storage, Vector.empty]

theorem clog_step (n c : Nat) (hc : c = if n = 0 then 0 else 2 ^ Nat.clog 2 n) :
    (if n < c then c else max 1 (2 * c)) = 2 ^ Nat.clog 2 (n + 1) := by
  by_cases hn : n = 0
  · subst hn
    simp at hc
    subst hc
    simp [Nat.clog_one_right]
  · rw [if_neg hn] at hc
    have hle : n ≤ c := hc ▸ Nat.le_pow_clog (by decide) n
    by_cases hlt : n < c
    · rw [if_pos hlt, hc]
      congr 1
      apply le_antisymm
      · exact Nat.clog_mono_right 2 (Nat.le_succ n)
      · exact (Nat.le_pow_iff_clog_le (by decide)).mp (hc ▸ hlt)
    · rw [if_neg hlt]
      have heq : n = c := le_antisymm hle (not_lt.mp hlt)
      have hpos : 0 < c := by omega
      have : max 1 (2 * c) = 2 ^ (Nat.clog 2 n + 1) := by
        rw [pow_succ, ← hc]; omega
      rw [this]
      congr 1
      apply le_antisymm
      · exact (Nat.pow_lt_iff_lt_clog (by decide)).mp (by rw [← hc]; omega)
      · exact (Nat.le_pow_iff_clog_le (by decide)).mp (by rw [pow_succ, ← hc]; omega)

theorem PushBackAll_spec [ValueType T] (ys : List T) :
    ∀ (h : Heap T) (v : Vector) (xs : List T), Holds h v xs →
      v.data_.capacity_ = (if xs.length = 0 then 0 else 2 ^ Nat.clog 2 xs.length) →
      Fits T (2 ^ Nat.clog 2 (xs.length + ys.length)) →
      ∃ h' v', v.PushBackAll h ys = .ok (h', v') ∧ Holds h' v' (xs ++ ys) ∧
        v'.data_.capacity_ = (if xs.length + ys.length = 0 then 0
                              else 2 ^ Nat.clog 2 (xs.length + ys.length)) := by
  induction ys with
  | nil =>
    intro h v xs hv hc _
    exact ⟨h, v, rfl, by simpa using hv, by simpa using hc⟩
  | cons y ys ih =>
    intro h v xs hv hc hf
    have hsz := hv.1
    have hstep := clog_step xs.length v.data_.capacity_ hc
    have hfit : v.size_ = v.data_.capacity_ → Fits T (2 * v.size_) := by
      intro heq
      apply hf.of_le
      have h1 : max 1 (2 * v.data_.capacity_) = 2 ^ Nat.clog 2 (xs.length + 1) := by
        rw [← hstep, if_neg (by omega)]
      have h2 : 2 ^ Nat.clog 2 (xs.length + 1)
          ≤ 2 ^ Nat.clog 2 (xs.length + (y :: ys).length) :=
        Nat.pow_le_pow_right (by decide) (Nat.clog_mono_right 2 (by simp))
      have h3 : 2 * v.size_ ≤ max 1 (2 * v.data_.capacity_) := by omega
      omega
    obtain ⟨h1, v1, he, hh, hs1, hc1⟩ := PushBack_spec h v xs y hv hfit
    rw [← hsz] at hstep
    rw [hstep] at hc1
    obtain ⟨h2, v2, he2, hh2, hc2⟩ := ih h1 v1 (xs ++ [y]) hh
      (by simp only [List.length_append, List.length_singleton]
          rw [if_neg (by omega), hc1, hsz])
      (by simpa [Nat.add_assoc, Nat.add_comm 1] using hf)
    refine ⟨h2, v2, ?_, by simpa using hh2, ?_⟩
    · simp only [Vector.PushBackAll, he, he2]
    · simpa [Nat.add_assoc, Nat.add_comm 1] using hc2

theorem PushBackMove_eq [ValueType T] (h : Heap T) (v : Vector) (x : T) :
    v.PushBackMove h x = v.PushBack h x := rfl

/-- What one `PushBack` does to an array holding `xs`: it returns, the size grows by
one, the array holds `xs ++ [x]`, every old index reads as before and the old size
reads `x`. -/
theorem PushBack_effect [ValueType T] (h : Heap T) (v : Vector) (xs : List T) (x : T)
    (hv : Holds h v xs) (hfit : v.Size = v.Capacity → Fits T (2 * v.Size)) :
    ∃ h' v', v.PushBack h x = .ok (h', v') ∧ v'.Size = v.Size + 1 ∧
      Holds h' v' (xs ++ [x]) ∧ (∀ i, i < v.Size → v'.get h' i = v.get h i) ∧
      v'.get h' v.Size = .ok x := by
  obtain ⟨h', v', he, hh, hs, _⟩ := PushBack_spec h v xs x hv hfit
  refine ⟨h', v', he, hs, hh, ?_, ?_⟩
  · intro i hi
    have hi' : i < xs.length := by rw [← hv.1]; exact hi
    rw [hv.get hi', hh.get (i := i) (by simp; omega)]
    simp [List.getElem_append_left, hi']
  · have : v.Size = xs.length := hv.1
    rw [this, hh.get (i := xs.length) (by simp)]
    simp

/-- C1: `PushBack(x)`, in the copy and in the move overload, on an array that holds
`xs` (so `Size() <= Capacity()`), whether or not it has to grow, returns with
`Size()` one larger, every index below the old size reading what it read before and
the old size reading `x`; and `n` consecutive `PushBack` calls on a default-constructed
array leave an array of size `n` whose elements are the pushed values in push order. -/
theorem PushBack_appends [ValueType T] (h : Heap T) (v : Vector) (xs : List T) (x : T)
    (hv : Holds h v xs) (hfit : v.Size = v.Capacity → Fits T (2 * v.Size)) :
    (∃ h' v', v.PushBack h x = .ok (h', v') ∧ v'.Size = v.Size + 1 ∧
      Holds h' v' (xs ++ [x]) ∧ (∀ i, i < v.Size → v'.get h' i = v.get h i) ∧
      v'.get h' v.Size = .ok x) ∧
    (∃ h' v', v.PushBackMove h x = .ok (h', v') ∧ v'.Size = v.Size + 1 ∧
      Holds h' v' (xs ++ [x]) ∧ (∀ i, i < v.Size → v'.get h' i = v.get h i) ∧
      v'.get h' v.Size = .ok x) ∧
    (∀ ys : List T, Fits T (2 ^ Nat.clog 2 ys.length) →
      ∃ h' v', Vector.empty.PushBackAll h ys = .ok (h', v') ∧ v'.Size = ys.length ∧
        Holds h' v' ys ∧ ∀ i (hi : i < ys.length), v'.get h' i = .ok ys[i]) := by
  refine ⟨PushBack_effect h v xs x hv hfit, ?_, ?_⟩
  · simpa only [PushBackMove_eq] using PushBack_effect h v xs x hv hfit
  · intro ys hf
    obtain ⟨h', v', he, hh, _⟩ := PushBackAll_spec ys h Vector.empty [] (Holds.empty h)
      (by simp [Vector.empty]) (by simpa using hf)
    simp only [List.nil_append] at hh
    exact ⟨h', v', he, hh.1, hh, fun i hi => hh.get hi⟩

/-- Witness for `PushBack_appends`: the array `[1, 2, 4]` of capacity 4. -/
theorem PushBack_appends_witness :
    Holds sampleHeap sampleVector [1, 2, 4] ∧
    (∃ h' v', sampleVector.PushBack sampleHeap 3 = .ok (h', v') ∧
      v'.Size = sampleVector.Size + 1 ∧ Holds h' v' ([1, 2, 4] ++ [3]) ∧
      (∀ i, i < sampleVector.Size → v'.get h' i = sampleVector.get sampleHeap i) ∧
      v'.get h' sampleVector.Size = .ok 3) :=
  ⟨by decide, (PushBack_appends sampleHeap sampleVector [1, 2, 4] 3 (by decide)
    (by decide)).1⟩

theorem Ptr.add_zero_off (b : Option Nat) (i : Nat) : (Ptr.mk b 0).add i = ⟨b, i⟩ := by
  simp [Ptr.add]

theorem getElem_insert_mid (xs : List T) (x : T) {i : Nat} (hi : i ≤ xs.length) :
    (xs.take i ++ x :: xs.drop i)[i]? = some x := by
  have : (xs.take i).length = i := by simp; omega
  conv_lhs => rw [← this]
  rw [this]
  rw [List.getElem?_append_right (by omega)]
  simp [this]

/-- What one `Emplace` at offset `i` does to an array holding `xs`. -/
theorem Emplace_effect [ValueType T] (h : Heap T) (v : Vector) (xs : List T) (i : Nat)
    (x : T) (hv : Holds h v xs) (hi : i ≤ xs.length)
    (hfit : v.Size = v.Capacity → Fits T (2 * v.Size)) :
    ∃ b, v.begin = .ok b ∧
      ∃ h' v' b', v.Emplace h (b.add i) x = .ok (h', v', b'.add i) ∧
        v'.begin = .ok b' ∧ v'.Size = xs.length + 1 ∧
        Holds h' v' (xs.take i ++ x :: xs.drop i) ∧
        h'.load (b'.add i) = .ok x ∧ v'.get h' i = .ok x := by
  obtain ⟨h', v', he, hh, hs, _⟩ := Emplace_spec h v xs i x hv hi hfit
  have hlen : i < (xs.take i ++ x :: xs.drop i).length := by simp; omega
  have hx : (xs.take i ++ x :: xs.drop i)[i] = x := by
    have := getElem_insert_mid xs x hi
    rw [List.getElem?_eq_getElem hlen] at this
    exact Option.some.inj this
  refine ⟨⟨v.data_.buffer_, 0⟩, hv.begin, h', v', ⟨v'.data_.buffer_, 0⟩, ?_, hh.begin, ?_, hh,
    ?_, ?_⟩
  · simpa only [Ptr.add_zero_off] using he
  · rw [Vector.Size, hs, hv.1]
  · rw [Ptr.add_zero_off, hh.load hlen, hx]
  · rw [hh.get hlen, hx]

/-- C2: on an array holding `xs = e_0 .. e_{n-1}` (so `Size() <= Capacity()`), for
every `i <= n` and every `x`, `Insert(begin() + i, x)` in both overloads, and
`Emplace`, return with the array holding `e_0 .. e_{i-1}, x, e_i .. e_{n-1}` and
`Size() == n + 1`, in place, after growth and at the end alike; the iterator returned
is `begin() + i` of the resulting array and the element it points to is `x`. -/
theorem Insert_places [ValueType T] (h : Heap T) (v : Vector) (xs : List T) (i : Nat)
    (x : T) (hv : Holds h v xs) (hi : i ≤ xs.length)
    (hfit : v.Size = v.Capacity → Fits T (2 * v.Size)) :
    ∃ b, v.begin = .ok b ∧
      (∃ h' v' b', v.Insert h (b.add i) x = .ok (h', v', b'.add i) ∧
        v'.begin = .ok b' ∧ v'.Size = xs.length + 1 ∧
        Holds h' v' (xs.take i ++ x :: xs.drop i) ∧
        h'.load (b'.add i) = .ok x ∧ v'.get h' i = .ok x) ∧
      (∃ h' v' b', v.InsertMove h (b.add i) x = .ok (h', v', b'.add i) ∧
        v'.begin = .ok b' ∧ v'.Size = xs.length + 1 ∧
        Holds h' v' (xs.take i ++ x :: xs.drop i) ∧
        h'.load (b'.add i) = .ok x ∧ v'.get h' i = .ok x) ∧
      (∃ h' v' b', v.Emplace h (b.add i) x = .ok (h', v', b'.add i) ∧
        v'.begin = .ok b' ∧ v'.Size = xs.length + 1 ∧
        Holds h' v' (xs.take i ++ x :: xs.drop i) ∧
        h'.load (b'.add i) = .ok x ∧ v'.get h' i = .ok x) := by
  obtain ⟨b, hb, hpost⟩ := Emplace_effect h v xs i x hv hi hfit
  exact ⟨b, hb, hpost, hpost, hpost⟩

/-- Witness for `Insert_places`: inserting 3 at index 2 of `[1, 2, 4]`. -/
theorem Insert_places_witness :
    Holds sampleHeap sampleVector [1, 2, 4] ∧
    ∃ b, sampleVector.begin = .ok b ∧
      (∃ h' v' b', sampleVector.Insert sampleHeap (b.add 2) 3 = .ok (h', v', b'.add 2) ∧
        v'.begin = .ok b' ∧ v'.Size = [1, 2, 4].length + 1 ∧
        Holds h' v' ([1, 2, 4].take 2 ++ 3 :: [1, 2, 4].drop 2) ∧
        h'.load (b'.add 2) = .ok 3 ∧ v'.get h' 2 = .ok 3) :=
  ⟨by decide, by
    obtain ⟨b, hb, hpost, _⟩ :=
      Insert_places sampleHeap sampleVector [1, 2, 4] 2 3 (by decide) (by decide) (by decide)
    exact ⟨b, hb, hpost⟩⟩

/-- C3: on an array holding `xs = e_0 .. e_{n-1}` with `n >= 1`, for every `i < n`,
`Erase(begin() + i)` returns with the array holding `e_0 .. e_{i-1}, e_{i+1} ..
e_{n-1}`, `Size() == n - 1`, the capacity it had, and the iterator `begin() + i`. -/
theorem Erase_removes [ValueType T] (h : Heap T) (v : Vector) (xs : List T) (i : Nat)
    (hv : Holds h v xs) (hi : i < xs.length) :
    ∃ b, v.begin = .ok b ∧
      ∃ h' v' b', v.Erase h (b.add i) = .ok (h', v', b'.add i) ∧ v'.begin = .ok b' ∧
        Holds h' v' (xs.take i ++ xs.drop (i + 1)) ∧ v'.Size = xs.length - 1 ∧
        v'.Capacity = v.Capacity := by
  obtain ⟨h', he, hh⟩ := Erase_spec h v xs i hv hi
  refine ⟨⟨v.data_.buffer_, 0⟩, hv.begin, h', _, ⟨v.data_.buffer_, 0⟩, ?_, hh.begin, ?_, ?_,
    rfl⟩
  · simpa only [Ptr.add_zero_off] using he
  · rwa [← List.eraseIdx_eq_take_drop_succ]
  · simp only [Vector.Size, hv.1]

/-- Witness for `Erase_removes`: erasing index 1 of `[1, 2, 3]`. -/
theorem Erase_removes_witness :
    Holds fullHeap fullVector [1, 2, 3] ∧
    ∃ b, fullVector.begin = .ok b ∧
      ∃ h' v' b', fullVector.Erase fullHeap (b.add 1) = .ok (h', v', b'.add 1) ∧
        v'.begin = .ok b' ∧ Holds h' v' ([1, 2, 3].take 1 ++ [1, 2, 3].drop (1 + 1)) ∧
        v'.Size = [1, 2, 3].length - 1 ∧ v'.Capacity = fullVector.Capacity :=
  ⟨by decide, Erase_removes fullHeap fullVector [1, 2, 3] 1 (by decide) (by decide)⟩

/-- C4: on an array holding `xs` (so `Size() <= Capacity()`), for every `i <= Size()`
and every `x`, `Insert(begin() + i, x)` followed by `Erase` of the position returned
(index `i`) both return and leave an array of the original size holding `xs` again,
whether or not the insertion had to grow the storage. -/
theorem Insert_then_Erase [ValueType T] (h : Heap T) (v : Vector) (xs : List T) (i : Nat)
    (x : T) (hv : Holds h v xs) (hi : i ≤ xs.length)
    (hfit : v.Size = v.Capacity → Fits T (2 * v.Size)) :
    ∃ b, v.begin = .ok b ∧
      ∃ h1 v1 b1 h2 v2 q, v.Insert h (b.add i) x = .ok (h1, v1, b1.add i) ∧
        v1.begin = .ok b1 ∧ v1.Erase h1 (b1.add i) = .ok (h2, v2, q) ∧
        Holds h2 v2 xs ∧ v2.Size = v.Size := by
  obtain ⟨h1, v1, he, hh, hs, _⟩ := Emplace_spec h v xs i x hv hi hfit
  have hlen : i < (xs.take i ++ x :: xs.drop i).length := by simp; omega
  obtain ⟨h2, he2, hh2⟩ := Erase_spec h1 v1 _ i hh hlen
  refine ⟨⟨v.data_.buffer_, 0⟩, hv.begin, h1, v1, ⟨v1.data_.buffer_, 0⟩, h2,
    { v1 with size_ := v1.size_ - 1 }, ⟨v1.data_.buffer_, i⟩, ?_, hh.begin, ?_, ?_, ?_⟩
  · simpa only [Ptr.add_zero_off] using he
  · simpa only [Ptr.add_zero_off] using he2
  · have hl : (xs.take i).length = i := by simp; omega
    have := eraseIdx_mid (xs.take i) x (xs.drop i)
    rw [hl] at this
    rwa [this, List.take_append_drop] at hh2
  · simp only [Vector.Size, hs, Nat.add_sub_cancel]

/-- Witness for `Insert_then_Erase`: a full array `[1, 2, 3]`, so the insertion grows. -/
theorem Insert_then_Erase_witness :
    Holds fullHeap fullVector [1, 2, 3] ∧
    ∃ b, fullVector.begin = .ok b ∧
      ∃ h1 v1 b1 h2 v2 q, fullVector.Insert fullHeap (b.add 1) 9 = .ok (h1, v1, b1.add 1) ∧
        v1.begin = .ok b1 ∧ v1.Erase h1 (b1.add 1) = .ok (h2, v2, q) ∧
        Holds h2 v2 [1, 2, 3] ∧ v2.Size = fullVector.Size :=
  ⟨by decide, Insert_then_Erase fullHeap fullVector [1, 2, 3] 1 9 (by decide) (by decide)
    (by decide)⟩

/-- Move assignment hands `*this` the storage of `other` but leaves it with its own
old length: `Swap(other)` exchanges the lengths and `size_ = other.size_` then
copies the old length back. -/
theorem moveAssign_eq (v other : Vector) :
    v.moveAssign other
      = ({ data_ := other.data_, size_ := v.size_ }, { data_ := v.data_, size_ := v.size_ }) :=
  rfl

/-- C5 (the code at a failing input): move-assigning the array `[1, 2, 3]` to a
default-constructed array leaves the target with the storage of the source
(capacity 3) but with `Size() == 0`, not 3; no element is reachable through it. -/
theorem moveAssign_keeps_own_size :
    Holds fullHeap fullVector [1, 2, 3] ∧ Holds fullHeap Vector.empty ([] : List Nat) ∧
    (Vector.empty.moveAssign fullVector).1.Capacity = 3 ∧
    (Vector.empty.moveAssign fullVector).1.Size = 0 ∧
    (Vector.empty.moveAssign fullVector).1.get fullHeap 0 = .error .assertion ∧
    ¬ Holds fullHeap (Vector.empty.moveAssign fullVector).1 [1, 2, 3] :=
  ⟨by decide, by decide, by decide, by decide, rfl, by decide⟩

/-- C6 (the code at a failing input): move-assigning a default-constructed array to
the array `[1, 2, 3]` leaves the target with `Size() == 3` and `Capacity() == 0`. -/
theorem moveAssign_breaks_size_le_capacity :
    Holds fullHeap fullVector [1, 2, 3] ∧ Holds fullHeap Vector.empty ([] : List Nat) ∧
    (fullVector.moveAssign Vector.empty).1.Size = 3 ∧
    (fullVector.moveAssign Vector.empty).1.Capacity = 0 ∧
    ¬ (fullVector.moveAssign Vector.empty).1.Size
        ≤ (fullVector.moveAssign Vector.empty).1.Capacity := by
  decide

/-- C7: move-constructing `B` from any array `A` returns, leaves the heap as it was,
makes `B` what `A` was (same buffer, same capacity, same size, hence the same
elements) and leaves `A` with `Size() == 0`, `Capacity() == 0` and a null buffer. -/
theorem moveConstruct_transfers (h : Heap T) (A : Vector) :
    ∃ B A', Vector.moveConstruct h A = .ok (h, B, A') ∧ B = A ∧
      B.Size = A.Size ∧ B.Capacity = A.Capacity ∧ B.storage h = A.storage h ∧
      (∀ i, B.get h i = A.get h i) ∧
      A'.Size = 0 ∧ A'.Capacity = 0 ∧ A'.data_.buffer_ = none :=
  ⟨A, Vector.empty, rfl, rfl, rfl, rfl, rfl, fun _ => rfl, rfl, rfl, rfl⟩

/-- C10: `PushBack` (and `EmplaceBack`, which shares the growth policy) on an array
whose size equals its capacity returns with capacity `max(1, 2 * old capacity)` and on
an array with `size < capacity` returns with the capacity unchanged; hence `n >= 1`
consecutive `PushBack` calls on a default-constructed array leave the capacity
`2 ^ clog2 n`, the least power of two that is `>= n`. -/
theorem PushBack_capacity [ValueType T] (h : Heap T) (v : Vector) (xs : List T) (x : T)
    (hv : Holds h v xs) (hfit : v.Size = v.Capacity → Fits T (2 * v.Size)) :
    (∃ h' v', v.PushBack h x = .ok (h', v') ∧
      (v.Size = v.Capacity → v'.Capacity = max 1 (2 * v.Capacity)) ∧
      (v.Size < v.Capacity → v'.Capacity = v.Capacity)) ∧
    (∃ h' v' p, v.EmplaceBack h x = .ok (h', v', p) ∧
      (v.Size = v.Capacity → v'.Capacity = max 1 (2 * v.Capacity)) ∧
      (v.Size < v.Capacity → v'.Capacity = v.Capacity)) ∧
    (∀ ys : List T, 1 ≤ ys.length → Fits T (2 ^ Nat.clog 2 ys.length) →
      ∃ h' v', Vector.empty.PushBackAll h ys = .ok (h', v') ∧
        v'.Capacity = 2 ^ Nat.clog 2 ys.length ∧ ys.length ≤ v'.Capacity ∧
        ∀ k, ys.length ≤ 2 ^ k → v'.Capacity ≤ 2 ^ k) := by
  refine ⟨?_, ?_, ?_⟩
  · obtain ⟨h', v', he, _, _, hc⟩ := PushBack_spec h v xs x hv hfit
    refine ⟨h', v', he, fun heq => ?_, fun hlt => ?_⟩
    · have : ¬ v.size_ < v.data_.capacity_ := by
        have : v.size_ = v.data_.capacity_ := heq
        omega
      simpa [Vector.Capacity, RawMemory.Capacity, this] using hc
    · have : v.size_ < v.data_.capacity_ := hlt
      simpa [Vector.Capacity, RawMemory.Capacity, this] using hc
  · obtain ⟨h', v', he, _, _, hc⟩ := EmplaceBack_spec h v xs x hv hfit
    refine ⟨h', v', _, he, fun heq => ?_, fun hlt => ?_⟩
    · have : ¬ v.size_ < v.data_.capacity_ := by
        have : v.size_ = v.data_.capacity_ := heq
        omega
      simpa [Vector.Capacity, RawMemory.Capacity, this] using hc
    · have : v.size_ < v.data_.capacity_ := hlt
      simpa [Vector.Capacity, RawMemory.Capacity, this] using hc
  · intro ys hpos hf
    obtain ⟨h', v', he, _, hc⟩ := PushBackAll_spec ys h Vector.empty [] (Holds.empty h)
      (by simp [Vector.empty]) (by simpa using hf)
    have hcap : v'.Capacity = 2 ^ Nat.clog 2 ys.length := by
      simp only [List.length_nil, Nat.zero_add] at hc
      rw [if_neg (by omega)] at hc
      exact hc
    refine ⟨h', v', he, hcap, ?_, ?_⟩
    · rw [hcap]; exact Nat.le_pow_clog (by decide) _
    · intro k hk
      rw [hcap]
      exact Nat.pow_le_pow_right (by decide) ((Nat.le_pow_iff_clog_le (by decide)).mp hk)

/-- Witness for `PushBack_capacity`: five pushes on a default-constructed array leave
capacity 8. -/
theorem PushBack_capacity_witness :
    Holds sampleHeap sampleVector [1, 2, 4] ∧
    ∃ h' v', Vector.empty.PushBackAll sampleHeap [1, 2, 3, 4, 5] = .ok (h', v') ∧
      v'.Capacity = 2 ^ Nat.clog 2 [1, 2, 3, 4, 5].length ∧
      [1, 2, 3, 4, 5].length ≤ v'.Capacity ∧
      ∀ k, [1, 2, 3, 4, 5].length ≤ 2 ^ k → v'.Capacity ≤ 2 ^ k :=
  ⟨by decide, (PushBack_capacity sampleHeap sampleVector [1, 2, 4] 3 (by decide)
    (by decide)).2.2 [1, 2, 3, 4, 5] (by decide)
    (by simp [Fits, Nat.clog, ValueType.sizeofT])⟩

/-- The capacities observed after 1, 2, 3, 4 and 5 pushes on a default-constructed
array are 1, 2, 4, 4 and 8. -/
theorem PushBack_capacity_sequence :
    ([[1], [1, 2], [1, 2, 3], [1, 2, 3, 4], [1, 2, 3, 4, 5]].map fun ys =>
      (Vector.empty.PushBackAll (⟨[]⟩ : Heap Nat) ys).toOption.map fun r => r.2.Capacity)
      = [some 1, some 2, some 4, some 4, some 8] := by
  decide

theorem copyConstruct_spec [ValueType T] (h : Heap T) (A : Vector) (xs : List T)
    (hv : Holds h A xs) :
    ∃ h', Vector.copyConstruct h A
        = .ok (h', { data_ := { buffer_ := if xs.length = 0 then none else some h.blocks.length,
                                capacity_ := xs.length },
                     size_ := xs.length }) ∧
      Holds h' { data_ := { buffer_ := if xs.length = 0 then none else some h.blocks.length,
                            capacity_ := xs.length },
                 size_ := xs.length } xs ∧
      h.blocks.length ≤ h'.blocks.length ∧
      ∀ a, a < h.blocks.length → h'.block a = h.block a := by
  have hfn : Fits T xs.length := hv.2.2.1.of_le (hv.1 ▸ hv.2.1)
  by_cases hn : xs.length = 0
  · have hx : xs = [] := List.length_eq_zero.mp hn
    subst hx
    refine ⟨h, ?_, ?_, le_refl _, fun _ _ => rfl⟩
    · simp [Vector.copyConstruct, RawMemory.create, Allocate, hv.1, uninitialized_copy_n,
        pure_eq_ok, ok_bind, RawMemory.GetAddress]
    · simpa using Holds.empty h
  · obtain ⟨a, ha, hb⟩ := hv.buffer_of_pos (by have := hv.1; have := hv.2.1; omega)
    obtain ⟨hsz, hle, hfcap, hs⟩ := hv
    have halt := Heap.block_lt hb
    have hne : a ≠ h.blocks.length := by omega
    simp only [Vector.copyConstruct, RawMemory.create, hsz, Allocate_fits h hn hfn,
      RawMemory.GetAddress, ha, pure_eq_ok, if_neg hn]
    have e1 := uninitialized_copy_n_spec xs
      (⟨h.blocks ++ [some (List.replicate xs.length none)]⟩ : Heap T) a h.blocks.length []
      (List.replicate (A.data_.capacity_ - xs.length) none) []
      (List.replicate xs.length none) [] hne
      (by rw [Heap.block_append_old _ _ halt]; simpa using hb)
      (by rw [Heap.block_append_new]; simp) (by simp)
    simp only [List.length_nil, List.nil_append, List.append_nil] at e1
    rw [e1]
    simp only [ok_bind]
    refine ⟨_, rfl, ?_, ?_, ?_⟩
    · refine ⟨rfl, le_refl _, hfn, ?_⟩
      simp only [Vector.storage]
      rw [Heap.block_setBlock_same _ _ (by simp)]
      simp
    · simp [Heap.setBlock]
    · intro c hc
      rw [Heap.block_setBlock_ne _ _ (by omega), Heap.block_append_old _ _ hc]

theorem Sat_ok {α : Type} (a : α) (P : α → Prop) : Sat (Except.ok a) P ↔ P a := by
  simp [Sat]

theorem Sat_pure {α : Type} (a : α) (P : α → Prop) : Sat (pure a) P ↔ P a := by
  simp [Sat, pure, Except.pure]

theorem Sat_error {α : Type} (e : Fault) (P : α → Prop) : Sat (Except.error e) P ↔ True := by
  simp [Sat]

theorem Sat_bind {α β : Type} (m : Except Fault α) (f : α → Except Fault β) (P : β → Prop) :
    Sat (m >>= f) P ↔ Sat m (fun a => Sat (f a) P) := by
  cases m with
  | error e => simp [Sat, bind, Except.bind]
  | ok a => simp [Sat, bind, Except.bind]

theorem Sat_ite {α : Type} (c : Prop) [Decidable c] (m1 m2 : Except Fault α) (P : α → Prop) :
    Sat (if c then m1 else m2) P ↔ (c → Sat m1 P) ∧ (¬ c → Sat m2 P) := by
  by_cases hc : c <;> simp [hc]

theorem Sat.mono {α : Type} {m : Except Fault α} {P Q : α → Prop} (h : Sat m P)
    (hpq : ∀ a, P a → Q a) : Sat m Q :=
  fun a ha => hpq a (h a ha)

theorem Frame.setBlock {b : Option Nat} {n : Nat} {h0 h : Heap T} (hf : Frame b n h0 h)
    {a : Nat} (ha : Allowed b n (some a)) (x : Option (Block T)) :
    Frame b n h0 (h.setBlock a x) := by
  refine ⟨by rw [Heap.length_setBlock]; exact hf.1, fun c hc hb => ?_⟩
  have hne : a ≠ c := by
    rintro rfl
    exact hb (ha a rfl hc)
  rw [Heap.block_setBlock_ne _ _ hne]
  exact hf.2 c hc hb

theorem Allowed.add {b : Option Nat} {n : Nat} {p : Ptr} (hp : Allowed b n p.base) (k : Nat) :
    Allowed b n (p.add k).base := hp

theorem setSlot_frame {b : Option Nat} {n : Nat} {h0 h : Heap T} (hf : Frame b n h0 h)
    {p : Ptr} (hp : Allowed b n p.base) (s : Option T) :
    Sat (h.setSlot p s) (fun h' => Frame b n h0 h') := by
  intro h' he
  unfold Heap.setSlot at he
  split at he
  · cases he
  · rename_i a ha
    split at he
    · cases he
    · split at he
      · cases he
        exact hf.setBlock (ha ▸ hp) _
      · cases he

theorem construct_at_frame {b : Option Nat} {n : Nat} {h0 h : Heap T} (hf : Frame b n h0 h)
    {p : Ptr} (hp : Allowed b n p.base) (x : T) :
    Sat (construct_at h p x) (fun h' => Frame b n h0 h') :=
  setSlot_frame hf hp _

theorem destroy_at_frame {b : Option Nat} {n : Nat} {h0 h : Heap T} (hf : Frame b n h0 h)
    {p : Ptr} (hp : Allowed b n p.base) :
    Sat (destroy_at h p) (fun h' => Frame b n h0 h') := by
  unfold destroy_at
  split
  · exact setSlot_frame hf hp _
  · exact (Sat_error _ _).mpr trivial

theorem assign_frame {b : Option Nat} {n : Nat} {h0 h : Heap T} (hf : Frame b n h0 h)
    {p : Ptr} (hp : Allowed b n p.base) (x : T) :
    Sat (assign h p x) (fun h' => Frame b n h0 h') := by
  unfold assign
  split
  · exact setSlot_frame hf hp _
  · exact (Sat_error _ _).mpr trivial

theorem copy_construct_frame {b : Option Nat} {n : Nat} {h0 h : Heap T}
    (hf : Frame b n h0 h) {dst : Ptr} (hd : Allowed b n dst.base) (src : Ptr) :
    Sat (copy_construct h dst src) (fun h' => Frame b n h0 h') := by
  unfold copy_construct
  split
  · exact (Sat_error _ _).mpr trivial
  · exact setSlot_frame hf hd _

theorem move_construct_frame [ValueType T] {b : Option Nat} {n : Nat} {h0 h : Heap T}
    (hf : Frame b n h0 h) {dst src : Ptr} (hd : Allowed b n dst.base)
    (hs : Allowed b n src.base) :
    Sat (move_construct h dst src) (fun h' => Frame b n h0 h') := by
  unfold move_construct
  split
  · exact (Sat_error _ _).mpr trivial
  · split
    · exact (Sat_error _ _).mpr trivial
    · rename_i h1 he
      exact setSlot_frame (setSlot_frame hf hd _ _ he) hs _

theorem move_assign_frame [ValueType T] {b : Option Nat} {n : Nat} {h0 h : Heap T}
    (hf : Frame b n h0 h) {dst src : Ptr} (hd : Allowed b n dst.base)
    (hs : Allowed b n src.base) :
    Sat (move_assign h dst src) (fun h' => Frame b n h0 h') := by
  unfold move_assign
  split
  · exact (Sat_error _ _).mpr trivial
  · split
    · exact (Sat_error _ _).mpr trivial
    · split
      · exact (Sat_error _ _).mpr trivial
      · rename_i h1 he
        exact setSlot_frame (setSlot_frame hf hd _ _ he) hs _

theorem uninitialized_copy_n_frame {b : Option Nat} {n : Nat} {h0 : Heap T} (k : Nat) :
    ∀ (h : Heap T) (src dst : Ptr), Frame b n h0 h → Allowed b n dst.base →
      Sat (uninitialized_copy_n h src k dst) (fun h' => Frame b n h0 h') := by
  induction k with
  | zero => intro h src dst hf _; exact (Sat_ok _ _).mpr hf
  | succ k ih =>
    intro h src dst hf hd
    unfold uninitialized_copy_n
    split
    · exact (Sat_error _ _).mpr trivial
    · rename_i h1 he
      exact ih h1 _ _ (copy_construct_frame hf hd src _ he) hd

theorem uninitialized_move_n_frame [ValueType T] {b : Option Nat} {n : Nat} {h0 : Heap T}
    (k : Nat) :
    ∀ (h : Heap T) (src dst : Ptr), Frame b n h0 h → Allowed b n dst.base →
      Allowed b n src.base →
      Sat (uninitialized_move_n h src k dst) (fun h' => Frame b n h0 h') := by
  induction k with
  | zero => intro h src dst hf _ _; exact (Sat_ok _ _).mpr hf
  | succ k ih =>
    intro h src dst hf hd hs
    unfold uninitialized_move_n
    split
    · exact (Sat_error _ _).mpr trivial
    · rename_i h1 he
      exact ih h1 _ _ (move_construct_frame hf hd hs _ he) hd hs

theorem copy_n_frame {b : Option Nat} {n : Nat} {h0 : Heap T} (k : Nat) :
    ∀ (h : Heap T) (src dst : Ptr), Frame b n h0 h → Allowed b n dst.base →
      Sat (copy_n h src k dst) (fun h' => Frame b n h0 h') := by
  induction k with
  | zero => intro h src dst hf _; exact (Sat_ok _ _).mpr hf
  | succ k ih =>
    intro h src dst hf hd
    unfold copy_n
    split
    · exact (Sat_error _ _).mpr trivial
    · split
      · exact (Sat_error _ _).mpr trivial
      · rename_i h1 he
        exact ih h1 _ _ (assign_frame hf hd _ _ he) hd

theorem move_n_frame [ValueType T] {b : Option Nat} {n : Nat} {h0 : Heap T} (k : Nat) :
    ∀ (h : Heap T) (first d_first : Ptr), Frame b n h0 h → Allowed b n d_first.base →
      Allowed b n first.base →
      Sat (move_n h first k d_first) (fun h' => Frame b n h0 h') := by
  induction k with
  | zero => intro h src dst hf _ _; exact (Sat_ok _ _).mpr hf
  | succ k ih =>
    intro h src dst hf hd hs
    unfold move_n
    split
    · exact (Sat_error _ _).mpr trivial
    · rename_i h1 he
      exact ih h1 _ _ (move_assign_frame hf hd hs _ he) hd hs

theorem Ptr.sub_base {p q : Ptr} {k : Nat} (he : p.sub k = .ok q) : q.base = p.base := by
  unfold Ptr.sub at he
  split at he
  · cases he; rfl
  · cases he

theorem move_backward_n_frame [ValueType T] {b : Option Nat} {n : Nat} {h0 : Heap T}
    (k : Nat) :
    ∀ (h : Heap T) (last d_last : Ptr), Frame b n h0 h → Allowed b n d_last.base →
      Allowed b n last.base →
      Sat (move_backward_n h last k d_last) (fun h' => Frame b n h0 h') := by
  induction k with
  | zero => intro h src dst hf _ _; exact (Sat_ok _ _).mpr hf
  | succ k ih =>
    intro h last d_last hf hd hs
    unfold move_backward_n
    split
    · exact (Sat_error _ _).mpr trivial
    · rename_i last1 hl
      split
      · exact (Sat_error _ _).mpr trivial
      · rename_i d_last1 hdl
        have hs1 : Allowed b n last1.base := (Ptr.sub_base hl) ▸ hs
        have hd1 : Allowed b n d_last1.base := (Ptr.sub_base hdl) ▸ hd
        split
        · exact (Sat_error _ _).mpr trivial
        · rename_i h1 he
          exact ih h1 _ _ (move_assign_frame hf hd1 hs1 _ he) hd1 hs1

theorem destroy_n_frame {b : Option Nat} {n : Nat} {h0 : Heap T} (k : Nat) :
    ∀ (h : Heap T) (p : Ptr), Frame b n h0 h → Allowed b n p.base →
      Sat (destroy_n h p k) (fun h' => Frame b n h0 h') := by
  induction k with
  | zero => intro h p hf _; exact (Sat_ok _ _).mpr hf
  | succ k ih =>
    intro h p hf hp
    unfold destroy_n
    split
    · exact (Sat_error _ _).mpr trivial
    · rename_i h1 he
      exact ih h1 _ (destroy_at_frame hf hp _ he) hp

theorem uninitialized_value_construct_n_frame [ValueType T] {b : Option Nat} {n : Nat}
    {h0 : Heap T} (k : Nat) :
    ∀ (h : Heap T) (p : Ptr), Frame b n h0 h → Allowed b n p.base →
      Sat (uninitialized_value_construct_n h p k) (fun h' => Frame b n h0 h') := by
  induction k with
  | zero => intro h p hf _; exact (Sat_ok _ _).mpr hf
  | succ k ih =>
    intro h p hf hp
    unfold uninitialized_value_construct_n
    split
    · exact (Sat_error _ _).mpr trivial
    · rename_i h1 he
      exact ih h1 _ (construct_at_frame hf hp _ _ he) hp

theorem std_move_frame [ValueType T] {b : Option Nat} {n : Nat} {h0 h : Heap T}
    (hf : Frame b n h0 h) {first last d_first : Ptr} (hd : Allowed b n d_first.base)
    (hs : Allowed b n first.base) :
    Sat (std_move h first last d_first) (fun h' => Frame b n h0 h') := by
  unfold std_move
  split
  · exact (Sat_error _ _).mpr trivial
  · exact move_n_frame _ h _ _ hf hd hs

theorem std_move_backward_frame [ValueType T] {b : Option Nat} {n : Nat} {h0 h : Heap T}
    (hf : Frame b n h0 h) {first last d_last : Ptr} (hd : Allowed b n d_last.base)
    (hs : Allowed b n last.base) :
    Sat (std_move_backward h first last d_last) (fun h' => Frame b n h0 h') := by
  unfold std_move_backward
  split
  · exact (Sat_error _ _).mpr trivial
  · exact move_backward_n_frame _ h _ _ hf hd hs

theorem RealocateElements_frame [ValueType T] {b : Option Nat} {n : Nat} {h0 h : Heap T}
    (hf : Frame b n h0 h) (src : Ptr) (k : Nat) {dst : Ptr} (hd : Allowed b n dst.base) :
    Sat (Vector.RealocateElements h src k dst) (fun h' => Frame b n h0 h') := by
  unfold Vector.RealocateElements uninitialized_move_n_const
  split <;> exact uninitialized_copy_n_frame _ h _ _ hf hd

theorem Deallocate_frame {b : Option Nat} {n : Nat} {h0 h : Heap T}
    (hf : Frame b n h0 h) {buf : Option Nat} (hb : Allowed b n buf) :
    Sat (Deallocate h buf) (fun h' => Frame b n h0 h') := by
  unfold Deallocate
  split
  · exact (Sat_ok _ _).mpr hf
  · split
    · exact (Sat_error _ _).mpr trivial
    · exact (Sat_ok _ _).mpr (hf.setBlock hb _)

theorem Allocate_frame [ValueType T] {b : Option Nat} {n : Nat} {h0 h : Heap T}
    (hf : Frame b n h0 h) (k : Nat) :
    Frame b n h0 (Allocate h k).1 ∧ Allowed b n (Allocate h k).2 := by
  unfold Allocate
  split
  · refine ⟨⟨by simp; have := hf.1; omega, fun a ha hb => ?_⟩, fun a ha hlt => ?_⟩
    · rw [Heap.block_append_old _ _ (lt_of_lt_of_le ha hf.1)]
      exact hf.2 a ha hb
    · simp only [Option.some.injEq] at ha
      have := hf.1
      omega
  · exact ⟨hf, fun a ha => by cases ha⟩


theorem PushBack_frame [ValueType T] {b : Option Nat} {n : Nat} {h0 h : Heap T}
    (hf : Frame b n h0 h) {v : Vector} (hv : Allowed b n v.data_.buffer_) (x : T) :
    Sat (v.PushBack h x) (fun r => Frame b n h0 r.1 ∧ Allowed b n r.2.data_.buffer_) := by
  unfold Vector.PushBack
  simp only [Sat_bind, Sat_ite, Sat_ok, Sat_pure, Sat_error, RawMemory.plus, RawMemory.create,
    RawMemory.GetAddress, RawMemory.Swap, RawMemory.destroy, implies_true, and_true]
  refine ⟨fun _ _ => (construct_at_frame hf hv x).mono fun a ha => ⟨ha, hv⟩, fun _ _ => ?_⟩
  obtain ⟨hfa, hal⟩ := Allocate_frame hf (if v.size_ = 0 then 1 else wrap (2 * v.size_))
  refine (construct_at_frame hfa hal x).mono fun h1 hf1 => ?_
  refine (RealocateElements_frame hf1 _ _ hal).mono fun h2 hf2 => ?_
  refine (destroy_n_frame _ h2 _ hf2 hv).mono fun h3 hf3 => ?_
  exact (Deallocate_frame hf3 hv).mono fun h4 hf4 => ⟨hf4, hal⟩

theorem EmplaceBack_frame [ValueType T] {b : Option Nat} {n : Nat} {h0 h : Heap T}
    (hf : Frame b n h0 h) {v : Vector} (hv : Allowed b n v.data_.buffer_) (x : T) :
    Sat (v.EmplaceBack h x) (fun r => Frame b n h0 r.1 ∧ Allowed b n r.2.1.data_.buffer_) := by
  unfold Vector.EmplaceBack
  simp only [Sat_bind, Sat_ite, Sat_ok, Sat_pure, Sat_error, RawMemory.plus, RawMemory.create,
    RawMemory.GetAddress, RawMemory.Swap, RawMemory.destroy, implies_true, and_true,
    Vector.index, RawMemory.index]
  refine ⟨fun _ _ => (construct_at_frame hf hv x).mono fun a ha _ _ => ⟨ha, hv⟩,
    fun _ _ => ?_⟩
  obtain ⟨hfa, hal⟩ := Allocate_frame hf (if v.size_ = 0 then 1 else wrap (2 * v.size_))
  refine (construct_at_frame hfa hal x).mono fun h1 hf1 => ?_
  refine ⟨fun _ => ?_, fun _ => ?_⟩
  · refine (uninitialized_move_n_frame _ h1 _ _ hf1 hal hv).mono fun h2 hf2 => ?_
    refine (destroy_n_frame _ h2 _ hf2 hv).mono fun h3 hf3 => ?_
    exact (Deallocate_frame hf3 hv).mono fun h4 hf4 _ _ => ⟨hf4, hal⟩
  · refine (uninitialized_copy_n_frame _ h1 _ _ hf1 hal).mono fun h2 hf2 => ?_
    refine (destroy_n_frame _ h2 _ hf2 hv).mono fun h3 hf3 => ?_
    exact (Deallocate_frame hf3 hv).mono fun h4 hf4 _ _ => ⟨hf4, hal⟩

theorem PopBack_frame {b : Option Nat} {n : Nat} {h0 h : Heap T}
    (hf : Frame b n h0 h) {v : Vector} (hv : Allowed b n v.data_.buffer_) :
    Sat (v.PopBack h) (fun r => Frame b n h0 r.1 ∧ Allowed b n r.2.data_.buffer_) := by
  unfold Vector.PopBack
  simp only [Sat_bind, Sat_ite, Sat_ok, Sat_pure, Sat_error, RawMemory.plus, implies_true,
    and_true]
  exact fun _ => (destroy_at_frame hf hv).mono fun a ha => ⟨ha, hv⟩

theorem set_frame {b : Option Nat} {n : Nat} {h0 h : Heap T}
    (hf : Frame b n h0 h) {v : Vector} (hv : Allowed b n v.data_.buffer_) (i : Nat) (x : T) :
    Sat (v.set h i x) (fun h' => Frame b n h0 h') := by
  unfold Vector.set
  simp only [Sat_bind, Sat_ite, Sat_ok, Sat_pure, Sat_error, Vector.index, RawMemory.index,
    implies_true, and_true]
  exact fun _ _ => assign_frame hf hv x



theorem Reserve_frame [ValueType T] {b : Option Nat} {n : Nat} {h0 h : Heap T}
    (hf : Frame b n h0 h) {v : Vector} (hv : Allowed b n v.data_.buffer_) (c : Nat) :
    Sat (v.Reserve h c) (fun r => Frame b n h0 r.1 ∧ Allowed b n r.2.data_.buffer_) := by
  unfold Vector.Reserve
  simp only [Sat_bind, Sat_ite, Sat_ok, Sat_pure, Sat_error, RawMemory.plus, RawMemory.create,
    RawMemory.GetAddress, RawMemory.Swap, RawMemory.destroy, implies_true, and_true]
  refine ⟨fun _ => ⟨hf, hv⟩, fun _ => ?_⟩
  obtain ⟨hfa, hal⟩ := Allocate_frame hf c
  refine (RealocateElements_frame hfa _ _ hal).mono fun h2 hf2 => ?_
  refine (destroy_n_frame _ h2 _ hf2 hal).mono fun h3 hf3 => ?_
  exact (Deallocate_frame hf3 hv).mono fun h4 hf4 => ⟨hf4, hal⟩

theorem Resize_frame [ValueType T] {b : Option Nat} {n : Nat} {h0 h : Heap T}
    (hf : Frame b n h0 h) {v : Vector} (hv : Allowed b n v.data_.buffer_) (c : Nat) :
    Sat (v.Resize h c) (fun r => Frame b n h0 r.1 ∧ Allowed b n r.2.data_.buffer_) := by
  unfold Vector.Resize
  simp only [Sat_bind, Sat_ite, Sat_ok, Sat_pure, Sat_error, RawMemory.plus, implies_true,
    and_true]
  refine ⟨fun _ => ?_, fun _ _ => (destroy_n_frame _ h _ hf hv).mono fun a ha => ⟨ha, hv⟩⟩
  refine (Reserve_frame hf hv c).mono fun r hr _ => ?_
  exact (uninitialized_value_construct_n_frame _ r.1 _ hr.1 hr.2).mono fun a ha => ⟨ha, hr.2⟩

theorem Erase_frame [ValueType T] {b : Option Nat} {n : Nat} {h0 h : Heap T}
    (hf : Frame b n h0 h) {v : Vector} (hv : Allowed b n v.data_.buffer_) (pos : Ptr) :
    Sat (v.Erase h pos) (fun r => Frame b n h0 r.1 ∧ Allowed b n r.2.1.data_.buffer_) := by
  unfold Vector.Erase
  simp only [Sat_bind, Sat_ite, Sat_ok, Sat_pure, Sat_error, RawMemory.plus, implies_true,
    and_true, Vector.begin, Vector.end_, Ptr.diff, Ptr.sub, Ptr.add]
  intro _ _ _ _ _
  refine (std_move_frame hf hv hv).mono fun h1 hf1 _ _ => ?_
  exact (destroy_at_frame hf1 hv).mono fun h2 hf2 _ => ⟨hf2, hv⟩

theorem Emplace_frame [ValueType T] {b : Option Nat} {n : Nat} {h0 h : Heap T}
    (hf : Frame b n h0 h) {v : Vector} (hv : Allowed b n v.data_.buffer_) (pos : Ptr) (x : T) :
    Sat (v.Emplace h pos x) (fun r => Frame b n h0 r.1 ∧ Allowed b n r.2.1.data_.buffer_) := by
  unfold Vector.Emplace
  simp only [Sat_bind, Sat_ite, Sat_ok, Sat_pure, Sat_error, RawMemory.plus, implies_true,
    and_true, Vector.begin, Vector.end_, Ptr.diff, Ptr.sub, Ptr.add, RawMemory.create,
    RawMemory.GetAddress, RawMemory.Swap, RawMemory.destroy, Vector.index, RawMemory.index,
    true_and]
  intro _
  refine ⟨fun _ => (EmplaceBack_frame hf hv x).mono fun r hr _ _ => hr, fun _ _ _ => ⟨?_, ?_⟩⟩
  · intro _ _ _ _
    refine (uninitialized_move_n_frame _ h _ _ hf hv hv).mono fun h1 hf1 _ _ _ _ => ?_
    refine (std_move_backward_frame hf1 hv hv).mono fun h2 hf2 _ _ => ?_
    exact (assign_frame hf2 hv x).mono fun h3 hf3 _ => ⟨hf3, hv⟩
  · intro _ _
    obtain ⟨hfa, hal⟩ := Allocate_frame hf (if v.size_ = 0 then 1 else wrap (2 * v.size_))
    refine (construct_at_frame hfa hal x).mono fun h1 hf1 _ => ?_
    refine (RealocateElements_frame hf1 _ _ hal).mono fun h2 hf2 _ _ => ?_
    refine (RealocateElements_frame hf2 _ _ hal).mono fun h3 hf3 => ?_
    refine (destroy_n_frame _ h3 _ hf3 hv).mono fun h4 hf4 => ?_
    exact (Deallocate_frame hf4 hv).mono fun h5 hf5 _ => ⟨hf5, hal⟩

theorem Mutation.apply_frame [ValueType T] {b : Option Nat} {n : Nat} {h0 h : Heap T}
    (hf : Frame b n h0 h) {v : Vector} (hv : Allowed b n v.data_.buffer_) (m : Mutation T) :
    Sat (m.apply h v) (fun r => Frame b n h0 r.1 ∧ Allowed b n r.2.data_.buffer_) := by
  cases m with
  | reserve c => exact Reserve_frame hf hv c
  | resize c => exact Resize_frame hf hv c
  | pushBack x => exact PushBack_frame hf hv x
  | pushBackMove x => exact PushBack_frame hf hv x
  | emplaceBack x =>
    simp only [Mutation.apply, Sat_bind, Sat_pure]
    exact EmplaceBack_frame hf hv x
  | popBack => exact PopBack_frame hf hv
  | insert p x =>
    simp only [Mutation.apply, Sat_bind, Sat_pure]
    exact Emplace_frame hf hv p x
  | insertMove p x =>
    simp only [Mutation.apply, Sat_bind, Sat_pure]
    exact Emplace_frame hf hv p x
  | emplace p x =>
    simp only [Mutation.apply, Sat_bind, Sat_pure]
    exact Emplace_frame hf hv p x
  | erase p =>
    simp only [Mutation.apply, Sat_bind, Sat_pure]
    exact Erase_frame hf hv p
  | assignAt i x =>
    simp only [Mutation.apply, Sat_bind, Sat_pure]
    exact (set_frame hf hv i x).mono fun a ha => ⟨ha, hv⟩

theorem Mutation.applyAll_frame [ValueType T] {b : Option Nat} {n : Nat} {h0 : Heap T}
    (ms : List (Mutation T)) :
    ∀ (h : Heap T) (v : Vector), Frame b n h0 h → Allowed b n v.data_.buffer_ →
      Sat (Mutation.applyAll h v ms)
        (fun r => Frame b n h0 r.1 ∧ Allowed b n r.2.data_.buffer_) := by
  induction ms with
  | nil => intro h v hf hv; exact (Sat_ok _ _).mpr ⟨hf, hv⟩
  | cons m ms ih =>
    intro h v hf hv
    unfold Mutation.applyAll
    split
    · exact (Sat_error _ _).mpr trivial
    · rename_i h1 v1 he
      obtain ⟨hf1, hv1⟩ := Mutation.apply_frame hf hv m _ he
      exact ih h1 v1 hf1 hv1

/-- An array whose block lies below `n` and is not block `b` holds in a framed heap
what it held before. -/
theorem Holds.frame [ValueType T] {b : Option Nat} {n : Nat} {h0 h : Heap T} {A : Vector}
    {xs : List T} (hA : Holds h0 A xs) (hf : Frame b n h0 h)
    (hn : ∀ a, A.data_.buffer_ = some a → a < n ∧ b ≠ some a) : Holds h A xs := by
  obtain ⟨h1, h2, h3, h4⟩ := hA
  refine ⟨h1, h2, h3, ?_⟩
  unfold Vector.storage at h4 ⊢
  cases hb : A.data_.buffer_ with
  | none => rw [hb] at h4; exact h4
  | some a =>
    rw [hb] at h4
    simp only
    rw [hf.2 a (hn a hb).1 (hn a hb).2]
    exact h4

/-- C8: copy-constructing `B` from an array `A` holding `xs` returns with
`B.Size() == A.Size()`, `B[i] == A[i]` for every `i < A.Size()`, `B` stored in a block
that did not exist before the call and has capacity exactly `A.Size()` (no block at
all when `A` is empty); `A` holds `xs` after the copy, and still does after any
sequence of calls that modify `B`. -/
theorem copyConstruct_copies [ValueType T] (h : Heap T) (A : Vector) (xs : List T)
    (hA : Holds h A xs) :
    ∃ h' B, Vector.copyConstruct h A = .ok (h', B) ∧
      B.Size = A.Size ∧ (∀ i, i < A.Size → B.get h' i = A.get h i) ∧ Holds h' B xs ∧
      B.Capacity = A.Size ∧
      B.data_.buffer_ = (if A.Size = 0 then none else some h.blocks.length) ∧
      h.block h.blocks.length = none ∧
      Holds h' A xs ∧
      ∀ (ms : List (Mutation T)) (h'' : Heap T) (B' : Vector),
        Mutation.applyAll h' B ms = .ok (h'', B') → Holds h'' A xs := by
  obtain ⟨h', he, hB, hlen, hold⟩ := copyConstruct_spec h A xs hA
  have hsz : A.Size = xs.length := hA.1
  have hAbuf : ∀ a, A.data_.buffer_ = some a → a < h.blocks.length ∧
      (if xs.length = 0 then none else some h.blocks.length) ≠ some a := by
    intro a ha
    have h4 := hA.2.2.2
    simp only [Vector.storage, ha] at h4
    have hlt := Heap.block_lt h4
    refine ⟨hlt, ?_⟩
    split
    · simp
    · intro heq
      cases heq
      omega
  have hframe0 : Frame (if xs.length = 0 then none else some h.blocks.length)
      h.blocks.length h h' :=
    ⟨hlen, fun a ha _ => hold a ha⟩
  have hA' : Holds h' A xs := hA.frame hframe0 hAbuf
  refine ⟨h', _, he, ?_, ?_, hB, ?_, ?_, ?_, hA', ?_⟩
  · exact hsz.symm
  · intro i hi
    have hi' : i < xs.length := hsz ▸ hi
    rw [hB.get hi', hA.get hi']
  · exact hsz.symm
  · rw [hsz]
  · unfold Heap.block
    rw [List.getElem?_eq_none (le_refl _)]
  · intro ms h'' B' hrun
    have hfr : Frame (if xs.length = 0 then none else some h.blocks.length)
        h.blocks.length h' h' := ⟨hlen, fun _ _ _ => rfl⟩
    have := Mutation.applyAll_frame ms h' _ hfr (fun a ha _ => ha) _ hrun
    exact hA'.frame this.1 hAbuf

/-- Witness for `copyConstruct_copies`: copying the array `[1, 2, 4]` of capacity 4. -/
theorem copyConstruct_copies_witness :
    Holds sampleHeap sampleVector [1, 2, 4] ∧
    ∃ h' B, Vector.copyConstruct sampleHeap sampleVector = .ok (h', B) ∧
      B.Size = sampleVector.Size ∧
      (∀ i, i < sampleVector.Size → B.get h' i = sampleVector.get sampleHeap i) ∧
      Holds h' B [1, 2, 4] ∧ B.Capacity = sampleVector.Size ∧
      B.data_.buffer_ = (if sampleVector.Size = 0 then none
                         else some sampleHeap.blocks.length) ∧
      sampleHeap.block sampleHeap.blocks.length = none ∧
      Holds h' sampleVector [1, 2, 4] ∧
      ∀ (ms : List (Mutation Nat)) (h'' : Heap Nat) (B' : Vector),
        Mutation.applyAll h' B ms = .ok (h'', B') → Holds h'' sampleVector [1, 2, 4] :=
  ⟨by decide, copyConstruct_copies sampleHeap sampleVector [1, 2, 4] (by decide)⟩

theorem copy_n_add (m : Nat) :
    ∀ (h : Heap T) (src dst : Ptr) (k : Nat),
      copy_n h src (m + k) dst
        = match copy_n h src m dst with
          | .error e => .error e
          | .ok h1 => copy_n h1 (src.add m) k (dst.add m) := by
  induction m with
  | zero =>
    intro h src dst k
    simp [copy_n, Ptr.add]
  | succ m ih =>
    intro h src dst k
    have e : m + 1 + k = (m + k) + 1 := by omega
    rw [e]
    simp only [copy_n]
    cases h.load src with
    | error e => rfl
    | ok v =>
      simp only
      cases assign h dst v with
      | error e => rfl
      | ok h1 =>
        simp only
        rw [ih]
        have e1 : (src.add 1).add m = src.add (m + 1) := by simp [Ptr.add]; omega
        have e2 : (dst.add 1).add m = dst.add (m + 1) := by simp [Ptr.add]; omega
        rw [e1, e2]

theorem copy_n_raw_target (h : Heap T) (a b : Nat) (S1 S2 D1 D3 : Block T) (x : T) (k : Nat)
    (hs : h.block a = some (S1 ++ some x :: S2)) (hd : h.block b = some (D1 ++ none :: D3)) :
    copy_n h ⟨some a, S1.length⟩ (k + 1) ⟨some b, D1.length⟩ = .error .undefined := by
  simp only [copy_n]
  rw [Heap.load_mid hs rfl]
  simp only [assign, Heap.load, Heap.slot, hd, getElem?_mid]

/-- Copy assignment on the storage-reusing path with a source longer than the target:
`std::copy_n` runs over all `other.size_` elements, so that after the live prefix it
assigns to the raw slot at index `size_`. -/
theorem copyAssign_raw_target [ValueType T] (h : Heap T) (a b : Vector) (xs ys : List T)
    (ha : Holds h a xs) (hb : Holds h b ys) (hlt : xs.length < ys.length)
    (hle : ys.length ≤ a.Capacity) (hne : a.data_.buffer_ ≠ b.data_.buffer_) :
    a.copyAssign h b = .error .undefined := by
  have hac : 0 < a.data_.capacity_ := lt_of_lt_of_le (by omega) hle
  have hbc : 0 < b.data_.capacity_ := by have := hb.1; have := hb.2.1; omega
  obtain ⟨ca, hca, hba⟩ := ha.buffer_of_pos hac
  obtain ⟨cb, hcb, hbb⟩ := hb.buffer_of_pos hbc
  have hne' : cb ≠ ca := by
    rintro rfl
    exact hne (hca.trans hcb.symm)
  have hsa := ha.1
  have hsb := hb.1
  have hcapa : a.size_ ≤ a.data_.capacity_ := ha.2.1
  have hcapb : b.size_ ≤ b.data_.capacity_ := hb.2.1
  have hle' : ys.length ≤ a.data_.capacity_ := hle
  -- split the source at the length of the target
  obtain ⟨y1, y, y2, rfl, hy1⟩ := split_at_index ys xs.length hlt
  obtain ⟨k, hk⟩ : ∃ k, a.data_.capacity_ - xs.length = k + 1 :=
    ⟨a.data_.capacity_ - xs.length - 1, by omega⟩
  rw [hk, List.replicate_succ] at hba
  generalize List.replicate (b.data_.capacity_ - (y1 ++ y :: y2).length) (none : Option T) = Rb
    at hbb
  unfold Vector.copyAssign
  have hgt : ¬ b.size_ > a.Capacity := by
    simp only [Vector.Capacity, RawMemory.Capacity]; omega
  simp only [hgt, if_false, Vector.begin, RawMemory.plus, Nat.zero_le, if_true, ok_bind, hca,
    hcb]
  have hcount : b.size_ = y1.length + (y2.length + 1) := by simpa using hsb
  rw [hcount, copy_n_add]
  have e1 := copy_n_spec y1 h cb ca [] (some y :: (y2.map some ++ Rb)) []
    (none :: List.replicate k none) xs hne'
    (by simpa using hbb) (by simpa using hba) (by omega)
  simp only [List.length_nil, List.nil_append] at e1
  rw [e1]
  simp only [Ptr.add, Nat.zero_add]
  have e2 := copy_n_raw_target (h.setBlock ca (some (y1.map some ++ none :: List.replicate k none)))
    cb ca (y1.map some) (y2.map some ++ Rb) (y1.map some) (List.replicate k none) y y2.length
    (by rw [Heap.block_setBlock_ne _ _ (Ne.symm hne')]; simpa using hbb)
    (by rw [Heap.block_setBlock_same _ _ (Heap.block_lt hba)])
  simp only [List.length_map] at e2
  rw [e2]
  rfl

theorem destroy_buffer [ValueType T] {β : Type} (H : Heap T) (a : Vector) (xs : List T)
    (ha : Holds H a xs) (f : Heap T → Except Fault β) :
    ∃ H', (destroy_n H ⟨a.data_.buffer_, 0⟩ a.size_ >>= fun h4 =>
        Deallocate h4 a.data_.buffer_ >>= f) = f H' ∧
      H'.blocks.length = H.blocks.length ∧
      ∀ c, a.data_.buffer_ ≠ some c → H'.block c = H.block c := by
  cases hbuf : a.data_.buffer_ with
  | none =>
    obtain ⟨rfl, hs, _⟩ := ha.nil_of_null hbuf
    refine ⟨H, ?_, rfl, fun _ _ => rfl⟩
    simp [hs, destroy_n, Deallocate, ok_bind]
  | some ca =>
    obtain ⟨hsz, hle, hf, hs⟩ := ha
    simp only [Vector.storage, hbuf] at hs
    have e2 := destroy_n_spec xs H ca [] _ (by simpa using hs)
    simp only [List.length_nil, List.nil_append] at e2
    refine ⟨H.setBlock ca none, ?_, Heap.length_setBlock _ _ _, fun c hc => ?_⟩
    · rw [hsz, e2]
      simp only [ok_bind]
      rw [Deallocate_some (by rw [Heap.block_setBlock_same _ _ (Heap.block_lt hs)])]
      simp only [ok_bind, Heap.setBlock_setBlock]
    · rw [Heap.block_setBlock_ne _ _ (by intro h; exact hc (by rw [h]))]

theorem Holds.buffer_lt [ValueType T] {h : Heap T} {v : Vector} {xs : List T}
    (hv : Holds h v xs) {c : Nat} (hc : v.data_.buffer_ = some c) : c < h.blocks.length := by
  have h4 := hv.2.2.2
  simp only [Vector.storage, hc] at h4
  exact Heap.block_lt h4

/-- Copy assignment when the source is longer than the capacity of the target: a
temporary copy is swapped in; the target ends up holding the source's elements in a
block of capacity exactly `other.Size()`, and the source is untouched. -/
theorem copyAssign_swap_path [ValueType T] (h : Heap T) (a b : Vector) (xs ys : List T)
    (ha : Holds h a xs) (hb : Holds h b ys) (hgt : a.Capacity < ys.length) :
    ∃ h' a', a.copyAssign h b = .ok (h', a') ∧ Holds h' a' ys ∧ Holds h' b ys ∧
      a'.Capacity = ys.length := by
  obtain ⟨h1, he, hT, hlen, hold⟩ := copyConstruct_spec h b ys hb
  have hn0 : ys.length ≠ 0 := by omega
  rw [if_neg hn0] at he hT
  have hsb := hb.1
  have hgt' : b.size_ > a.Capacity := by rw [hsb]; exact hgt
  have hfr1 : Frame (none : Option Nat) h.blocks.length h h1 :=
    ⟨hlen, fun c hc _ => hold c hc⟩
  have ha1 : Holds h1 a xs :=
    ha.frame hfr1 (fun c hc => ⟨ha.buffer_lt hc, by simp⟩)
  have hb1 : Holds h1 b ys :=
    hb.frame hfr1 (fun c hc => ⟨hb.buffer_lt hc, by simp⟩)
  obtain ⟨H', hrel, hlen', hfr⟩ := destroy_buffer h1 a xs ha1
    (fun h2 => (Except.ok (h2, (⟨⟨some h.blocks.length, ys.length⟩, ys.length⟩ : Vector)) :
      Except Fault (Heap T × Vector)))
  have hneq : a.data_.buffer_ ≠ some h.blocks.length := by
    intro hc
    exact absurd (ha.buffer_lt hc) (lt_irrefl _)
  refine ⟨H', ⟨⟨some h.blocks.length, ys.length⟩, ys.length⟩, ?_, ?_, ?_, rfl⟩
  · unfold Vector.copyAssign
    simp only [hgt', if_true, he, ok_bind, Vector.Swap, RawMemory.Swap, Vector.destroy,
      RawMemory.GetAddress, RawMemory.destroy, bind_assoc, pure_eq_ok]
    exact hrel
  · obtain ⟨t1, t2, t3, t4⟩ := hT
    refine ⟨t1, t2, t3, ?_⟩
    simp only [Vector.storage] at t4 ⊢
    rw [hfr _ hneq]
    exact t4
  · obtain ⟨t1, t2, t3, t4⟩ := hb1
    refine ⟨t1, t2, t3, ?_⟩
    have hbc : 0 < b.data_.capacity_ := by have := hb.2.1; omega
    obtain ⟨cb, hcb, hbb⟩ := hb.buffer_of_pos hbc
    simp only [Vector.storage, hcb] at t4 ⊢
    have : a.data_.buffer_ ≠ some cb := by
      intro hc
      have h4 := ha.2.2.2
      simp only [Vector.storage, hc] at h4
      rw [hbb] at h4
      have h5 := congrArg List.length (Option.some.inj h4)
      simp only [List.length_append, List.length_map, List.length_replicate] at h5
      have := ha.1
      have := ha.2.1
      have := hb.2.1
      have : a.data_.capacity_ < ys.length := hgt
      omega
    rw [hfr _ this]
    exact t4

/-- Copy assignment on the storage-reusing path with a source no longer than the
target: the common prefix is assigned, the surplus tail destroyed; the target ends up
holding the source's elements in its old block, and the source is untouched. -/
theorem copyAssign_reuse_path [ValueType T] (h : Heap T) (a b : Vector) (xs ys : List T)
    (ha : Holds h a xs) (hb : Holds h b ys) (hle : ys.length ≤ xs.length)
    (hne : ∀ c, a.data_.buffer_ = some c → b.data_.buffer_ ≠ some c) :
    ∃ h', a.copyAssign h b = .ok (h', { a with size_ := ys.length }) ∧
      Holds h' { a with size_ := ys.length } ys ∧ Holds h' b ys := by
  have hsa := ha.1
  have hsb := hb.1
  have hca := ha.2.1
  have hcb := hb.2.1
  have hgt : ¬ b.size_ > a.Capacity := by
    simp only [Vector.Capacity, RawMemory.Capacity]; omega
  have hp1 : a.size_ ≤ b.data_.capacity_ ∨ ys.length < xs.length := by omega
  unfold Vector.copyAssign
  simp only [hgt, if_false, Vector.begin, RawMemory.plus, Nat.zero_le, if_true, ok_bind,
    pure_eq_ok]
  cases hbufa : a.data_.buffer_ with
  | none =>
    obtain ⟨rfl, hs0, hc0⟩ := ha.nil_of_null hbufa
    have hy : ys = [] := List.length_eq_zero.mp (by simpa using hle)
    subst hy
    simp only [List.length_nil] at hsb
    refine ⟨h, ?_, ?_, hb⟩
    · simp [hsb, hs0, copy_n, uninitialized_copy_n, ok_bind]
    · exact ⟨rfl, Nat.zero_le _, ha.2.2.1, ha.2.2.2⟩
  | some ca =>
    have hba := ha.2.2.2
    simp only [Vector.storage, hbufa] at hba
    have hlt0 := Heap.block_lt hba
    -- split the target at the length of the source
    have hxs : xs = xs.take ys.length ++ xs.drop ys.length := (List.take_append_drop _ _).symm
    have hl1 : (xs.take ys.length).length = ys.length := by simp; omega
    generalize xs.take ys.length = x1 at hxs hl1
    generalize xs.drop ys.length = x2 at hxs
    subst hxs
    generalize hRa : List.replicate (a.data_.capacity_ - (x1 ++ x2).length) (none : Option T)
      = Ra at hba
    have hba' : h.block ca = some ([] ++ x1.map some ++ (x2.map some ++ Ra)) := by
      simpa using hba
    -- the element-wise assignment of the common prefix
    have hcopy : copy_n h ⟨b.data_.buffer_, 0⟩ b.size_ ⟨some ca, 0⟩
        = .ok (h.setBlock ca (some (ys.map some ++ (x2.map some ++ Ra)))) := by
      cases hbufb : b.data_.buffer_ with
      | none =>
        obtain ⟨rfl, hs0, _⟩ := hb.nil_of_null hbufb
        have : x1 = [] := List.length_eq_zero.mp (by simpa using hl1)
        subst this
        rw [hs0]
        simp only [copy_n, List.map_nil, List.nil_append]
        rw [Heap.setBlock_self (by simpa using hba)]
      | some cb =>
        have hbb := hb.2.2.2
        simp only [Vector.storage, hbufb] at hbb
        have hcne : cb ≠ ca := by
          rintro rfl
          exact hne _ hbufa hbufb
        have := copy_n_spec ys h cb ca [] _ [] (x2.map some ++ Ra) x1 hcne
          (by simpa using hbb) hba' hl1
        simpa [hsb] using this
    rw [hcopy]
    simp only [ok_bind]
    have hblk1 : (h.setBlock ca (some (ys.map some ++ (x2.map some ++ Ra)))).block ca
        = some (ys.map some ++ x2.map some ++ Ra) := by
      rw [Heap.block_setBlock_same _ _ hlt0]; simp
    have hb' : ∀ (H : Block T), Holds (h.setBlock ca (some H)) b ys := by
      intro H
      obtain ⟨t1, t2, t3, t4⟩ := hb
      refine ⟨t1, t2, t3, ?_⟩
      unfold Vector.storage at t4 ⊢
      cases hbufb : b.data_.buffer_ with
      | none => rw [hbufb] at t4; exact t4
      | some cb =>
        rw [hbufb] at t4
        simp only
        rw [Heap.block_setBlock_ne _ _ (by
          rintro rfl
          exact hne _ hbufa hbufb)]
        exact t4
    have hcapR : Ra.length = a.data_.capacity_ - (x1 ++ x2).length := by
      subst hRa; simp
    have hsa' : a.size_ = x1.length + x2.length := by simpa using hsa
    by_cases hlt : b.size_ < a.size_
    · have hle2 : b.size_ ≤ a.data_.capacity_ := by omega
      simp only [hlt, if_true, hle2, ok_bind]
      have e2 := destroy_n_spec x2 _ ca (ys.map some) Ra hblk1
      have hcnt : a.size_ - b.size_ = x2.length := by omega
      have hoff : b.size_ = (ys.map some).length := by simp [hsb]
      rw [hcnt]
      conv in Ptr.mk (some ca) b.size_ => rw [hoff]
      rw [e2]
      simp only [ok_bind, Heap.setBlock_setBlock]
      refine ⟨_, by rw [hsb], ?_, hb' _⟩
      refine ⟨rfl, by simp only; omega, ha.2.2.1, ?_⟩
      simp only [Vector.storage, hbufa, Heap.block_setBlock_same _ _ hlt0]
      subst hRa
      rw [List.append_assoc, ← List.replicate_add]
      congr 2
      have hg : (x1 ++ x2).length = x1.length + x2.length := List.length_append _ _
      congr 1
      omega
    · have hx2 : x2 = [] := List.length_eq_zero.mp (by omega)
      subst hx2
      have hle3 : a.size_ ≤ b.data_.capacity_ := by omega
      have hcnt : b.size_ - a.size_ = 0 := by omega
      simp only [hlt, if_false, hle3, hca, if_true, ok_bind, hcnt, uninitialized_copy_n]
      refine ⟨_, by rw [hsb], ?_, hb' _⟩
      refine ⟨rfl, by simp only; omega, ha.2.2.1, ?_⟩
      simp only [Vector.storage, hbufa, Heap.block_setBlock_same _ _ hlt0]
      subst hRa
      simp [hl1]

/-- C9 (the code at a failing input): `a` is a default-constructed array after
`Reserve(2)` (size 0, capacity 2), `b` is `[7]`.  Both satisfy the data model, and
`b.Size() <= a.Capacity()`, so `a = b` takes the storage-reusing path; there
`std::copy_n(other.begin(), other.size_, begin())` copy-assigns `b[0]` to slot 0 of
`a`, which is raw storage, so the call is undefined instead of leaving `a == [7]`. -/
theorem copyAssign_assigns_to_raw_slot :
    (do let r1 ← Vector.empty.Reserve (⟨[]⟩ : Heap Nat) 2
        let r2 ← Vector.empty.PushBack r1.1 7
        pure (r2.1, r1.2, r2.2)) = .ok (reservedHeap, reservedVector, singletonVector) ∧
    Holds reservedHeap reservedVector [] ∧ Holds reservedHeap singletonVector [7] ∧
    singletonVector.Size ≤ reservedVector.Capacity ∧
    reservedHeap.slot ⟨some 0, 0⟩ = .ok none ∧
    reservedVector.copyAssign reservedHeap singletonVector = .error .undefined :=
  ⟨rfl, by decide, by decide, by decide, rfl, rfl⟩

/-- Move construction of a `RawMemory` always returns: the new object is what the
source was, the heap is untouched and the source is left null with capacity 0. -/
theorem RawMemory.moveConstruct_eq (h : Heap T) (other : RawMemory) :
    RawMemory.moveConstruct h other = .ok (h, other, { buffer_ := none, capacity_ := 0 }) :=
  rfl

/-- Move assignment of a `RawMemory` onto a target that owns a block: the target takes
over buffer and capacity of the source, the target's old block is released, and the
source is left with the released block's address and the target's old capacity. -/
theorem RawMemory.moveAssign_owning (h : Heap T) (a c : Nat) (blk : Block T)
    (other : RawMemory) (hb : h.block a = some blk) :
    RawMemory.moveAssign h { buffer_ := some a, capacity_ := c } other
      = .ok (h.setBlock a none, other, { buffer_ := some a, capacity_ := c }) := by
  simp [RawMemory.moveAssign, Deallocate, hb]

/-- C15 (the code at a failing input): the target owns block 0 (capacity 3), the
source owns block 1 (capacity 2).  After `target = std::move(source)` the target has
the source's block and capacity, but the source is not left null: it has the address
of the target's old block, which has been released, and `Capacity() == 3`; destroying
the source afterwards releases that block a second time. -/
theorem RawMemory_moveAssign_leaves_source_dangling :
    ∃ h1 : Heap Nat,
      RawMemory.moveAssign twoBlockHeap { buffer_ := some 0, capacity_ := 3 }
          { buffer_ := some 1, capacity_ := 2 }
        = .ok (h1, { buffer_ := some 1, capacity_ := 2 }, { buffer_ := some 0, capacity_ := 3 }) ∧
      h1.block 0 = none ∧
      (RawMemory.mk (some 0) 3).Capacity = 3 ∧
      RawMemory.destroy h1 { buffer_ := some 0, capacity_ := 3 } = .error .undefined :=
  ⟨_, rfl, by decide, rfl, rfl⟩

/-- C20 (the claim at a failing input): for an 8-byte element type and a requested
capacity of `2 ^ 61` the byte count handed to the allocator is `0`, not `2 ^ 64`; the
block allocated has no slot while the capacity recorded is `2 ^ 61`; and a growth
capacity `2 * size_` computed for `size_ = 2 ^ 63` is `0`. -/
theorem allocationBytes_wraps :
    ValueType.sizeofT Nat = 8 ∧ allocationBytes Nat (2 ^ 61) = 0 ∧
    2 ^ 61 * ValueType.sizeofT Nat = 2 ^ 64 ∧
    (RawMemory.create (⟨[]⟩ : Heap Nat) (2 ^ 61)).1.block 0 = some [] ∧
    (RawMemory.create (⟨[]⟩ : Heap Nat) (2 ^ 61)).2.Capacity = 2 ^ 61 ∧
    wrap (2 * 2 ^ 63) = 0 ∧
    ¬ (∀ n : Nat, n < 2 ^ 64 → allocationBytes Nat n = n * ValueType.sizeofT Nat) ∧
    ¬ (∀ size : Nat, size < 2 ^ 64 → wrap (2 * size) = 2 * size) := by
  refine ⟨rfl, by decide, by decide, by decide, by decide, by decide, ?_, ?_⟩
  · intro hall
    exact absurd (hall (2 ^ 61) (by decide)) (by decide)
  · intro hall
    exact absurd (hall (2 ^ 63) (by decide)) (by decide)

/-- C20 (amended): when the mathematical product `n * sizeof(T)` is below `2 ^ 64`,
the byte count handed to the allocator is that product, and for `n != 0` the block
`RawMemory(n)` owns has exactly `n` slots, recorded as capacity `n`; when
`2 * size_ < 2 ^ 64`, the growth capacity computed is the mathematical `2 * size_`. -/
theorem allocationBytes_exact [ValueType T] (h : Heap T) (n size : Nat)
    (hn : n * ValueType.sizeofT T < 2 ^ 64) (hs : 2 * size < 2 ^ 64) :
    allocationBytes T n = n * ValueType.sizeofT T ∧
    (n ≠ 0 → (RawMemory.create h n).2.buffer_ = some h.blocks.length ∧
      (RawMemory.create h n).1.block h.blocks.length = some (List.replicate n none)) ∧
    (RawMemory.create h n).2.Capacity = n ∧
    wrap (2 * size) = 2 * size := by
  refine ⟨Nat.mod_eq_of_lt hn, fun h0 => ?_, rfl, Nat.mod_eq_of_lt hs⟩
  unfold RawMemory.create
  rw [Allocate_fits h h0 hn]
  exact ⟨rfl, Heap.block_append_new h _⟩

/-- Witness for `allocationBytes_exact`: three 8-byte elements, growth from size 3. -/
theorem allocationBytes_exact_witness :
    3 * ValueType.sizeofT Nat < 2 ^ 64 ∧ 2 * 3 < 2 ^ 64 ∧
    allocationBytes Nat 3 = 3 * ValueType.sizeofT Nat ∧
    (3 ≠ 0 → (RawMemory.create sampleHeap 3).2.buffer_ = some sampleHeap.blocks.length ∧
      (RawMemory.create sampleHeap 3).1.block sampleHeap.blocks.length
        = some (List.replicate 3 none)) ∧
    (RawMemory.create sampleHeap 3).2.Capacity = 3 ∧
    wrap (2 * 3) = 2 * 3 :=
  ⟨by decide, by decide, allocationBytes_exact sampleHeap 3 3 (by decide) (by decide)⟩

/-- `Reserve(c)` with `c <= Capacity()` changes nothing. -/
theorem Reserve_noop [ValueType T] (h : Heap T) (v : Vector) (c : Nat)
    (hc : c ≤ v.Capacity) : v.Reserve h c = .ok (h, v) := by
  simp [Vector.Reserve, hc, pure_eq_ok]

/-- `Reserve(c)` with `c > Capacity()` on an array holding `xs`: the call returns, the
array is on a fresh block of capacity exactly `c` with its size unchanged, but every
slot of that block is raw: the relocated elements have been destroyed. -/
theorem Reserve_grow [ValueType T] (h : Heap T) (v : Vector) (xs : List T) (c : Nat)
    (hv : Holds h v xs) (hc : v.Capacity < c) (hf : Fits T c) :
    ∃ h', v.Reserve h c
        = .ok (h', { data_ := { buffer_ := some h.blocks.length, capacity_ := c },
                     size_ := v.size_ }) ∧
      h'.block h.blocks.length = some (List.replicate c none) ∧
      h'.blocks.length = h.blocks.length + 1 ∧
      (∀ a, v.data_.buffer_ = some a → h'.block a = none) ∧
      (∀ a, a < h.blocks.length → v.data_.buffer_ ≠ some a → h'.block a = h.block a) := by
  have hc0 : c ≠ 0 := by omega
  have hnc : ¬ c ≤ v.Capacity := by omega
  obtain ⟨hsz, hle, hfcap, hs⟩ := hv
  have hcap' : xs.length ≤ c := by
    have : v.data_.capacity_ < c := hc
    omega
  have hrep : List.replicate c (none : Option T)
      = List.replicate xs.length none ++ List.replicate (c - xs.length) none := by
    rw [← List.replicate_add]; congr 1; omega
  unfold Vector.Reserve
  simp only [hnc, if_false, RawMemory.create, Allocate_fits h hc0 hf, RawMemory.GetAddress,
    RawMemory.Swap, RawMemory.destroy, pure_eq_ok, hsz]
  generalize hH1 : (⟨h.blocks ++ [some (List.replicate c none)]⟩ : Heap T) = H1
  have hlen1 : H1.blocks.length = h.blocks.length + 1 := by subst hH1; simp
  have hnew : H1.block h.blocks.length
      = some ([] ++ List.replicate xs.length none ++ List.replicate (c - xs.length) none) := by
    subst hH1; rw [Heap.block_append_new, hrep]; simp
  cases hbuf : v.data_.buffer_ with
  | none =>
    have hx : xs = [] := by
      simp only [Vector.storage, hbuf] at hs
      split at hs
      · simp only [Option.some.injEq] at hs
        have := congrArg List.length hs
        simp only [List.length_nil, List.length_append, List.length_map] at this
        exact List.length_eq_zero.mp (by omega)
      · simp at hs
    subst hx
    simp only [List.length_nil, Vector.RealocateElements, uninitialized_move_n_const,
      uninitialized_copy_n, ite_self, ok_bind, destroy_n, Deallocate]
    refine ⟨H1, rfl, ?_, hlen1, fun _ ha => (by cases ha), fun a ha _ => ?_⟩
    · simpa using hnew
    · subst hH1; exact Heap.block_append_old _ _ ha
  | some a =>
    simp only [Vector.storage, hbuf] at hs
    have halt := Heap.block_lt hs
    have hne : a ≠ h.blocks.length := by omega
    have hold1 : H1.block a = some ([] ++ xs.map some ++
        List.replicate (v.data_.capacity_ - xs.length) none) := by
      subst hH1; rw [Heap.block_append_old _ _ halt]; simpa using hs
    have e1 := RealocateElements_spec xs H1 a h.blocks.length [] _ []
      (List.replicate xs.length none) (List.replicate (c - xs.length) none) hne hold1 hnew
      (by simp)
    simp only [List.length_nil, List.nil_append] at e1
    rw [e1]
    simp only [ok_bind]
    have e2 := destroy_n_spec xs (H1.setBlock h.blocks.length
      (some (xs.map some ++ List.replicate (c - xs.length) none))) h.blocks.length []
      (List.replicate (c - xs.length) none)
      (by rw [Heap.block_setBlock_same _ _ (by omega)]; simp)
    simp only [List.length_nil, List.nil_append, Heap.setBlock_setBlock] at e2
    rw [e2]
    simp only [ok_bind]
    rw [Deallocate_some (b := xs.map some ++ List.replicate (v.data_.capacity_ - xs.length) none)
      (by rw [Heap.block_setBlock_ne _ _ (Ne.symm hne)]; simpa using hold1)]
    refine ⟨_, rfl, ?_, ?_, fun a' ha' => ?_, fun a' ha' hne' => ?_⟩
    · rw [Heap.block_setBlock_ne _ _ hne, Heap.block_setBlock_same _ _ (by omega), hrep]
    · simp [Heap.length_setBlock, hlen1]
    · cases ha'
      exact Heap.block_setBlock_none _ _
    · rw [Heap.block_setBlock_ne _ _ (by intro e; exact hne' (by rw [e])),
        Heap.block_setBlock_ne _ _ (by omega)]
      subst hH1
      exact Heap.block_append_old _ _ ha'

theorem get_raw {h : Heap T} {v : Vector} {a i : Nat} {blk : Block T}
    (hbuf : v.data_.buffer_ = some a) (hb : h.block a = some blk)
    (hi : i < v.size_) (hc : i < v.data_.capacity_) (hraw : blk[i]? = some none) :
    v.get h i = .error .undefined := by
  simp [Vector.get, Vector.index, RawMemory.index, hi, hc, ok_bind, hbuf, Heap.load,
    Heap.slot, hb, hraw]

/-- After a growing `Reserve` no element of the array can be read any more. -/
theorem Reserve_grow_dead [ValueType T] (h : Heap T) (v : Vector) (xs : List T) (c : Nat)
    (hv : Holds h v xs) (hc : v.Capacity < c) (hf : Fits T c) :
    ∃ h' v', v.Reserve h c = .ok (h', v') ∧ v'.Capacity = c ∧ v'.Size = v.Size ∧
      ∀ i, i < v.Size → v'.get h' i = .error .undefined := by
  obtain ⟨h', he, hblk, _, _, _⟩ := Reserve_grow h v xs c hv hc hf
  refine ⟨h', _, he, rfl, rfl, fun i hi => ?_⟩
  have hic : i < c := by
    have : v.data_.capacity_ < c := hc
    have := hv.2.1
    have : i < v.size_ := hi
    omega
  exact get_raw rfl hblk hi hic (by simp [hic])

/-- C12 (the code at a failing input): `Reserve(5)` on the array `[1, 2, 3]` of
capacity 3 returns with capacity 5 and size 3, but all five slots of the new block
are raw, so that reading element 0 is undefined: after swapping the storages the
code runs `std::destroy_n(data_.GetAddress(), size_)` on the new block. -/
theorem Reserve_destroys_relocated_elements :
    Holds fullHeap fullVector [1, 2, 3] ∧
    ∃ h' v', fullVector.Reserve fullHeap 5 = .ok (h', v') ∧ v'.Capacity = 5 ∧ v'.Size = 3 ∧
      v'.storage h' = some [none, none, none, none, none] ∧
      v'.get h' 0 = .error .undefined ∧ fullVector.get fullHeap 0 = .ok 1 ∧
      ¬ Holds h' v' [1, 2, 3] :=
  ⟨by decide, _, _, rfl, rfl, rfl, rfl, rfl, rfl, by decide⟩

/-- `Resize(n)` with `n <= Size()`: the call returns, the array holds the first `n`
elements and keeps its capacity. -/
theorem Resize_shrink [ValueType T] (h : Heap T) (v : Vector) (xs : List T) (n : Nat)
    (hv : Holds h v xs) (hn : n ≤ v.Size) :
    ∃ h', v.Resize h n = .ok (h', { v with size_ := n }) ∧
      Holds h' { v with size_ := n } (xs.take n) := by
  have hn' : n ≤ v.size_ := hn
  have hng : ¬ n > v.size_ := by omega
  obtain ⟨hsz, hle, hfcap, hs⟩ := hv
  have hnc : n ≤ v.data_.capacity_ := by omega
  unfold Vector.Resize
  simp only [hng, if_false, RawMemory.plus, hnc, if_true, ok_bind, pure_eq_ok]
  cases hbuf : v.data_.buffer_ with
  | none =>
    have hx : xs = [] ∧ v.size_ = 0 :=
      ⟨(Holds.nil_of_null ⟨hsz, hle, hfcap, hs⟩ hbuf).1,
       (Holds.nil_of_null ⟨hsz, hle, hfcap, hs⟩ hbuf).2.1⟩
    obtain ⟨rfl, hs0⟩ := hx
    have hn0 : n = 0 := by omega
    subst hn0
    simp only [hs0, Nat.sub_self, destroy_n, ok_bind]
    refine ⟨h, rfl, rfl, Nat.zero_le _, hfcap, ?_⟩
    simpa [Vector.storage, hbuf] using hs
  | some a =>
    simp only [Vector.storage, hbuf] at hs
    have hxs : xs = xs.take n ++ xs.drop n := (List.take_append_drop n xs).symm
    have hl1 : (xs.take n).length = n := by simp; omega
    have hl2 : (xs.drop n).length = v.size_ - n := by simp; omega
    generalize xs.take n = x1 at hxs hl1 ⊢
    generalize xs.drop n = x2 at hxs hl2
    subst hxs
    generalize hR : List.replicate (v.data_.capacity_ - (x1 ++ x2).length) (none : Option T)
      = R at hs
    have e2 := destroy_n_spec x2 h a (x1.map some) R (by simpa using hs)
    simp only [List.length_map, hl1, hl2] at e2
    rw [e2]
    refine ⟨_, rfl, hl1.symm, hnc, hfcap, ?_⟩
    simp only [Vector.storage, hbuf, Heap.block_setBlock_same _ _ (Heap.block_lt hs)]
    subst hR
    rw [List.append_assoc, ← List.replicate_add]
    congr 3
    have hg : (x1 ++ x2).length = x1.length + x2.length := List.length_append _ _
    omega

/-- `Resize(n)` with `Size() < n <= Capacity()`: the call returns, the array holds its
old elements followed by `n - Size()` value-initialised ones, and keeps its capacity. -/
theorem Resize_grow_within [ValueType T] (h : Heap T) (v : Vector) (xs : List T) (n : Nat)
    (hv : Holds h v xs) (hn : v.Size < n) (hc : n ≤ v.Capacity) :
    ∃ h', v.Resize h n = .ok (h', { v with size_ := n }) ∧
      Holds h' { v with size_ := n }
        (xs ++ List.replicate (n - v.Size) (ValueType.valueInit : T)) := by
  have hn' : n > v.size_ := hn
  have hc' : n ≤ v.data_.capacity_ := hc
  obtain ⟨a, ha, hb⟩ := hv.buffer_of_pos (by omega)
  obtain ⟨hsz, hle, hfcap, hs⟩ := hv
  have hrep : List.replicate (v.data_.capacity_ - xs.length) (none : Option T)
      = List.replicate (n - v.size_) none ++ List.replicate (v.data_.capacity_ - n) none := by
    rw [← List.replicate_add]; congr 1; omega
  rw [hrep] at hb
  unfold Vector.Resize
  simp only [hn', if_true, Reserve_noop h v n hc, ok_bind, RawMemory.plus, hle, pure_eq_ok, ha]
  have e1 := uninitialized_value_construct_n_spec (List.replicate (n - v.size_) none) h a
    (xs.map some) (List.replicate (v.data_.capacity_ - n) none) (by simpa using hb)
  simp only [List.length_map, List.length_replicate, ← hsz] at e1
  rw [e1]
  refine ⟨_, rfl, ?_, hc', hfcap, ?_⟩
  · simp only [List.length_append, List.length_replicate, Vector.Size]; omega
  · simp only [Vector.storage, ha, Heap.block_setBlock_same _ _ (Heap.block_lt hb)]
    have : v.data_.capacity_ - (xs ++ List.replicate (n - v.Size)
        (ValueType.valueInit : T)).length = v.data_.capacity_ - n := by
      simp only [List.length_append, List.length_replicate, Vector.Size]; omega
    rw [this]
    simp [Vector.Size]

/-- `Resize(n)` with `n > Capacity()` on an array holding `xs`: the call returns with
size and capacity `n`; the slots `[Size(), n)` hold value-initialised elements, but
the slots `[0, Size())` are raw: the old elements are gone. -/
theorem Resize_grow_beyond [ValueType T] (h : Heap T) (v : Vector) (xs : List T) (n : Nat)
    (hv : Holds h v xs) (hc : v.Capacity < n) (hf : Fits T n) :
    ∃ h', v.Resize h n
        = .ok (h', { data_ := { buffer_ := some h.blocks.length, capacity_ := n },
                     size_ := n }) ∧
      h'.block h.blocks.length
        = some (List.replicate v.Size none
            ++ List.replicate (n - v.Size) (some (ValueType.valueInit : T))) := by
  obtain ⟨h1, he, hblk, hlen, _, _⟩ := Reserve_grow h v xs n hv hc hf
  have hle := hv.2.1
  have hc' : v.data_.capacity_ < n := hc
  have hn' : n > v.size_ := by omega
  have hsn : v.size_ ≤ n := by omega
  have hrep : List.replicate n (none : Option T)
      = List.replicate v.size_ none ++ List.replicate (n - v.size_) none ++ [] := by
    rw [List.append_nil, ← List.replicate_add]; congr 1; omega
  rw [hrep] at hblk
  unfold Vector.Resize
  simp only [hn', if_true, he, ok_bind, RawMemory.plus, hsn, pure_eq_ok]
  have e1 := uninitialized_value_construct_n_spec (List.replicate (n - v.size_) none) h1
    h.blocks.length (List.replicate v.size_ none) [] hblk
  simp only [List.length_replicate] at e1
  rw [e1]
  refine ⟨_, rfl, ?_⟩
  rw [Heap.block_setBlock_same _ _ (by omega)]
  simp [Vector.Size]

/-- C13 (the code at a failing input): `Resize(5)` on the array `[1, 2, 3]` of
capacity 3 returns with size 5 and capacity 5; indices 3 and 4 hold value-initialised
elements, but the slots of indices 0, 1, 2 are raw, so that reading element 0 is
undefined: the growing `Reserve` inside destroyed the relocated elements. -/
theorem Resize_loses_old_elements :
    Holds fullHeap fullVector [1, 2, 3] ∧
    ∃ h' v', fullVector.Resize fullHeap 5 = .ok (h', v') ∧ v'.Size = 5 ∧ v'.Capacity = 5 ∧
      v'.storage h' = some [none, none, none, some 0, some 0] ∧
      v'.get h' 3 = .ok 0 ∧ v'.get h' 4 = .ok 0 ∧
      fullVector.get fullHeap 0 = .ok 1 ∧ v'.get h' 0 = .error .undefined :=
  ⟨by decide, _, _, rfl, rfl, rfl, rfl, rfl, rfl, rfl, rfl⟩

theorem growth_ge {size cap : Nat} (hs : 2 * size < 2 ^ 64) (hge : ¬ size < cap) :
    cap ≤ (if size = 0 then 1 else wrap (2 * size)) := by
  unfold wrap
  split <;> omega

theorem PushBack_capacity_le [ValueType T] (h : Heap T) (v : Vector) (x : T)
    (hs : 2 * v.size_ < 2 ^ 64) :
    Sat (v.PushBack h x) (fun r => v.Capacity ≤ r.2.Capacity) := by
  unfold Vector.PushBack
  simp only [Sat_bind, Sat_ite, Sat_ok, Sat_pure, Sat_error, RawMemory.plus, RawMemory.create,
    RawMemory.GetAddress, RawMemory.Swap, RawMemory.destroy, implies_true, and_true,
    Vector.Capacity, RawMemory.Capacity]
  simp only [Sat]
  refine ⟨?_, ?_⟩ <;> intros
  · exact le_refl _
  · exact growth_ge hs (by assumption)

theorem EmplaceBack_capacity_le [ValueType T] (h : Heap T) (v : Vector) (x : T)
    (hs : 2 * v.size_ < 2 ^ 64) :
    Sat (v.EmplaceBack h x) (fun r => v.Capacity ≤ r.2.1.Capacity) := by
  unfold Vector.EmplaceBack
  simp only [Sat_bind, Sat_ite, Sat_ok, Sat_pure, Sat_error, RawMemory.plus, RawMemory.create,
    RawMemory.GetAddress, RawMemory.Swap, RawMemory.destroy, implies_true, and_true,
    Vector.Capacity, RawMemory.Capacity, Vector.index, RawMemory.index]
  simp only [Sat]
  refine ⟨?_, ?_⟩
  · intros; exact le_refl _
  · intro hge _ _ _
    refine ⟨?_, ?_⟩ <;> intros <;> exact growth_ge hs hge

theorem PopBack_capacity_le (h : Heap T) (v : Vector) :
    Sat (v.PopBack h) (fun r => v.Capacity ≤ r.2.Capacity) := by
  unfold Vector.PopBack
  simp only [Sat_bind, Sat_ite, Sat_ok, Sat_pure, Sat_error, RawMemory.plus, implies_true,
    and_true, Vector.Capacity, RawMemory.Capacity]
  simp only [Sat]
  intros; exact le_refl _

theorem Reserve_capacity_le [ValueType T] (h : Heap T) (v : Vector) (c : Nat) :
    Sat (v.Reserve h c) (fun r => v.Capacity ≤ r.2.Capacity ∧ c ≤ r.2.Capacity ∧
      r.2.size_ = v.size_) := by
  unfold Vector.Reserve
  simp only [Sat_bind, Sat_ite, Sat_ok, Sat_pure, Sat_error, RawMemory.plus, RawMemory.create,
    RawMemory.GetAddress, RawMemory.Swap, RawMemory.destroy, implies_true, and_true,
    Vector.Capacity, RawMemory.Capacity]
  simp only [Sat]
  refine ⟨?_, ?_⟩
  · intro hle; exact ⟨le_refl _, hle⟩
  · intro hgt _ _ _ _ _ _
    exact ⟨by omega, le_refl _⟩

theorem Resize_capacity_le [ValueType T] (h : Heap T) (v : Vector) (n : Nat) :
    Sat (v.Resize h n) (fun r => v.Capacity ≤ r.2.Capacity) := by
  unfold Vector.Resize
  simp only [Sat_bind, Sat_ite, Sat_ok, Sat_pure, Sat_error, RawMemory.plus, implies_true,
    and_true]
  refine ⟨fun _ => ?_, ?_⟩
  · refine (Reserve_capacity_le h v n).mono fun r hr => ?_
    simp only [Sat, Vector.Capacity, RawMemory.Capacity] at hr ⊢
    intros; exact hr.1
  · simp only [Sat, Vector.Capacity, RawMemory.Capacity]
    intros; exact le_refl _

theorem Erase_capacity_le [ValueType T] (h : Heap T) (v : Vector) (pos : Ptr) :
    Sat (v.Erase h pos) (fun r => v.Capacity ≤ r.2.1.Capacity) := by
  unfold Vector.Erase
  simp only [Sat_bind, Sat_ite, Sat_ok, Sat_pure, Sat_error, RawMemory.plus, implies_true,
    and_true, Vector.begin, Vector.end_, Ptr.diff, Ptr.sub, Ptr.add, Vector.Capacity,
    RawMemory.Capacity]
  simp only [Sat]
  intros; exact le_refl _

theorem Emplace_capacity_le [ValueType T] (h : Heap T) (v : Vector) (pos : Ptr) (x : T)
    (hs : 2 * v.size_ < 2 ^ 64) :
    Sat (v.Emplace h pos x) (fun r => v.Capacity ≤ r.2.1.Capacity) := by
  unfold Vector.Emplace
  simp only [Sat_bind, Sat_ite, Sat_ok, Sat_pure, Sat_error, RawMemory.plus, implies_true,
    and_true, Vector.begin, Vector.end_, Ptr.diff, Ptr.sub, Ptr.add, RawMemory.create,
    RawMemory.GetAddress, RawMemory.Swap, RawMemory.destroy, Vector.index, RawMemory.index,
    true_and]
  intro _
  refine ⟨fun _ => (EmplaceBack_capacity_le h v x hs).mono fun r hr _ _ => hr,
    fun _ _ _ => ⟨?_, ?_⟩⟩
  · simp only [Sat, Vector.Capacity, RawMemory.Capacity]
    intros; exact le_refl _
  · simp only [Sat, Vector.Capacity, RawMemory.Capacity]
    intro hge
    intros
    exact growth_ge hs hge

theorem Mutation.apply_capacity_le [ValueType T] (h : Heap T) (v : Vector)
    (hs : 2 * v.size_ < 2 ^ 64) (m : Mutation T) :
    Sat (m.apply h v) (fun r => v.Capacity ≤ r.2.Capacity) := by
  cases m with
  | reserve c => exact (Reserve_capacity_le h v c).mono fun _ hr => hr.1
  | resize c => exact Resize_capacity_le h v c
  | pushBack x => exact PushBack_capacity_le h v x hs
  | pushBackMove x => exact PushBack_capacity_le h v x hs
  | emplaceBack x =>
    simp only [Mutation.apply, Sat_bind, Sat_pure]
    exact EmplaceBack_capacity_le h v x hs
  | popBack => exact PopBack_capacity_le h v
  | insert p x =>
    simp only [Mutation.apply, Sat_bind, Sat_pure]
    exact Emplace_capacity_le h v p x hs
  | insertMove p x =>
    simp only [Mutation.apply, Sat_bind, Sat_pure]
    exact Emplace_capacity_le h v p x hs
  | emplace p x =>
    simp only [Mutation.apply, Sat_bind, Sat_pure]
    exact Emplace_capacity_le h v p x hs
  | erase p =>
    simp only [Mutation.apply, Sat_bind, Sat_pure]
    exact Erase_capacity_le h v p
  | assignAt i x =>
    simp only [Mutation.apply, Sat_bind, Sat_pure]
    simp only [Sat]
    intros; exact Nat.le_refl _

/-- `PopBack()` on a non-empty array holding `xs`: the call returns, the array holds
`xs` without its last element and keeps its capacity. -/
theorem PopBack_spec [ValueType T] (h : Heap T) (v : Vector) (xs : List T)
    (hv : Holds h v xs) (hne : 0 < v.Size) :
    ∃ h', v.PopBack h = .ok (h', { v with size_ := v.size_ - 1 }) ∧
      Holds h' { v with size_ := v.size_ - 1 } xs.dropLast := by
  have hpos : 0 < v.size_ := hne
  obtain ⟨a, ha, hb⟩ := hv.buffer_of_pos (by have := hv.2.1; omega)
  obtain ⟨hsz, hle, hfcap, hs⟩ := hv
  have hw : size_t_sub v.size_ 1 = v.size_ - 1 :=
    size_t_sub_eq (by omega) (by have := hfcap.lt; omega)
  have hxne : xs ≠ [] := by
    intro h0
    rw [h0] at hsz
    simp at hsz
    omega
  have hxs : xs = xs.dropLast ++ [xs.getLast hxne] := (List.dropLast_append_getLast hxne).symm
  generalize xs.getLast hxne = z at hxs
  have hdl : xs.dropLast.length = v.size_ - 1 := by simp; omega
  generalize xs.dropLast = l at hxs hdl ⊢
  subst hxs
  generalize hR : List.replicate (v.data_.capacity_ - (l ++ [z]).length) (none : Option T)
    = R at hb
  have hb0 : h.block a = some (l.map some ++ some z :: R) := by simpa using hb
  have hle1 : v.size_ - 1 ≤ v.data_.capacity_ := by omega
  unfold Vector.PopBack
  simp only [hw, RawMemory.plus, hle1, if_true, ok_bind, pure_eq_ok, ha, destroy_at]
  rw [Heap.load_mid hb0 (by simp [hdl])]
  simp only
  rw [Heap.setSlot_mid none hb0 (by simp [hdl])]
  refine ⟨_, rfl, hdl.symm, hle1, hfcap, ?_⟩
  simp only [Vector.storage, ha, Heap.block_setBlock_same _ _ (Heap.block_lt hb)]
  subst hR
  have : v.data_.capacity_ - l.length
      = (v.data_.capacity_ - (l ++ [z]).length) + 1 := by
    simp only [List.length_append, List.length_singleton] at hsz ⊢
    omega
  rw [this, List.replicate_succ]

/-- Every `Resize` whose byte count fits returns. -/
theorem Resize_returns [ValueType T] (h : Heap T) (v : Vector) (xs : List T) (n : Nat)
    (hv : Holds h v xs) (hf : Fits T n) : ∃ r, v.Resize h n = .ok r := by
  by_cases h1 : n ≤ v.Size
  · obtain ⟨h', he, _⟩ := Resize_shrink h v xs n hv h1
    exact ⟨_, he⟩
  · by_cases h2 : n ≤ v.Capacity
    · obtain ⟨h', he, _⟩ := Resize_grow_within h v xs n hv (by omega) h2
      exact ⟨_, he⟩
    · obtain ⟨h', he, _⟩ := Resize_grow_beyond h v xs n hv (by omega) hf
      exact ⟨_, he⟩

/-- Every `Reserve` whose byte count fits returns. -/
theorem Reserve_returns [ValueType T] (h : Heap T) (v : Vector) (xs : List T) (c : Nat)
    (hv : Holds h v xs) (hf : Fits T c) : ∃ r, v.Reserve h c = .ok r := by
  by_cases h1 : c ≤ v.Capacity
  · exact ⟨_, Reserve_noop h v c h1⟩
  · obtain ⟨h', he, _⟩ := Reserve_grow h v xs c hv (by omega) hf
    exact ⟨_, he⟩

theorem copyAssign_capacity_le [ValueType T] (h : Heap T) (v other : Vector) :
    Sat (v.copyAssign h other) (fun r => v.Capacity ≤ r.2.Capacity) := by
  unfold Vector.copyAssign Vector.copyConstruct
  simp only [Sat_bind, Sat_ite, Sat_ok, Sat_pure, Sat_error, RawMemory.plus, RawMemory.create,
    RawMemory.GetAddress, RawMemory.Swap, RawMemory.destroy, implies_true, and_true,
    Vector.Capacity, RawMemory.Capacity, Vector.begin, Vector.Swap, Vector.destroy]
  simp only [Sat]
  refine ⟨?_, ?_⟩
  · intro hgt
    intros
    omega
  · intro _ _ _ _ _
    refine ⟨?_, ?_⟩ <;> intros <;> exact Nat.le_refl _

/-- Every call on one array within its precondition returns, provided the byte counts
of the storage requested fit `size_t`. -/
theorem calls_return [ValueType T] (h : Heap T) (v : Vector) (xs : List T)
    (hv : Holds h v xs) (hfit : v.Size = v.Capacity → Fits T (2 * v.Size)) :
    (∀ c, Fits T c → ∃ r, v.Reserve h c = .ok r) ∧
    (∀ n, Fits T n → ∃ r, v.Resize h n = .ok r) ∧
    (∀ x, ∃ r, v.PushBack h x = .ok r) ∧
    (∀ x, ∃ r, v.PushBackMove h x = .ok r) ∧
    (∀ x, ∃ r, v.EmplaceBack h x = .ok r) ∧
    (0 < v.Size → ∃ r, v.PopBack h = .ok r) ∧
    (∀ i x, i ≤ v.Size → ∃ r, v.Insert h ⟨v.data_.buffer_, i⟩ x = .ok r) ∧
    (∀ i x, i ≤ v.Size → ∃ r, v.InsertMove h ⟨v.data_.buffer_, i⟩ x = .ok r) ∧
    (∀ i x, i ≤ v.Size → ∃ r, v.Emplace h ⟨v.data_.buffer_, i⟩ x = .ok r) ∧
    (∀ i, i < v.Size → ∃ r, v.Erase h ⟨v.data_.buffer_, i⟩ = .ok r) := by
  have hsz : v.Size = xs.length := hv.1
  have hE : ∀ i x, i ≤ v.Size → ∃ r, v.Emplace h ⟨v.data_.buffer_, i⟩ x = .ok r := by
    intro i x hi
    obtain ⟨h', v', he, _⟩ := Emplace_spec h v xs i x hv (by omega) hfit
    exact ⟨_, he⟩
  have hP : ∀ x, ∃ r, v.PushBack h x = .ok r := by
    intro x
    obtain ⟨h', v', he, _⟩ := PushBack_spec h v xs x hv hfit
    exact ⟨_, he⟩
  refine ⟨fun c hc => Reserve_returns h v xs c hv hc, fun n hn => Resize_returns h v xs n hv hn,
    hP, hP, ?_, ?_, hE, hE, hE, ?_⟩
  · intro x
    obtain ⟨h', v', he, _⟩ := EmplaceBack_spec h v xs x hv hfit
    exact ⟨_, he⟩
  · intro hpos
    obtain ⟨h', he, _⟩ := PopBack_spec h v xs hv hpos
    exact ⟨_, he⟩
  · intro i hi
    obtain ⟨h', he, _⟩ := Erase_spec h v xs i hv (by omega)
    exact ⟨_, he⟩

/-- C11 (the claim at a failing input): `Swap` and move assignment give the array
`[1, 2, 3]` of capacity 3 the storage of a default-constructed array: its capacity
drops from 3 to 0. -/
theorem Swap_lowers_capacity :
    Holds fullHeap fullVector [1, 2, 3] ∧ Holds fullHeap Vector.empty ([] : List Nat) ∧
    fullVector.Capacity = 3 ∧
    (fullVector.Swap Vector.empty).1.Capacity = 0 ∧
    (fullVector.moveAssign Vector.empty).1.Capacity = 0 ∧
    ¬ fullVector.Capacity ≤ (fullVector.Swap Vector.empty).1.Capacity ∧
    ¬ fullVector.Capacity ≤ (fullVector.moveAssign Vector.empty).1.Capacity := by
  decide

/-- C11 (amended): for an array holding `xs`, every call of `Reserve`, `Resize`,
`PushBack`, `EmplaceBack`, `PopBack`, `Insert`, `Emplace`, `Erase` within its
precondition returns (the byte counts requested fitting `size_t`), and every such call,
every element assignment and every copy assignment that returns leaves `Capacity()` at
least what it was; `Swap` and move assignment exchange the two capacities, so that the
capacity afterwards is the one the other array had. -/
theorem Capacity_nondecreasing [ValueType T] (h : Heap T) (v other : Vector) (xs : List T)
    (hv : Holds h v xs) (hfit : v.Size = v.Capacity → Fits T (2 * v.Size))
    (hs : 2 * v.Size < 2 ^ 64) :
    (∀ m : Mutation T, Sat (m.apply h v) (fun r => v.Capacity ≤ r.2.Capacity)) ∧
    Sat (v.copyAssign h other) (fun r => v.Capacity ≤ r.2.Capacity) ∧
    ((∀ c, Fits T c → ∃ r, v.Reserve h c = .ok r) ∧
     (∀ n, Fits T n → ∃ r, v.Resize h n = .ok r) ∧
     (∀ x, ∃ r, v.PushBack h x = .ok r) ∧
     (∀ x, ∃ r, v.PushBackMove h x = .ok r) ∧
     (∀ x, ∃ r, v.EmplaceBack h x = .ok r) ∧
     (0 < v.Size → ∃ r, v.PopBack h = .ok r) ∧
     (∀ i x, i ≤ v.Size → ∃ r, v.Insert h ⟨v.data_.buffer_, i⟩ x = .ok r) ∧
     (∀ i x, i ≤ v.Size → ∃ r, v.InsertMove h ⟨v.data_.buffer_, i⟩ x = .ok r) ∧
     (∀ i x, i ≤ v.Size → ∃ r, v.Emplace h ⟨v.data_.buffer_, i⟩ x = .ok r) ∧
     (∀ i, i < v.Size → ∃ r, v.Erase h ⟨v.data_.buffer_, i⟩ = .ok r)) ∧
    (v.Swap other).1.Capacity = other.Capacity ∧ (v.Swap other).2.Capacity = v.Capacity ∧
    (v.moveAssign other).1.Capacity = other.Capacity ∧
    (v.moveAssign other).2.Capacity = v.Capacity :=
  ⟨Mutation.apply_capacity_le h v hs, copyAssign_capacity_le h v other,
    calls_return h v xs hv hfit, rfl, rfl, rfl, rfl⟩

/-- Witness for `Capacity_nondecreasing`: the array `[1, 2, 3]` of capacity 3 and an
array of capacity 4. -/
theorem Capacity_nondecreasing_witness :
    Holds fullHeap fullVector [1, 2, 3] ∧
    (fullVector.Size = fullVector.Capacity → Fits Nat (2 * fullVector.Size)) ∧
    2 * fullVector.Size < 2 ^ 64 ∧
    (∀ m : Mutation Nat, Sat (m.apply fullHeap fullVector)
      (fun r => fullVector.Capacity ≤ r.2.Capacity)) ∧
    Sat (fullVector.copyAssign fullHeap sampleVector)
      (fun r => fullVector.Capacity ≤ r.2.Capacity) ∧
    (∀ x, ∃ r, fullVector.PushBack fullHeap x = .ok r) ∧
    (fullVector.Swap sampleVector).1.Capacity = sampleVector.Capacity ∧
    (fullVector.moveAssign sampleVector).1.Capacity = sampleVector.Capacity :=
  have w := Capacity_nondecreasing fullHeap fullVector sampleVector [1, 2, 3]
    (by decide) (by decide) (by decide)
  ⟨by decide, by decide, by decide, w.1, w.2.1, w.2.2.1.2.2.1, w.2.2.2.1, w.2.2.2.2.2.1⟩

/-- C16 (the code at a failing input): `a` is `[1, 2, 4]` of capacity 4, `b` is
`[5, 6, 7, 8]`; `b.Size() <= a.Capacity()`, so `a = b` reuses the storage.  The common
prefix is `[0, 3)`, and assigning it goes well; but the code runs
`std::copy_n(other.begin(), other.size_, begin())` over all four elements of `b`, so
the fourth assignment has slot 3 of `a` as its target, which is raw storage in the
tail `[size, source size)`: the call is undefined. -/
theorem copyAssign_assigns_beyond_common_prefix :
    Holds pairHeap sampleVector [1, 2, 4] ∧ Holds pairHeap fourVector [5, 6, 7, 8] ∧
    fourVector.Size ≤ sampleVector.Capacity ∧
    min sampleVector.Size fourVector.Size = 3 ∧
    copy_n pairHeap ⟨some 1, 0⟩ (min sampleVector.Size fourVector.Size) ⟨some 0, 0⟩
      = .ok ⟨[some [some 5, some 6, some 7, none], some [some 5, some 6, some 7, some 8]]⟩ ∧
    assign (⟨[some [some 5, some 6, some 7, none], some [some 5, some 6, some 7, some 8]]⟩ :
      Heap Nat) ⟨some 0, 3⟩ 8 = .error .undefined ∧
    copy_n pairHeap ⟨some 1, 0⟩ fourVector.size_ ⟨some 0, 0⟩ = .error .undefined ∧
    sampleVector.copyAssign pairHeap fourVector = .error .undefined :=
  ⟨by decide, by decide, by decide, by decide, rfl, rfl, rfl, rfl⟩

/-- C14 (the code at a failing input): the array `[1, 2, 3]` has size == capacity, so
`PushBack(9)` takes the growth path.  When the copy constructor throws for the new
element, nothing has been constructed in the new block, and when it throws for the
second element being relocated, the new block holds only the new element in slot 3;
either way the handler runs `std::destroy_n(new_data.GetAddress(), size_ + 1)` from
slot 0, which holds no object: the call is undefined instead of propagating the
exception with the array unchanged.  The same happens for an empty array. -/
theorem PushBack_growth_failure_is_undefined :
    Holds fullHeap fullVector [1, 2, 3] ∧ fullVector.Size = fullVector.Capacity ∧
    fullVector.PushBack_ex (throwsOn 9) fullHeap 9 = .fault .undefined ∧
    fullVector.PushBack_ex (throwsOn 2) fullHeap 9 = .fault .undefined ∧
    fullVector.PushBack_ex (throwsOn 9) fullHeap 9 ≠ .thrown (fullHeap, fullVector) ∧
    Vector.empty.PushBack_ex (throwsOn 9) (⟨[]⟩ : Heap Nat) 9 = .fault .undefined ∧
    fullVector.PushBack_ex (throwsOn 0) fullHeap 9
      = .returned (⟨[none, some [some 1, some 2, some 3, some 9, none, none]]⟩,
          ⟨⟨some 1, 6⟩, 4⟩) :=
  ⟨by decide, by decide, rfl, rfl, by decide, rfl, rfl⟩

/-- C17 (the code at a failing input): `PushBack(9)` and `EmplaceBack(9)` on the full
array `[1, 2, 3]`; the new block is block 1, of six slots.  When the construction of
the new element throws, no slot of the new block is alive when the handler starts; when
the copy of the second element throws during relocation, `std::uninitialized_copy_n`
has already destroyed the first copy and only slot 3, the new element, is alive.  In
both cases the handler `std::destroy_n(new_data.GetAddress(), size_ + 1)` destroys
four slots starting at slot 0, which is not alive. -/
theorem growth_cleanup_destroys_raw_slots :
    RawMemory.create fullHeap (wrap (2 * fullVector.size_))
      = (⟨[some [some 1, some 2, some 3], some [none, none, none, none, none, none]]⟩,
          ⟨some 1, 6⟩) ∧
    -- state when the handler starts after a throwing construction, and the handler
    destroy_n (⟨[some [some 1, some 2, some 3], some [none, none, none, none, none, none]]⟩ :
      Heap Nat) (RawMemory.GetAddress ⟨some 1, 6⟩) (wrap (fullVector.size_ + 1))
      = .error .undefined ∧
    -- state when the handler starts after a relocation that failed partway
    Vector.RealocateElements_ex (throwsOn 2)
      ⟨[some [some 1, some 2, some 3], some [none, none, none, some 9, none, none]]⟩
      fullVector.data_.GetAddress fullVector.size_ (RawMemory.GetAddress ⟨some 1, 6⟩)
      = .thrown ⟨[some [some 1, some 2, some 3], some [none, none, none, some 9, none, none]]⟩ ∧
    destroy_n (⟨[some [some 1, some 2, some 3], some [none, none, none, some 9, none, none]]⟩ :
      Heap Nat) (RawMemory.GetAddress ⟨some 1, 6⟩) (wrap (fullVector.size_ + 1))
      = .error .undefined ∧
    -- the calls as a whole
    fullVector.PushBackMove_ex (throwsOn 2) fullHeap 9 = .fault .undefined ∧
    fullVector.EmplaceBack_ex (throwsOn 2) fullHeap 9 true = .fault .undefined ∧
    fullVector.PushBack_ex (throwsOn 3) fullHeap 9 = .fault .undefined :=
  ⟨rfl, rfl, rfl, rfl, rfl, rfl, rfl⟩

/-- C18 (the code at a failing input): `Emplace(begin() + 1, 9)` on the array
`[1, 2, 4]` of capacity 4, the move assignment throwing for the value 2.  The shift
move-constructs slot 3 from slot 2 and then fails assigning slot 2 from slot 1; the
handler `std::destroy_n(data_.GetAddress(), size_ - offset)` destroys slots 0 and 1,
the first of which lies before the insertion offset, and `size_` stays 3: after the
exception has propagated indices 0 and 1 hold no live element, and no list of elements
is held by the array. -/
theorem Emplace_shift_failure_destroys_prefix :
    Holds sampleHeap sampleVector [1, 2, 4] ∧ sampleVector.Size < sampleVector.Capacity ∧
    sampleVector.Emplace_ex (throwsOn 2) sampleHeap ⟨some 0, 1⟩ 9 false
      = .thrown (⟨[some [none, none, some 4, some 4]]⟩, sampleVector) ∧
    0 < sampleVector.Size ∧
    Vector.get (⟨[some [none, none, some 4, some 4]]⟩ : Heap Nat) sampleVector 0
      = .error .undefined ∧
    Vector.get (⟨[some [none, none, some 4, some 4]]⟩ : Heap Nat) sampleVector 1
      = .error .undefined ∧
    (∀ xs : List Nat, ¬ Holds ⟨[some [none, none, some 4, some 4]]⟩ sampleVector xs) := by
  refine ⟨by decide, by decide, rfl, by decide, rfl, rfl, ?_⟩
  rintro xs ⟨hsz, -, -, hs⟩
  match xs, hsz with
  | [], hsz => exact absurd hsz (by decide)
  | x :: xs, _ =>
    have h0 := congrArg (fun o => o.bind (fun l => l.head?)) hs
    simp [Vector.storage, sampleVector, Heap.block] at h0

theorem NoAssert_ok {α : Type} (a : α) : NoAssert (Except.ok a : Except Fault α) := by
  simp [NoAssert]

theorem NoAssert_pure {α : Type} (a : α) : NoAssert (pure a : Except Fault α) := by
  simp [NoAssert, pure, Except.pure]

theorem NoAssert_undefined {α : Type} : NoAssert (Except.error .undefined : Except Fault α) := by
  simp [NoAssert]

theorem NoAssert_assertion {α : Type} :
    NoAssert (Except.error .assertion : Except Fault α) ↔ False := by
  simp [NoAssert]

theorem NoAssert_bind {α β : Type} (m : Except Fault α) (f : α → Except Fault β) :
    NoAssert (m >>= f) ↔ NoAssert m ∧ Sat m (fun a => NoAssert (f a)) := by
  cases m with
  | error e => simp [NoAssert, Sat, bind, Except.bind]
  | ok a => simp [NoAssert, Sat, bind, Except.bind]

theorem NoAssert_ite {α : Type} (c : Prop) [Decidable c] (m1 m2 : Except Fault α) :
    NoAssert (if c then m1 else m2) ↔ (c → NoAssert m1) ∧ (¬ c → NoAssert m2) := by
  by_cases hc : c <;> simp [hc]

theorem NoAssert.error {α β : Type} {m : Except Fault α} {e : Fault} (hm : NoAssert m)
    (he : m = .error e) : NoAssert (Except.error e : Except Fault β) := by
  subst he
  simpa [NoAssert] using hm

theorem Heap.slot_noAssert (h : Heap T) (p : Ptr) : NoAssert (h.slot p) := by
  unfold Heap.slot NoAssert
  split
  · simp
  · split
    · simp
    · split <;> simp

theorem Heap.setSlot_noAssert (h : Heap T) (p : Ptr) (s : Option T) :
    NoAssert (h.setSlot p s) := by
  unfold Heap.setSlot NoAssert
  split
  · simp
  · split
    · simp
    · split <;> simp

theorem Heap.load_noAssert (h : Heap T) (p : Ptr) : NoAssert (h.load p) := by
  unfold Heap.load NoAssert
  split <;> simp

theorem construct_at_noAssert (h : Heap T) (p : Ptr) (v : T) : NoAssert (construct_at h p v) :=
  Heap.setSlot_noAssert h p _

theorem destroy_at_noAssert (h : Heap T) (p : Ptr) : NoAssert (destroy_at h p) := by
  unfold destroy_at
  have h1 := Heap.load_noAssert h p
  split
  · exact Heap.setSlot_noAssert h p _
  · exact NoAssert.error h1 (by assumption)

theorem assign_noAssert (h : Heap T) (p : Ptr) (v : T) : NoAssert (assign h p v) := by
  unfold assign
  have h1 := Heap.load_noAssert h p
  split
  · exact Heap.setSlot_noAssert h p _
  · exact NoAssert.error h1 (by assumption)

theorem move_assign_noAssert [ValueType T] (h : Heap T) (d s : Ptr) :
    NoAssert (move_assign h d s) := by
  unfold move_assign
  have h1 := Heap.load_noAssert h s
  have h2 := Heap.load_noAssert h d
  have h3 := fun v => Heap.setSlot_noAssert h d (some v)
  split
  · exact NoAssert.error h1 (by assumption)
  · split
    · exact NoAssert.error h2 (by assumption)
    · split
      · exact NoAssert.error (h3 _) (by assumption)
      · exact Heap.setSlot_noAssert _ _ _

theorem move_construct_noAssert [ValueType T] (h : Heap T) (d s : Ptr) :
    NoAssert (move_construct h d s) := by
  unfold move_construct
  have h1 := Heap.load_noAssert h s
  have h3 := fun v => Heap.setSlot_noAssert h d (some v)
  split
  · exact NoAssert.error h1 (by assumption)
  · split
    · exact NoAssert.error (h3 _) (by assumption)
    · exact Heap.setSlot_noAssert _ _ _

theorem copy_construct_noAssert (h : Heap T) (d s : Ptr) : NoAssert (copy_construct h d s) := by
  unfold copy_construct
  have h1 := Heap.load_noAssert h s
  split
  · exact NoAssert.error h1 (by assumption)
  · exact Heap.setSlot_noAssert h d _

theorem uninitialized_copy_n_noAssert (h : Heap T) (s : Ptr) (n : Nat) (d : Ptr) :
    NoAssert (uninitialized_copy_n h s n d) := by
  induction n generalizing h s d with
  | zero => exact NoAssert_ok _
  | succ n ih =>
    unfold uninitialized_copy_n
    have h1 := copy_construct_noAssert h d s
    split
    · exact NoAssert.error h1 (by assumption)
    · exact ih _ _ _

theorem uninitialized_move_n_noAssert [ValueType T] (h : Heap T) (s : Ptr) (n : Nat) (d : Ptr) :
    NoAssert (uninitialized_move_n h s n d) := by
  induction n generalizing h s d with
  | zero => exact NoAssert_ok _
  | succ n ih =>
    unfold uninitialized_move_n
    have h1 := move_construct_noAssert h d s
    split
    · exact NoAssert.error h1 (by assumption)
    · exact ih _ _ _

theorem copy_n_noAssert (h : Heap T) (s : Ptr) (n : Nat) (d : Ptr) :
    NoAssert (copy_n h s n d) := by
  induction n generalizing h s d with
  | zero => exact NoAssert_ok _
  | succ n ih =>
    unfold copy_n
    have h1 := Heap.load_noAssert h s
    have h2 := fun v => assign_noAssert h d v
    split
    · exact NoAssert.error h1 (by assumption)
    · split
      · exact NoAssert.error (h2 _) (by assumption)
      · exact ih _ _ _

theorem move_n_noAssert [ValueType T] (h : Heap T) (s : Ptr) (n : Nat) (d : Ptr) :
    NoAssert (move_n h s n d) := by
  induction n generalizing h s d with
  | zero => exact NoAssert_ok _
  | succ n ih =>
    unfold move_n
    have h1 := move_assign_noAssert h d s
    split
    · exact NoAssert.error h1 (by assumption)
    · exact ih _ _ _

theorem Ptr.sub_noAssert (p : Ptr) (k : Nat) : NoAssert (p.sub k) := by
  unfold Ptr.sub NoAssert
  split <;> simp

theorem Ptr.diff_noAssert (p q : Ptr) : NoAssert (p.diff q) := by
  unfold Ptr.diff NoAssert
  split <;> simp

theorem move_backward_n_noAssert [ValueType T] (h : Heap T) (l : Ptr) (n : Nat) (d : Ptr) :
    NoAssert (move_backward_n h l n d) := by
  induction n generalizing h l d with
  | zero => exact NoAssert_ok _
  | succ n ih =>
    unfold move_backward_n
    have h1 := Ptr.sub_noAssert l 1
    have h2 := Ptr.sub_noAssert d 1
    split
    · exact NoAssert.error h1 (by assumption)
    · split
      · exact NoAssert.error h2 (by assumption)
      · split
        · exact NoAssert.error (move_assign_noAssert h _ _) (by assumption)
        · exact ih _ _ _

theorem std_move_noAssert [ValueType T] (h : Heap T) (f l d : Ptr) :
    NoAssert (std_move h f l d) := by
  unfold std_move
  have h1 := Ptr.diff_noAssert l f
  split
  · exact NoAssert.error h1 (by assumption)
  · exact move_n_noAssert h _ _ _

theorem std_move_backward_noAssert [ValueType T] (h : Heap T) (f l d : Ptr) :
    NoAssert (std_move_backward h f l d) := by
  unfold std_move_backward
  have h1 := Ptr.diff_noAssert l f
  split
  · exact NoAssert.error h1 (by assumption)
  · exact move_backward_n_noAssert h _ _ _

theorem destroy_n_noAssert (h : Heap T) (p : Ptr) (n : Nat) : NoAssert (destroy_n h p n) := by
  induction n generalizing h p with
  | zero => exact NoAssert_ok _
  | succ n ih =>
    unfold destroy_n
    have h1 := destroy_at_noAssert h p
    split
    · exact NoAssert.error h1 (by assumption)
    · exact ih _ _

theorem uninitialized_value_construct_n_noAssert [ValueType T] (h : Heap T) (p : Ptr)
    (n : Nat) : NoAssert (uninitialized_value_construct_n h p n) := by
  induction n generalizing h p with
  | zero => exact NoAssert_ok _
  | succ n ih =>
    unfold uninitialized_value_construct_n
    have h1 := construct_at_noAssert h p (ValueType.valueInit : T)
    split
    · exact NoAssert.error h1 (by assumption)
    · exact ih _ _

theorem Deallocate_noAssert (h : Heap T) (b : Option Nat) : NoAssert (Deallocate h b) := by
  unfold Deallocate NoAssert
  split
  · simp
  · split <;> simp

theorem RealocateElements_noAssert [ValueType T] (h : Heap T) (s : Ptr) (n : Nat) (d : Ptr) :
    NoAssert (Vector.RealocateElements h s n d) := by
  unfold Vector.RealocateElements uninitialized_move_n_const
  split <;> exact uninitialized_copy_n_noAssert h s n d

theorem growth_size_le {n : Nat} (hs : 2 * n < 2 ^ 64) :
    n ≤ (if n = 0 then 1 else wrap (2 * n)) := by
  unfold wrap
  split
  · omega
  · rw [Nat.mod_eq_of_lt hs]; omega

theorem growth_size_lt {n : Nat} (hs : 2 * n < 2 ^ 64) :
    n < (if n = 0 then 1 else wrap (2 * n)) := by
  unfold wrap
  split
  · omega
  · rw [Nat.mod_eq_of_lt hs]; omega

theorem wrap_succ_of_double {n : Nat} (hs : 2 * n < 2 ^ 64) : wrap (n + 1) = n + 1 := by
  unfold wrap
  exact Nat.mod_eq_of_lt (by omega)

theorem PushBack_noAssert [ValueType T] (h : Heap T) (v : Vector) (x : T)
    (hs : 2 * v.size_ < 2 ^ 64) : NoAssert (v.PushBack h x) := by
  unfold Vector.PushBack
  simp only [NoAssert_bind, Sat_bind, NoAssert_ite, Sat_ite, NoAssert_pure, NoAssert_ok,
    Sat_ok, Sat_pure, Sat_error, RawMemory.plus, RawMemory.create,
    RawMemory.GetAddress, RawMemory.Swap, RawMemory.destroy, implies_true, and_true, true_and,
    Vector.Capacity, RawMemory.Capacity, construct_at_noAssert, destroy_n_noAssert,
    Deallocate_noAssert, RealocateElements_noAssert, NoAssert_undefined, NoAssert_assertion,
    Sat]
  exact ⟨fun h1 h2 => h2 (by omega), fun _ h2 => h2 (growth_size_le hs)⟩

theorem Sat_true {α : Type} (m : Except Fault α) : Sat m (fun _ => True) ↔ True := by
  simp [Sat]

theorem EmplaceBack_noAssert [ValueType T] (h : Heap T) (v : Vector) (x : T)
    (hs : 2 * v.size_ < 2 ^ 64) : NoAssert (v.EmplaceBack h x) := by
  have hw := wrap_succ_of_double hs
  have hg := growth_size_lt hs
  unfold Vector.EmplaceBack
  simp only [NoAssert_bind, Sat_bind, NoAssert_ite, Sat_ite, NoAssert_pure, NoAssert_ok,
    Sat_ok, Sat_pure, Sat_error, RawMemory.plus, RawMemory.create,
    RawMemory.GetAddress, RawMemory.Swap, RawMemory.destroy, implies_true, and_true, true_and,
    Vector.Capacity, RawMemory.Capacity, construct_at_noAssert, destroy_n_noAssert,
    Deallocate_noAssert, RealocateElements_noAssert, NoAssert_undefined, NoAssert_assertion,
    uninitialized_move_n_noAssert, uninitialized_copy_n_noAssert, Vector.index,
    RawMemory.index, Sat_true]
  simp only [Sat, hw]
  repeat' first | intro _ | apply And.intro
  all_goals omega

theorem EmplaceBack_size_le [ValueType T] (h : Heap T) (v : Vector) (x : T)
    (hs : 2 * v.size_ < 2 ^ 64) :
    Sat (v.EmplaceBack h x) (fun r => r.2.1.size_ ≤ r.2.1.data_.capacity_) := by
  have hw := wrap_succ_of_double hs
  have hg := growth_size_lt hs
  unfold Vector.EmplaceBack
  simp only [Sat_bind, Sat_ite, Sat_ok, Sat_pure, Sat_error, RawMemory.plus, RawMemory.create,
    RawMemory.GetAddress, RawMemory.Swap, RawMemory.destroy, implies_true, and_true,
    Vector.Capacity, RawMemory.Capacity, Vector.index, RawMemory.index]
  simp only [Sat, hw]
  refine ⟨?_, ?_⟩
  · intros; omega
  · intro _ _ _ _
    refine ⟨?_, ?_⟩ <;> intros <;> omega

theorem PopBack_noAssert (h : Heap T) (v : Vector) (hle : v.size_ ≤ v.data_.capacity_)
    (hpos : 0 < v.size_) : NoAssert (v.PopBack h) := by
  have hw : size_t_sub v.size_ 1 ≤ v.data_.capacity_ := by
    unfold size_t_sub
    rw [if_pos (show 1 ≤ v.size_ from hpos)]
    omega
  unfold Vector.PopBack
  simp only [NoAssert_bind, Sat_bind, NoAssert_ite, Sat_ite, NoAssert_pure, NoAssert_ok,
    Sat_ok, Sat_pure, Sat_error, RawMemory.plus, implies_true, and_true, true_and,
    destroy_at_noAssert, NoAssert_undefined, NoAssert_assertion, Sat_true, hw,
    not_true_eq_false, false_implies]

theorem Erase_noAssert [ValueType T] (h : Heap T) (v : Vector) (pos : Ptr)
    (hle : v.size_ ≤ v.data_.capacity_) : NoAssert (v.Erase h pos) := by
  unfold Vector.Erase
  simp only [NoAssert_bind, Sat_bind, NoAssert_ite, Sat_ite, NoAssert_pure, NoAssert_ok,
    Sat_ok, Sat_pure, Sat_error, RawMemory.plus, implies_true, and_true, true_and,
    Vector.begin, Vector.end_, Ptr.diff_noAssert, Ptr.sub_noAssert, std_move_noAssert,
    destroy_at_noAssert, NoAssert_undefined, NoAssert_assertion, Nat.zero_le, not_true_eq_false,
    false_implies, hle, Sat_true]

theorem index_noAssert (v : Vector) (i : Nat) (hle : v.size_ ≤ v.data_.capacity_)
    (hi : i < v.size_) : NoAssert (v.index i) := by
  have hc : i < v.data_.capacity_ := by omega
  simp [Vector.index, RawMemory.index, hi, hc, NoAssert_ok]

theorem begin_noAssert (v : Vector) : NoAssert v.begin := by
  simp [Vector.begin, RawMemory.plus, NoAssert_ok]

theorem end_noAssert (v : Vector) (hle : v.size_ ≤ v.data_.capacity_) : NoAssert v.end_ := by
  simp [Vector.end_, RawMemory.plus, hle, NoAssert_ok]

theorem get_noAssert (h : Heap T) (v : Vector) (i : Nat) (hle : v.size_ ≤ v.data_.capacity_)
    (hi : i < v.size_) : NoAssert (v.get h i) := by
  unfold Vector.get
  simp only [NoAssert_bind, index_noAssert v i hle hi, Heap.load_noAssert, Sat_true, and_true]

theorem set_noAssert (h : Heap T) (v : Vector) (i : Nat) (x : T)
    (hle : v.size_ ≤ v.data_.capacity_) (hi : i < v.size_) : NoAssert (v.set h i x) := by
  unfold Vector.set
  simp only [NoAssert_bind, index_noAssert v i hle hi, assign_noAssert, Sat_true, and_true]

theorem Reserve_noAssert [ValueType T] (h : Heap T) (v : Vector) (c : Nat) :
    NoAssert (v.Reserve h c) := by
  unfold Vector.Reserve
  simp only [NoAssert_bind, Sat_bind, NoAssert_ite, Sat_ite, NoAssert_pure, NoAssert_ok,
    Sat_ok, Sat_pure, Sat_error, RawMemory.plus, RawMemory.create,
    RawMemory.GetAddress, RawMemory.Swap, RawMemory.destroy, implies_true, and_true, true_and,
    Vector.Capacity, RawMemory.Capacity, destroy_n_noAssert,
    Deallocate_noAssert, RealocateElements_noAssert, NoAssert_undefined, NoAssert_assertion,
    Sat_true]

theorem Resize_noAssert [ValueType T] (h : Heap T) (v : Vector) (n : Nat)
    (hle : v.size_ ≤ v.data_.capacity_) : NoAssert (v.Resize h n) := by
  unfold Vector.Resize
  simp only [NoAssert_bind, Sat_bind, NoAssert_ite, Sat_ite, NoAssert_pure, NoAssert_ok,
    Sat_ok, Sat_pure, Sat_error, RawMemory.plus, implies_true, and_true, true_and,
    destroy_n_noAssert, uninitialized_value_construct_n_noAssert, Reserve_noAssert,
    NoAssert_undefined, NoAssert_assertion, Sat_true]
  refine ⟨fun _ => ?_, fun _ hn => hn (by omega)⟩
  refine (Reserve_capacity_le h v n).mono fun r hr hn => hn ?_
  simp only [Vector.Capacity, RawMemory.Capacity] at hr
  omega

theorem copyAssign_noAssert [ValueType T] (h : Heap T) (v other : Vector)
    (hle : v.size_ ≤ v.data_.capacity_) (hlo : other.size_ ≤ other.data_.capacity_) :
    NoAssert (v.copyAssign h other) := by
  unfold Vector.copyAssign Vector.copyConstruct Vector.destroy
  simp only [NoAssert_bind, Sat_bind, NoAssert_ite, Sat_ite, NoAssert_pure, NoAssert_ok,
    Sat_ok, Sat_pure, Sat_error, RawMemory.plus, RawMemory.create,
    RawMemory.GetAddress, RawMemory.Swap, RawMemory.destroy, implies_true, and_true, true_and,
    Vector.Capacity, RawMemory.Capacity, Vector.begin, Vector.Swap, destroy_n_noAssert,
    Deallocate_noAssert, uninitialized_copy_n_noAssert, copy_n_noAssert,
    NoAssert_undefined, NoAssert_assertion, Sat_true, Nat.zero_le, not_true_eq_false,
    false_implies]
  simp only [Sat]
  repeat' first | intro _ | apply And.intro
  all_goals omega

theorem Emplace_noAssert [ValueType T] (h : Heap T) (v : Vector) (i : Nat) (x : T)
    (hle : v.size_ ≤ v.data_.capacity_) (hs : 2 * v.size_ < 2 ^ 64) (hi : i ≤ v.size_) :
    NoAssert (v.Emplace h ⟨v.data_.buffer_, i⟩ x) := by
  have hw := wrap_succ_of_double hs
  have hg := growth_size_lt hs
  unfold Vector.Emplace
  simp only [NoAssert_bind, Sat_bind, NoAssert_ite, Sat_ite, NoAssert_pure, NoAssert_ok,
    Sat_ok, Sat_pure, Sat_error, RawMemory.plus, RawMemory.create,
    RawMemory.GetAddress, RawMemory.Swap, RawMemory.destroy, implies_true, and_true, true_and,
    Vector.Capacity, RawMemory.Capacity, Vector.begin, Vector.end_, construct_at_noAssert,
    destroy_n_noAssert, Deallocate_noAssert, RealocateElements_noAssert, NoAssert_undefined,
    NoAssert_assertion, uninitialized_move_n_noAssert, std_move_backward_noAssert,
    assign_noAssert, Ptr.sub_noAssert, Ptr.diff, Sat_true, Nat.zero_le,
    not_true_eq_false, false_implies, hle, EmplaceBack_noAssert h v x hs, Nat.sub_zero,
    Ptr.mk.injEq, true_implies]
  refine ⟨fun _ => (EmplaceBack_size_le h v x hs).mono (fun r hr hn => hn hr), fun hne => ?_⟩
  have hlt : i < v.size_ := by omega
  have hix := index_noAssert v i hle hlt
  simp only [Sat, hix]
  repeat' first | intro _ | apply And.intro
  all_goals first | trivial | omega

/-- No call on an array with `size_ <= capacity_` within its precondition ends in a
failed assertion, whatever the heap. -/
theorem calls_noAssert [ValueType T] (h : Heap T) (v : Vector)
    (hle : v.Size ≤ v.Capacity) (hs : 2 * v.Size < 2 ^ 64) :
    NoAssert v.begin ∧ NoAssert v.end_ ∧
    (∀ i, i < v.Size → NoAssert (v.index i)) ∧
    (∀ x, NoAssert (v.PushBack h x)) ∧
    (∀ x, NoAssert (v.PushBackMove h x)) ∧
    (∀ x, NoAssert (v.EmplaceBack h x)) ∧
    (0 < v.Size → NoAssert (v.PopBack h)) ∧
    (∀ i x, i ≤ v.Size → NoAssert (v.Insert h ⟨v.data_.buffer_, i⟩ x)) ∧
    (∀ i x, i ≤ v.Size → NoAssert (v.InsertMove h ⟨v.data_.buffer_, i⟩ x)) ∧
    (∀ i x, i ≤ v.Size → NoAssert (v.Emplace h ⟨v.data_.buffer_, i⟩ x)) ∧
    (∀ i, i < v.Size → NoAssert (v.Erase h ⟨v.data_.buffer_, i⟩)) ∧
    (∀ c, NoAssert (v.Reserve h c)) ∧
    (∀ n, NoAssert (v.Resize h n)) ∧
    (∀ other : Vector, other.Size ≤ other.Capacity → NoAssert (v.copyAssign h other)) :=
  ⟨begin_noAssert v, end_noAssert v hle, fun i hi => index_noAssert v i hle hi,
    fun x => PushBack_noAssert h v x hs, fun x => PushBack_noAssert h v x hs,
    fun x => EmplaceBack_noAssert h v x hs, fun hp => PopBack_noAssert h v hle hp,
    fun i x hi => Emplace_noAssert h v i x hle hs hi,
    fun i x hi => Emplace_noAssert h v i x hle hs hi,
    fun i x hi => Emplace_noAssert h v i x hle hs hi,
    fun _ _ => Erase_noAssert h v _ hle, fun c => Reserve_noAssert h v c,
    fun n => Resize_noAssert h v n hle, fun o ho => copyAssign_noAssert h v o hle ho⟩

/-- C19: for an array with `Size() <= Capacity()` (and `2 * Size()` in the range of
`size_t`), in any heap, no call within its precondition ends in a failed assertion:
`begin()`, `end()`, `operator[]` at an index below `Size()`, both `PushBack` overloads,
`EmplaceBack`, `PopBack` on a non-empty array, `Insert` and `Emplace` at a position in
`[begin, end]`, `Erase`, `Reserve`, `Resize` and copy assignment.  And when the array
holds a list of elements, these calls return, so that every assertion on their path was
evaluated and passed. -/
theorem no_assertion_fails [ValueType T] (h : Heap T) (v : Vector)
    (hle : v.Size ≤ v.Capacity) (hs : 2 * v.Size < 2 ^ 64) :
    (NoAssert v.begin ∧ NoAssert v.end_ ∧
     (∀ i, i < v.Size → NoAssert (v.index i)) ∧
     (∀ x, NoAssert (v.PushBack h x)) ∧
     (∀ x, NoAssert (v.PushBackMove h x)) ∧
     (∀ x, NoAssert (v.EmplaceBack h x)) ∧
     (0 < v.Size → NoAssert (v.PopBack h)) ∧
     (∀ i x, i ≤ v.Size → NoAssert (v.Insert h ⟨v.data_.buffer_, i⟩ x)) ∧
     (∀ i x, i ≤ v.Size → NoAssert (v.InsertMove h ⟨v.data_.buffer_, i⟩ x)) ∧
     (∀ i x, i ≤ v.Size → NoAssert (v.Emplace h ⟨v.data_.buffer_, i⟩ x)) ∧
     (∀ i, i < v.Size → NoAssert (v.Erase h ⟨v.data_.buffer_, i⟩)) ∧
     (∀ c, NoAssert (v.Reserve h c)) ∧
     (∀ n, NoAssert (v.Resize h n)) ∧
     (∀ other : Vector, other.Size ≤ other.Capacity → NoAssert (v.copyAssign h other))) ∧
    (∀ xs, Holds h v xs → (v.Size = v.Capacity → Fits T (2 * v.Size)) →
     (∀ i, i < v.Size → ∃ x, v.get h i = .ok x) ∧
     (∀ x, ∃ r, v.PushBack h x = .ok r) ∧
     (∀ x, ∃ r, v.PushBackMove h x = .ok r) ∧
     (∀ x, ∃ r, v.EmplaceBack h x = .ok r) ∧
     (0 < v.Size → ∃ r, v.PopBack h = .ok r) ∧
     (∀ i x, i ≤ v.Size → ∃ r, v.Insert h ⟨v.data_.buffer_, i⟩ x = .ok r) ∧
     (∀ i x, i ≤ v.Size → ∃ r, v.InsertMove h ⟨v.data_.buffer_, i⟩ x = .ok r) ∧
     (∀ i x, i ≤ v.Size → ∃ r, v.Emplace h ⟨v.data_.buffer_, i⟩ x = .ok r) ∧
     (∀ i, i < v.Size → ∃ r, v.Erase h ⟨v.data_.buffer_, i⟩ = .ok r)) := by
  refine ⟨calls_noAssert h v hle hs, fun xs hv hfit => ?_⟩
  have hr := calls_return h v xs hv hfit
  refine ⟨fun i hi => ?_, hr.2.2.1, hr.2.2.2.1, hr.2.2.2.2.1, hr.2.2.2.2.2.1,
    hr.2.2.2.2.2.2.1, hr.2.2.2.2.2.2.2.1, hr.2.2.2.2.2.2.2.2.1, hr.2.2.2.2.2.2.2.2.2⟩
  have hi' : i < xs.length := by
    have := hv.1
    simp only [Vector.Size] at hi
    omega
  exact ⟨_, hv.get hi'⟩

/-- Witness for `no_assertion_fails`: the array `[1, 2, 3]` of capacity 3. -/
theorem no_assertion_fails_witness :
    fullVector.Size ≤ fullVector.Capacity ∧ 2 * fullVector.Size < 2 ^ 64 ∧
    NoAssert fullVector.begin ∧ NoAssert fullVector.end_ ∧
    (∀ i, i < fullVector.Size → NoAssert (fullVector.index i)) ∧
    (∀ x, NoAssert (fullVector.PushBack fullHeap x)) ∧
    (∀ x, NoAssert (fullVector.EmplaceBack fullHeap x)) ∧
    (∀ i x, i ≤ fullVector.Size →
      NoAssert (fullVector.Emplace fullHeap ⟨fullVector.data_.buffer_, i⟩ x)) :=
  have w := (no_assertion_fails fullHeap fullVector (by decide) (by decide)).1
  ⟨by decide, by decide, w.1, w.2.1, w.2.2.1, w.2.2.2.1, w.2.2.2.2.2.1,
    w.2.2.2.2.2.2.2.2.2.1⟩

/-- When no copy constructor throws, `uninitialized_copy_n_ex` is `uninitialized_copy_n`. -/
theorem uninitialized_copy_n_ex_eq [ValueType T] (th : Throwing T)
    (hc : ∀ x, th.copy x = false) (h : Heap T) (d src : Ptr) (n : Nat) (cur : Ptr) :
    uninitialized_copy_n_ex th h d src n cur
      = Outcome.ofExcept (uninitialized_copy_n h src n cur) := by
  induction n generalizing h src cur with
  | zero => rfl
  | succ n ih =>
    unfold uninitialized_copy_n_ex uninitialized_copy_n copy_construct
    cases h.load src with
    | error e => rfl
    | ok v =>
      simp only [hc, Bool.false_eq_true, if_false]
      cases h.setSlot cur (some v) with
      | error e => rfl
      | ok h1 => exact ih h1 _ _

/-- When no move constructor throws, `uninitialized_move_n_ex` is `uninitialized_move_n`. -/
theorem uninitialized_move_n_ex_eq [ValueType T] (th : Throwing T)
    (hm : ∀ x, th.move x = false) (h : Heap T) (d src : Ptr) (n : Nat) (cur : Ptr) :
    uninitialized_move_n_ex th h d src n cur
      = Outcome.ofExcept (uninitialized_move_n h src n cur) := by
  induction n generalizing h src cur with
  | zero => rfl
  | succ n ih =>
    unfold uninitialized_move_n_ex uninitialized_move_n
    cases hl : h.load src with
    | error e => simp [move_construct, hl, Outcome.ofExcept]
    | ok v =>
      simp only [hm, Bool.false_eq_true, if_false]
      cases hmc : move_construct h cur src with
      | error e => rfl
      | ok h1 => exact ih h1 _ _

theorem RealocateElements_ex_eq [ValueType T] (th : Throwing T)
    (hc : ∀ x, th.copy x = false) (h : Heap T) (src : Ptr) (n : Nat) (dst : Ptr) :
    Vector.RealocateElements_ex th h src n dst
      = Outcome.ofExcept (Vector.RealocateElements h src n dst) := by
  unfold Vector.RealocateElements_ex Vector.RealocateElements uninitialized_move_n_const
  split <;> exact uninitialized_copy_n_ex_eq th hc h _ _ _ _

/-- When no copy constructor throws, `PushBack_ex` is `PushBack`. -/
theorem PushBack_ex_eq [ValueType T] (th : Throwing T) (hc : ∀ x, th.copy x = false)
    (h : Heap T) (v : Vector) (x : T) :
    v.PushBack_ex th h x = Outcome.ofExcept (v.PushBack h x) := by
  unfold Vector.PushBack_ex Vector.PushBack
  simp only [hc, Bool.false_eq_true, if_false, RealocateElements_ex_eq th hc]
  by_cases hlt : v.size_ < v.Capacity
  · simp only [hlt, if_true]
    cases v.data_.plus v.size_ with
    | error e => rfl
    | ok p =>
      simp only [ok_bind]
      cases construct_at h p x with
      | error e => rfl
      | ok h1 => rfl
  · simp only [hlt, if_false]
    generalize RawMemory.create h (if v.size_ = 0 then 1 else wrap (2 * v.size_)) = c
    cases c.2.plus v.size_ with
    | error e => rfl
    | ok p =>
      simp only [ok_bind]
      cases construct_at c.1 p x with
      | error e => rfl
      | ok h2 =>
        simp only [ok_bind]
        cases Vector.RealocateElements h2 v.data_.GetAddress v.size_ c.2.GetAddress with
        | error e => rfl
        | ok h3 =>
          simp only [ok_bind, Outcome.ofExcept]
          cases destroy_n h3 (v.data_.Swap c.2).2.GetAddress v.size_ with
          | error e => rfl
          | ok h4 =>
            simp only [ok_bind]
            cases RawMemory.destroy h4 (v.data_.Swap c.2).2 with
            | error e => rfl
            | ok h5 => rfl

/-- When no move constructor and no copy constructor throws, `PushBackMove_ex` is
`PushBackMove`. -/
theorem PushBackMove_ex_eq [ValueType T] (th : Throwing T) (hc : ∀ x, th.copy x = false)
    (hm : ∀ x, th.move x = false) (h : Heap T) (v : Vector) (x : T) :
    v.PushBackMove_ex th h x = Outcome.ofExcept (v.PushBackMove h x) := by
  unfold Vector.PushBackMove_ex Vector.PushBackMove
  simp only [hm, Bool.false_eq_true, if_false, RealocateElements_ex_eq th hc]
  by_cases hlt : v.size_ < v.Capacity
  · simp only [hlt, if_true]
    cases v.data_.plus v.size_ with
    | error e => rfl
    | ok p =>
      simp only [ok_bind]
      cases construct_at h p x with
      | error e => rfl
      | ok h1 => rfl
  · simp only [hlt, if_false]
    generalize RawMemory.create h (if v.size_ = 0 then 1 else wrap (2 * v.size_)) = c
    cases c.2.plus v.size_ with
    | error e => rfl
    | ok p =>
      simp only [ok_bind]
      cases construct_at c.1 p x with
      | error e => rfl
      | ok h2 =>
        simp only [ok_bind]
        cases Vector.RealocateElements h2 v.data_.GetAddress v.size_ c.2.GetAddress with
        | error e => rfl
        | ok h3 =>
          simp only [ok_bind, Outcome.ofExcept]
          cases destroy_n h3 (v.data_.Swap c.2).2.GetAddress v.size_ with
          | error e => rfl
          | ok h4 =>
            simp only [ok_bind]
            cases RawMemory.destroy h4 (v.data_.Swap c.2).2 with
            | error e => rfl
            | ok h5 => rfl

/-- When nothing throws, `EmplaceBack_ex` is `EmplaceBack`. -/
theorem EmplaceBack_ex_eq [ValueType T] (th : Throwing T) (hc : ∀ x, th.copy x = false)
    (hm : ∀ x, th.move x = false) (h : Heap T) (v : Vector) (x : T) :
    v.EmplaceBack_ex th h x false = Outcome.ofExcept (v.EmplaceBack h x) := by
  unfold Vector.EmplaceBack_ex Vector.EmplaceBack
  simp only [Bool.false_eq_true, if_false, uninitialized_copy_n_ex_eq th hc,
    uninitialized_move_n_ex_eq th hm]
  by_cases hlt : v.size_ < v.Capacity
  · simp only [hlt, if_true]
    cases v.data_.plus v.size_ with
    | error e => rfl
    | ok p =>
      simp only [ok_bind]
      cases construct_at h p x with
      | error e => rfl
      | ok h1 =>
        simp only [ok_bind, pure_eq_ok]
        cases Vector.index { data_ := v.data_, size_ := wrap (v.size_ + 1) } v.size_ with
        | error e => rfl
        | ok q => rfl
  · simp only [hlt, if_false]
    generalize RawMemory.create h (if v.size_ = 0 then 1 else wrap (2 * v.size_)) = c
    cases c.2.plus v.size_ with
    | error e => rfl
    | ok p =>
      simp only [ok_bind]
      cases construct_at c.1 p x with
      | error e => rfl
      | ok h2 =>
        simp only [ok_bind]
        have key : ∀ m : Except Fault (Heap T),
            (match
              (match Outcome.ofExcept m with
                | Outcome.fault e => (Outcome.fault e : Outcome (Heap T × Vector) (Heap T × Vector))
                | Outcome.thrown h2 =>
                  match destroy_n h2 c.2.GetAddress (wrap (v.size_ + 1)) with
                  | Except.error e => Outcome.fault e
                  | Except.ok h3 =>
                    match RawMemory.destroy h3 c.2 with
                    | Except.error e => Outcome.fault e
                    | Except.ok h1 => Outcome.thrown (h1, v)
                | Outcome.returned h3 =>
                  match destroy_n h3 (v.data_.Swap c.2).2.GetAddress v.size_ with
                  | Except.error e => Outcome.fault e
                  | Except.ok h4 =>
                    match RawMemory.destroy h4 (v.data_.Swap c.2).2 with
                    | Except.error e => Outcome.fault e
                    | Except.ok h5 =>
                      Outcome.returned (h5, { data_ := (v.data_.Swap c.2).1, size_ := v.size_ })) with
              | Outcome.fault e => (Outcome.fault e : Outcome (Heap T × Vector) (Heap T × Vector × Ptr))
              | Outcome.thrown s => Outcome.thrown s
              | Outcome.returned (h5, v1) =>
                match Vector.index { data_ := v1.data_, size_ := wrap (v1.size_ + 1) } v1.size_ with
                | Except.error e => Outcome.fault e
                | Except.ok p =>
                  Outcome.returned (h5, { data_ := v1.data_, size_ := wrap (v1.size_ + 1) }, p))
            = Outcome.ofExcept (do
                let y ← m
                let h4 ← destroy_n y (v.data_.Swap c.2).2.GetAddress v.size_
                let h5 ← RawMemory.destroy h4 (v.data_.Swap c.2).2
                let y ← pure (h5, ({ data_ := (v.data_.Swap c.2).1, size_ := v.size_ } : Vector))
                let p ← Vector.index { data_ := y.2.data_, size_ := wrap (y.2.size_ + 1) } y.2.size_
                pure (y.1, { data_ := y.2.data_, size_ := wrap (y.2.size_ + 1) }, p)) := by
          intro m
          cases m with
          | error e => rfl
          | ok h3 =>
            simp only [ok_bind, Outcome.ofExcept]
            cases destroy_n h3 (v.data_.Swap c.2).2.GetAddress v.size_ with
            | error e => rfl
            | ok h4 =>
              simp only [ok_bind]
              cases RawMemory.destroy h4 (v.data_.Swap c.2).2 with
              | error e => rfl
              | ok h5 =>
                simp only [ok_bind, pure_eq_ok]
                cases Vector.index { data_ := (v.data_.Swap c.2).1, size_ := wrap (v.size_ + 1) }
                    v.size_ with
                | error e => rfl
                | ok q => rfl
        by_cases hb : (ValueType.nothrow_move_constructible T
            || !ValueType.copy_constructible T) = true
        · simp only [hb, if_true]
          exact key _
        · simp only [hb, if_false]
          exact key _

/-- When no move assignment throws, `move_backward_n_ex` is `move_backward_n`. -/
theorem move_backward_n_ex_eq [ValueType T] (th : Throwing T)
    (ha : ∀ x, th.move_assign x = false) (h : Heap T) (last : Ptr) (n : Nat) (d_last : Ptr) :
    move_backward_n_ex th h last n d_last
      = Outcome.ofExcept (move_backward_n h last n d_last) := by
  induction n generalizing h last d_last with
  | zero => rfl
  | succ n ih =>
    unfold move_backward_n_ex move_backward_n
    cases last.sub 1 with
    | error e => rfl
    | ok last1 =>
      simp only
      cases d_last.sub 1 with
      | error e => rfl
      | ok d_last1 =>
        simp only
        cases hl : h.load last1 with
        | error e => simp [move_assign, hl, Outcome.ofExcept]
        | ok v =>
          simp only [ha, Bool.false_eq_true, if_false]
          cases move_assign h d_last1 last1 with
          | error e => rfl
          | ok h1 => exact ih h1 _ _

theorem std_move_backward_ex_eq [ValueType T] (th : Throwing T)
    (ha : ∀ x, th.move_assign x = false) (h : Heap T) (first last d_last : Ptr) :
    std_move_backward_ex th h first last d_last
      = Outcome.ofExcept (std_move_backward h first last d_last) := by
  unfold std_move_backward_ex std_move_backward
  cases last.diff first with
  | error e => rfl
  | ok n => exact move_backward_n_ex_eq th ha h _ _ _

/-- When nothing throws, `Emplace_ex` is `Emplace`. -/
theorem Emplace_ex_eq [ValueType T] (th : Throwing T) (hc : ∀ x, th.copy x = false)
    (hm : ∀ x, th.move x = false) (ha : ∀ x, th.move_assign x = false)
    (h : Heap T) (v : Vector) (pos : Ptr) (x : T) :
    v.Emplace_ex th h pos x false = Outcome.ofExcept (v.Emplace h pos x) := by
  unfold Vector.Emplace_ex Vector.Emplace
  simp only [Bool.false_eq_true, if_false, uninitialized_move_n_ex_eq th hm,
    std_move_backward_ex_eq th ha, RealocateElements_ex_eq th hc, EmplaceBack_ex_eq th hc hm,
    ha]
  have hb : v.begin = .ok ⟨v.data_.buffer_, 0⟩ := by
    simp [Vector.begin, RawMemory.plus]
  simp only [hb, ok_bind]
  cases v.end_ with
  | error e => rfl
  | ok end0 =>
    simp only [ok_bind]
    by_cases hp : pos = end0
    · simp only [hp, if_true]
      cases Vector.EmplaceBack h v x with
      | error e => rfl
      | ok r =>
        obtain ⟨h1, v1, q⟩ := r
        simp only [ok_bind, Outcome.ofExcept]
        cases v1.end_ with
        | error e => rfl
        | ok end1 =>
          simp only [ok_bind]
          cases end1.sub 1 with
          | error e => rfl
          | ok p => rfl
    · simp only [hp, if_false]
      cases pos.diff ⟨v.data_.buffer_, 0⟩ with
      | error e => rfl
      | ok offset =>
        simp only [ok_bind]
        by_cases hlt : v.size_ < v.Capacity
        · simp only [hlt, if_true, pure_bind]
          cases end0.sub 1 with
          | error e => rfl
          | ok last =>
            simp only [ok_bind]
            cases uninitialized_move_n h last 1 end0 with
            | error e => rfl
            | ok h1 =>
              simp only [ok_bind, Outcome.ofExcept]
              cases std_move_backward h1 (Ptr.add ⟨v.data_.buffer_, 0⟩ offset) last end0 with
              | error e => rfl
              | ok h2 =>
                simp only [ok_bind]
                cases v.index offset with
                | error e => rfl
                | ok p =>
                  simp only [ok_bind]
                  cases assign h2 p x with
                  | error e => rfl
                  | ok h3 =>
                    simp [Vector.begin, RawMemory.plus, pure_eq_ok, ok_bind]
        · simp only [hlt, if_false]
          generalize RawMemory.create h (if v.size_ = 0 then 1 else wrap (2 * v.size_)) = c
          simp only [pure_bind]
          cases c.2.plus offset with
          | error e => rfl
          | ok slot =>
            simp only [ok_bind]
            cases construct_at c.1 slot x with
            | error e => rfl
            | ok h2 =>
              simp only [ok_bind]
              cases Vector.RealocateElements h2 ⟨v.data_.buffer_, 0⟩ offset c.2.GetAddress with
              | error e => rfl
              | ok h3 =>
                simp only [ok_bind, Outcome.ofExcept]
                cases Vector.RealocateElements h3 (Ptr.add ⟨v.data_.buffer_, 0⟩ offset)
                    (size_t_sub v.size_ offset) (slot.add 1) with
                | error e => rfl
                | ok h4 =>
                  simp only [ok_bind]
                  cases destroy_n h4 (v.data_.Swap c.2).2.GetAddress v.size_ with
                  | error e => rfl
                  | ok h5 =>
                    simp only [ok_bind]
                    cases RawMemory.destroy h5 (v.data_.Swap c.2).2 with
                    | error e => rfl
                    | ok h6 =>
                      simp [Vector.begin, RawMemory.plus, pure_eq_ok, ok_bind]

/-- Destroying one or more slots from the start of a freshly allocated block is
undefined: its first slot is raw. -/
theorem destroy_n_fresh (h : Heap T) (n k : Nat) (hn : n ≠ 0) :
    destroy_n (⟨h.blocks ++ [some (List.replicate n none)]⟩ : Heap T)
      ⟨some h.blocks.length, 0⟩ (k + 1) = .error .undefined := by
  obtain ⟨m, rfl⟩ : ∃ m, n = m + 1 := ⟨n - 1, by omega⟩
  simp [destroy_n, destroy_at, Heap.load, Heap.slot, Heap.block_append_new,
    List.replicate_succ]

/-- The growth path of `PushBack(const T&)` when the copy constructor throws for the
new element: whatever the array, the handler destroys raw storage. -/
theorem PushBack_ex_ctor_throws [ValueType T] (th : Throwing T) (h : Heap T) (v : Vector)
    (x : T) (hge : ¬ v.size_ < v.Capacity) (hf : Fits T (2 * v.size_))
    (ht : th.copy x = true) : v.PushBack_ex th h x = .fault .undefined := by
  obtain ⟨hcap, hfit, hne, hlt, hlt2⟩ := growth_capacity hf
  have hw : wrap (v.size_ + 1) = v.size_ + 1 := wrap_succ (by omega)
  unfold Vector.PushBack_ex
  simp only [hge, if_false, ht, if_true, hcap, RawMemory.create, Allocate_fits h hne hfit,
    RawMemory.plus, Nat.le_of_lt hlt, RawMemory.GetAddress, hw, destroy_n_fresh h _ _ hne]

/-- The growth path of `EmplaceBack` when the constructor of the new element throws:
whatever the array, the handler destroys raw storage. -/
theorem EmplaceBack_ex_ctor_throws [ValueType T] (th : Throwing T) (h : Heap T) (v : Vector)
    (x : T) (hge : ¬ v.size_ < v.Capacity) (hf : Fits T (2 * v.size_)) :
    v.EmplaceBack_ex th h x true = .fault .undefined := by
  obtain ⟨hcap, hfit, hne, hlt, hlt2⟩ := growth_capacity hf
  have hw : wrap (v.size_ + 1) = v.size_ + 1 := wrap_succ (by omega)
  unfold Vector.EmplaceBack_ex
  simp only [hge, if_false, if_true, hcap, RawMemory.create, Allocate_fits h hne hfit,
    RawMemory.plus, Nat.le_of_lt hlt, RawMemory.GetAddress, hw, destroy_n_fresh h _ _ hne]

end Cpp
